import Mathlib

/-!
Verification development for the `jf` JSON-diff engine (Go package `jf`,
file modelled: the engine source with `diffValues`, `diffValuesCoerced`,
`diffInterSlice`, `diffInterSliceDetectEquals`, `diffObjxMapSlice`,
`diffMap`, `sortedKeys`, `joinSelectors`, the `lineA`/`lineAB`/`lineB`
emission helpers and the rule layer).

Modelling conventions, fixed once for the whole file:
* A parsed JSON tree is `JValue`: the seven kinds Null, Bool, Int, Float,
  String, Array, Object.  Objects are association lists (Go maps are
  unordered; the engine only observes them through `sortedKeys` and key
  lookup, which the theorems treat explicitly).
* Go `float64` is modelled as `Rat`.  The textual rendering of a float is
  abstracted by `floatJSON` (Go uses shortest-decimal formatting; no claim
  below inspects float text).  `FloatEqualFunc` is an arbitrary
  `Rat → Rat → Bool`.
* A compiled regular expression is modelled as its matching function
  `String → Bool` (Go calls `MatchString` only).
* Fallible Go paths return `Except String`.  A Go `panic` (nil-function
  call inside `isZero`, the `isZero` default case on a raw value, a failed
  `MustObjxMapSlice` conversion) is modelled as an `Except.error` whose
  message starts with "panic:".
* `jsonI` values record whether the Go side held a `*objx.Value`
  (`wrapped := true`) or a raw `interface{}` / `objx.Map` slice element
  (`wrapped := false`): the Go `isZero` type switch treats the two cases
  differently, and panics on raw slices, maps and nils.
* `IsObjxMapSlice` / `MustObjxMapSlice` follow objx: an `[]interface{}`
  whose elements are all maps (in particular an empty one) is an
  ObjxMapSlice, and converting a slice with a non-map element fails.
-/

namespace Jf

/-- One JSON node: the seven value kinds of the engine's data model. -/
inductive JValue where
  | null : JValue
  | bool (b : Bool) : JValue
  | int (i : Int) : JValue
  | float (f : Rat) : JValue
  | str (s : String) : JValue
  | arr (items : List JValue) : JValue
  | obj (fields : List (String × JValue)) : JValue

/-- An object's field list: the engine sees Go `map[string]interface{}`
(`objx.Map`) only through sorted keys and lookup. -/
abbrev JMap := List (String × JValue)

/-- Kind predicate: Null. -/
def JValue.isNull : JValue → Bool
  | .null => true
  | _ => false

/-- Kind predicate: Bool. -/
def JValue.isBool : JValue → Bool
  | .bool _ => true
  | _ => false

/-- Kind predicate: Int. -/
def JValue.isInt : JValue → Bool
  | .int _ => true
  | _ => false

/-- Kind predicate: Float. -/
def JValue.isFloat : JValue → Bool
  | .float _ => true
  | _ => false

/-- Kind predicate: String. -/
def JValue.isStr : JValue → Bool
  | .str _ => true
  | _ => false

/-- Kind predicate: Array (`IsInterSlice`). -/
def JValue.isArr : JValue → Bool
  | .arr _ => true
  | _ => false

/-- Kind predicate: Object (`IsObjxMap`). -/
def JValue.isObj : JValue → Bool
  | .obj _ => true
  | _ => false

/-- The Go dynamic type of the data a value holds, as `reflect.TypeOf`
distinguishes them: nil, bool, float64, string, []interface\x7b\x7d and
map[string]interface\x7b\x7d are pairwise distinct. -/
def kindTag : JValue → Nat
  | .null => 0
  | .bool _ => 1
  | .int _ => 2
  | .float _ => 3
  | .str _ => 4
  | .arr _ => 5
  | .obj _ => 6

/-- Go `MustBool`; total because every call site has already checked the kind. -/
def JValue.boolD : JValue → Bool
  | .bool b => b
  | _ => false

/-- Go `MustInt`; total because every call site has already checked the kind. -/
def JValue.intD : JValue → Int
  | .int i => i
  | _ => 0

/-- Go `MustStr`; total because every call site has already checked the kind. -/
def JValue.strD : JValue → String
  | .str s => s
  | _ => ""

/-- Go `MustInterSlice`; total because every call site has already checked the kind. -/
def JValue.arrD : JValue → List JValue
  | .arr xs => xs
  | _ => []

/-- Go `MustObjxMap`; total because every call site has already checked the kind. -/
def JValue.objD : JValue → JMap
  | .obj m => m
  | _ => []

/-- Go `Bool(false)`: the bool, or the default for any other kind. -/
def JValue.boolOrDefault : JValue → Bool → Bool
  | .bool b, _ => b
  | _, dflt => dflt

/-- Go `Int(0)`: the int, or the default for any other kind. -/
def JValue.intOrDefault : JValue → Int → Int
  | .int i, _ => i
  | _, dflt => dflt

/-- Go `Str("")`: the string, or the default for any other kind. -/
def JValue.strOrDefault : JValue → String → String
  | .str s, _ => s
  | _, dflt => dflt

/-- Go `ObjxMap(...)`: the map, or the default for any other kind. -/
def JValue.objOrDefault : JValue → JMap → JMap
  | .obj m, _ => m
  | _, dflt => dflt

mutual

/-- Size of a value, the termination measure of the engine.  `null` weighs 2
so that the coerced path's substitution of `arr []` (weight 1) for a null
strictly shrinks the measure. -/
def jsize : JValue → Nat
  | .null => 2
  | .bool _ => 1
  | .int _ => 1
  | .float _ => 1
  | .str _ => 1
  | .arr xs => 1 + jsizeL xs
  | .obj m => 1 + jsizeM m

/-- Size of an element list. -/
def jsizeL : List JValue → Nat
  | [] => 0
  | x :: xs => 1 + jsize x + jsizeL xs

/-- Size of a field list. -/
def jsizeM : JMap → Nat
  | [] => 0
  | p :: rest => 1 + jsize p.2 + jsizeM rest

end

/-- Size of a list of maps (an `[]objx.Map`). -/
def jsizeMS : List JMap → Nat
  | [] => 0
  | m :: rest => 1 + jsizeM m + jsizeMS rest

theorem jsizeL_mem_lt {x : JValue} {xs : List JValue} (h : x ∈ xs) :
    jsize x < jsizeL xs := by
  induction xs with
  | nil => cases h
  | cons y ys ih =>
    rcases List.mem_cons.mp h with h1 | h2
    · subst h1; simp [jsizeL]; omega
    · have := ih h2; simp [jsizeL]; omega

theorem jsizeL_get_lt (xs : List JValue) (i : Nat) (h : i < xs.length) :
    jsize (xs.get ⟨i, h⟩) < jsizeL xs :=
  jsizeL_mem_lt (xs.get_mem i h)

theorem jsizeL_getElem_lt (xs : List JValue) (i : Nat) (h : i < xs.length) :
    jsize xs[i] < jsizeL xs :=
  jsizeL_mem_lt (List.getElem_mem h)

theorem jsizeL_getD_lt (xs : List JValue) (i : Nat) (h : i < xs.length) :
    jsize (xs.getD i JValue.null) < jsizeL xs := by
  rw [List.getD_eq_getElem?_getD, List.getElem?_eq_getElem h]
  exact jsizeL_getElem_lt xs i h

theorem jsizeMS_mem_lt {m : JMap} {ms : List JMap} (h : m ∈ ms) :
    jsizeM m < jsizeMS ms := by
  induction ms with
  | nil => cases h
  | cons y ys ih =>
    rcases List.mem_cons.mp h with h1 | h2
    · subst h1; simp [jsizeMS]; omega
    · have := ih h2; simp [jsizeMS]; omega

theorem jsizeMS_get_lt (ms : List JMap) (i : Nat) (h : i < ms.length) :
    jsizeM (ms.get ⟨i, h⟩) < jsizeMS ms :=
  jsizeMS_mem_lt (ms.get_mem i h)

theorem jsizeMS_getElem_lt (ms : List JMap) (i : Nat) (h : i < ms.length) :
    jsizeM ms[i] < jsizeMS ms :=
  jsizeMS_mem_lt (List.getElem_mem h)

theorem jsizeMS_getD_lt (ms : List JMap) (i : Nat) (h : i < ms.length) :
    jsizeM (ms.getD i []) < jsizeMS ms := by
  rw [List.getD_eq_getElem?_getD, List.getElem?_eq_getElem h]
  exact jsizeMS_getElem_lt ms i h

/-- Key lookup on an object: the first field with the key, as a Go map read
(keys of a real map are unique). -/
def JMap.get? (m : JMap) (k : String) : Option JValue :=
  (m.find? (fun p => p.1 == k)).map Prod.snd

/-- Go `objx.Map.Get`: a missing key reads as a nil value. -/
def JMap.get (m : JMap) (k : String) : JValue :=
  (JMap.get? m k).getD .null

/-- Go `objx.Map.Has`. -/
def JMap.has (m : JMap) (k : String) : Bool :=
  (JMap.get? m k).isSome

theorem jsizeM_get?_lt {m : JMap} {k : String} {v : JValue}
    (h : JMap.get? m k = some v) : jsize v < jsizeM m := by
  induction m with
  | nil => simp [JMap.get?] at h
  | cons p rest ih =>
    by_cases hk : p.1 == k
    · simp [JMap.get?, List.find?, hk] at h
      subst h; simp [jsizeM]; omega
    · simp [JMap.get?, List.find?, hk] at h ⊢
      have := ih (by simpa [JMap.get?] using h)
      simp [jsizeM]; omega

theorem jsizeM_get_lt_of_has {m : JMap} {k : String}
    (h : JMap.has m k = true) : jsize (JMap.get m k) < jsizeM m := by
  unfold JMap.has at h
  rcases Option.isSome_iff_exists.mp h with ⟨v, hv⟩
  have := jsizeM_get?_lt hv
  simpa [JMap.get, hv] using this

/-- Bytewise string comparison on the character lists, the order
`sort.Strings` uses (UTF-8 byte order and code-point order agree). -/
def charListLe : List Char → List Char → Bool
  | [], _ => true
  | _ :: _, [] => false
  | c :: cs, d :: ds =>
    if c.toNat < d.toNat then true
    else if d.toNat < c.toNat then false
    else charListLe cs ds

/-- String order used by `sortedKeys`. -/
def strLeB (a b : String) : Bool :=
  charListLe a.data b.data

theorem charListLe_total (a b : List Char) :
    charListLe a b = true ∨ charListLe b a = true := by
  induction a generalizing b with
  | nil => left; simp [charListLe]
  | cons c cs ih =>
    cases b with
    | nil => right; simp [charListLe]
    | cons d ds =>
      by_cases h1 : c.toNat < d.toNat
      · left; simp [charListLe, h1]
      · by_cases h2 : d.toNat < c.toNat
        · right; simp [charListLe, h1, h2]
        · have heq : d.toNat = c.toNat := by omega
          rcases ih ds with h | h
          · left; simp [charListLe, h1, h2, h]
          · right; simp [charListLe, heq, h]

theorem charListLe_trans {a b c : List Char} (h1 : charListLe a b = true)
    (h2 : charListLe b c = true) : charListLe a c = true := by
  induction a generalizing b c with
  | nil => simp [charListLe]
  | cons x xs ih =>
    cases b with
    | nil => simp [charListLe] at h1
    | cons y ys =>
      cases c with
      | nil => simp [charListLe] at h2
      | cons z zs =>
        simp only [charListLe] at h1 h2 ⊢
        by_cases hxy : x.toNat < y.toNat <;> by_cases hyz : y.toNat < z.toNat
        · rw [if_pos (by omega)]
        · by_cases hzy : z.toNat < y.toNat
          · rw [if_neg hyz, if_pos hzy] at h2; exact absurd h2 (by simp)
          · rw [if_pos (by omega)]
        · by_cases hyx : y.toNat < x.toNat
          · rw [if_neg hxy, if_pos hyx] at h1; exact absurd h1 (by simp)
          · rw [if_pos (by omega)]
        · by_cases hyx : y.toNat < x.toNat
          · rw [if_neg hxy, if_pos hyx] at h1; exact absurd h1 (by simp)
          · by_cases hzy : z.toNat < y.toNat
            · rw [if_neg hyz, if_pos hzy] at h2; exact absurd h2 (by simp)
            · rw [if_neg hxy, if_neg hyx] at h1
              rw [if_neg hyz, if_neg hzy] at h2
              rw [if_neg (by omega : ¬ x.toNat < z.toNat),
                if_neg (by omega : ¬ z.toNat < x.toNat)]
              exact ih h1 h2

theorem charListLe_antisymm {a b : List Char} (h1 : charListLe a b = true)
    (h2 : charListLe b a = true) : a = b := by
  induction a generalizing b with
  | nil =>
    cases b with
    | nil => rfl
    | cons y ys => simp [charListLe] at h2
  | cons x xs ih =>
    cases b with
    | nil => simp [charListLe] at h1
    | cons y ys =>
      simp only [charListLe] at h1 h2
      by_cases hxy : x.toNat < y.toNat
      · rw [if_neg (by omega : ¬ y.toNat < x.toNat), if_pos hxy] at h2
        exact absurd h2 (by simp)
      · by_cases hyx : y.toNat < x.toNat
        · rw [if_neg hxy, if_pos hyx] at h1
          exact absurd h1 (by simp)
        · have hx : x = y := Char.eq_of_val_eq (UInt32.ext (by
            simp only [Char.toNat] at hxy hyx; omega))
          rw [if_neg hxy, if_neg hyx] at h1
          rw [if_neg hyx, if_neg hxy] at h2
          rw [hx, ih h1 h2]

/-- The proposition form of `strLeB`, to reuse the sorting library. -/
def strLe (a b : String) : Prop := strLeB a b = true

instance : DecidableRel strLe := fun _ _ => inferInstanceAs (Decidable (_ = true))

instance : IsTotal String strLe :=
  ⟨fun a b => charListLe_total a.data b.data⟩

instance : IsTrans String strLe :=
  ⟨fun _ _ _ h1 h2 => charListLe_trans h1 h2⟩

instance : IsAntisymm String strLe :=
  ⟨fun a b h1 h2 => by
    apply String.ext
    exact charListLe_antisymm h1 h2⟩

/-- Go `sort.Strings`: the keys in ascending bytewise order. -/
def sortStrings (l : List String) : List String :=
  List.insertionSort strLe l

/-- The `sortedKeys` helper: collect an object's keys and sort them. -/
def sortedKeys (m : JMap) : List String :=
  sortStrings (m.map Prod.fst)

/-- Go `strings.HasPrefix(selector, "[")`: the selector starts with an
opening bracket. -/
def startsWithBracket (s : String) : Bool :=
  match s.data with
  | c :: _ => c == '['
  | [] => false

/-- The `joinSelectors` helper: dot for a field, nothing for an index, no
leading dot at the root. -/
def joinSelectors (mainSelector selector : String) : String :=
  if mainSelector == "" then selector
  else if startsWithBracket selector then mainSelector ++ selector
  else mainSelector ++ "." ++ selector

/-- A float comparison function (`FloatEqualFunc`). -/
abbrev FloatEqualFunc := Rat → Rat → Bool

/-- The default float comparison: absolute difference at most 1e-9. -/
def defaultFloatEqual (a b : Rat) : Bool :=
  |a - b| ≤ 1 / 1000000000

/-- The rule actions of the engine. -/
inductive ruleAction where
  | coercenull : ruleAction
  | ignoreAct : ruleAction
  | ignoreIfZero : ruleAction
  | floatEqual : ruleAction
  | ignoreOrder : ruleAction
  | stringNumber : ruleAction
deriving DecidableEq

instance : BEq ruleAction := ⟨fun a b => decide (a = b)⟩

/-- One rule: a compiled selector pattern (modelled by its matching
function), the action, and the float comparison payload (read only from
`floatEqual` rules; Go leaves it nil elsewhere and never reads it). -/
structure rule where
  matchSel : String → Bool
  action : ruleAction
  floatEqualFunc : FloatEqualFunc

/-- The side a rule applies to. -/
inductive ruleDest where
  | RuleA : ruleDest
  | RuleB : ruleDest
  | RuleAB : ruleDest

/-- One recorded difference. -/
structure SingleDiff where
  selector : String
  valueA : String
  valueB : String
deriving DecidableEq

/-- The ordered difference list. -/
abbrev DiffList := List SingleDiff

/-- The differ: the accumulator and the two per-side rule lists. -/
structure Differ where
  diff : DiffList
  rulesA : List rule
  rulesB : List rule

/-- `NewDiffer`: no rules, empty accumulator. -/
def NewDiffer : Differ :=
  { diff := [], rulesA := [], rulesB := [] }

/-- The `clone` helper: an empty accumulator with the same rules. -/
def Differ.clone (d : Differ) : Differ :=
  { diff := [], rulesA := d.rulesA, rulesB := d.rulesB }

/-- The `addRule` helper. -/
def Differ.addRule (d : Differ) (dest : ruleDest) (r : rule) : Differ :=
  match dest with
  | .RuleA => { d with rulesA := d.rulesA ++ [r] }
  | .RuleB => { d with rulesB := d.rulesB ++ [r] }
  | .RuleAB => { d with rulesA := d.rulesA ++ [r], rulesB := d.rulesB ++ [r] }

/-- `AddCoerceNull`. -/
def Differ.AddCoerceNull (d : Differ) (dest : ruleDest) (sel : String → Bool) : Differ :=
  d.addRule dest { matchSel := sel, action := .coercenull, floatEqualFunc := defaultFloatEqual }

/-- `AddIgnore`. -/
def Differ.AddIgnore (d : Differ) (dest : ruleDest) (sel : String → Bool) : Differ :=
  d.addRule dest { matchSel := sel, action := .ignoreAct, floatEqualFunc := defaultFloatEqual }

/-- `AddIgnoreIfZero`. -/
def Differ.AddIgnoreIfZero (d : Differ) (dest : ruleDest) (sel : String → Bool) : Differ :=
  d.addRule dest { matchSel := sel, action := .ignoreIfZero, floatEqualFunc := defaultFloatEqual }

/-- `AddIgnoreOrder` (always both sides). -/
def Differ.AddIgnoreOrder (d : Differ) (sel : String → Bool) : Differ :=
  d.addRule .RuleAB { matchSel := sel, action := .ignoreOrder, floatEqualFunc := defaultFloatEqual }

/-- The `matchRule` query: does any rule of the action match the selector,
per side. -/
def Differ.matchRule (d : Differ) (selector : String) (action : ruleAction) : Bool × Bool :=
  (d.rulesA.any (fun r => r.action == action && r.matchSel selector),
   d.rulesB.any (fun r => r.action == action && r.matchSel selector))

/-- `shouldCoerceNull`. -/
def Differ.shouldCoerceNull (d : Differ) (selector : String) : Bool × Bool :=
  d.matchRule selector .coercenull

/-- `shouldIgnore`. -/
def Differ.shouldIgnore (d : Differ) (selector : String) : Bool × Bool :=
  d.matchRule selector .ignoreAct

/-- `shouldIgnoreIfZero`. -/
def Differ.shouldIgnoreIfZero (d : Differ) (selector : String) : Bool × Bool :=
  d.matchRule selector .ignoreIfZero

/-- `floatEqualFunc`: the first matching float-equal rule of the A list,
else the default (Go scans `rulesA` only; `AddFloatEqual` adds to both). -/
def Differ.floatEqualFunc (d : Differ) (selector : String) : FloatEqualFunc :=
  match d.rulesA.find? (fun r => r.action == ruleAction.floatEqual && r.matchSel selector) with
  | some r => r.floatEqualFunc
  | none => defaultFloatEqual

/-- `shouldIgnoreOrder` (the A side of the match). -/
def Differ.shouldIgnoreOrder (d : Differ) (selector : String) : Bool :=
  (d.matchRule selector .ignoreOrder).1

/-- `shouldConvertStringToNumber` (the A side of the match). -/
def Differ.shouldConvertStringToNumber (d : Differ) (selector : String) : Bool :=
  (d.matchRule selector .stringNumber).1

/-- One lowercase hex digit, as Go writes `\u00xx` escapes. -/
def hexDigit (n : Nat) : Char :=
  if n < 10 then Char.ofNat (48 + n) else Char.ofNat (87 + n)

/-- Go `json.Marshal` escaping of one character inside a string literal:
quote, backslash, the named control escapes, `\u00xx` for other controls,
and the default HTML escapes for angle brackets, ampersand, U+2028 and
U+2029. -/
def escapeChar (c : Char) : String :=
  if c = '"' then "\\\""
  else if c = '\\' then "\\\\"
  else if c = '\n' then "\\n"
  else if c = '\r' then "\\r"
  else if c = '\t' then "\\t"
  else if c.toNat < 32 then
    String.mk ['\\', 'u', '0', '0', hexDigit (c.toNat / 16), hexDigit (c.toNat % 16)]
  else if c = '<' then "\\u003c"
  else if c = '>' then "\\u003e"
  else if c = '&' then "\\u0026"
  else if c.toNat = 8232 then "\\u2028"
  else if c.toNat = 8233 then "\\u2029"
  else String.mk [c]

/-- The JSON text of a string value. -/
def jsonQuote (s : String) : String :=
  "\"" ++ String.join (s.data.map escapeChar) ++ "\""

/-- The JSON text of a float.  This abstracts Go's shortest-decimal float64
formatting, which no claim below inspects: integral rationals render like
ints, others as numerator/denominator. -/
def floatJSON (q : Rat) : String :=
  if q.den = 1 then toString q.num
  else toString q.num ++ "/" ++ toString q.den

/-- Field order by key, the order in which Go `json.Marshal` writes a map. -/
def pairLe (p q : String × JValue) : Prop := strLe p.1 q.1

instance : DecidableRel pairLe :=
  fun p q => inferInstanceAs (Decidable (strLe p.1 q.1))

/-- An object's fields in ascending key order, as `json.Marshal` writes them. -/
def sortPairs (m : JMap) : JMap := List.insertionSort pairLe m

mutual

/-- The key-sorted presentation of a tree: every object's field list is put
in ascending key order, the shape that `json.Marshal` serialises. -/
def sortJ : JValue → JValue
  | .null => .null
  | .bool b => .bool b
  | .int i => .int i
  | .float f => .float f
  | .str s => .str s
  | .arr xs => .arr (sortJL xs)
  | .obj m => .obj (sortPairs (sortJM m))

/-- `sortJ` on each element of an array. -/
def sortJL : List JValue → List JValue
  | [] => []
  | x :: xs => sortJ x :: sortJL xs

/-- `sortJ` on each value of a field list. -/
def sortJM : JMap → JMap
  | [] => []
  | p :: rest => (p.1, sortJ p.2) :: sortJM rest

end

mutual

/-- JSON text of a value whose objects are already key-sorted: arrays in
order, strings quoted and escaped. -/
def renderJ : JValue → String
  | .null => "null"
  | .bool b => if b then "true" else "false"
  | .int i => toString i
  | .float f => floatJSON f
  | .str s => jsonQuote s
  | .arr xs => "[" ++ renderJL xs ++ "]"
  | .obj m => "\x7b" ++ renderJM m ++ "\x7d"

/-- Comma-joined JSON texts of array elements. -/
def renderJL : List JValue → String
  | [] => ""
  | [x] => renderJ x
  | x :: rest => renderJ x ++ "," ++ renderJL rest

/-- Comma-joined JSON texts of an object's fields. -/
def renderJM : JMap → String
  | [] => ""
  | [p] => jsonQuote p.1 ++ ":" ++ renderJ p.2
  | p :: rest => jsonQuote p.1 ++ ":" ++ renderJ p.2 ++ "," ++ renderJM rest

end

/-- Go `json.Marshal` of a value (`jsonI.JSON` marshals the held data): maps
render with sorted keys, arrays in order, strings quoted and escaped. -/
def JValue.json (v : JValue) : String := renderJ (sortJ v)

/-- Accumulate the value of a digit run, most significant first. -/
def digitsToNat : Nat → List Char → Nat
  | acc, [] => acc
  | acc, c :: cs => digitsToNat (acc * 10 + (c.toNat - 48)) cs

/-- Go `strconv.Atoi`: optional sign, one or more digits, int64 range. -/
def goAtoi (s : String) : Option Int :=
  let p : Bool × List Char :=
    match s.data with
    | '-' :: rest => (true, rest)
    | '+' :: rest => (false, rest)
    | l => (false, l)
  if p.2.isEmpty || !(p.2.all Char.isDigit) then none
  else
    let n : Int := Int.ofNat (digitsToNat 0 p.2)
    let v : Int := if p.1 then -n else n
    if v < -(2 ^ 63) || v > 2 ^ 63 - 1 then none else some v

/-- The exponent part of a decimal float: empty, or `e`/`E`, an optional
sign and one or more digits. -/
def parseExpPart : List Char → Option Int
  | [] => some 0
  | _ :: rest =>
    match rest with
    | '-' :: ds =>
      if ds.isEmpty || !(ds.all Char.isDigit) then none
      else some (-(Int.ofNat (digitsToNat 0 ds)))
    | '+' :: ds =>
      if ds.isEmpty || !(ds.all Char.isDigit) then none
      else some (Int.ofNat (digitsToNat 0 ds))
    | ds =>
      if ds.isEmpty || !(ds.all Char.isDigit) then none
      else some (Int.ofNat (digitsToNat 0 ds))

/-- Go `strconv.ParseFloat` on the decimal grammar: optional sign, digits
with an optional fractional point (at least one digit overall), optional
exponent.  The value is kept exact as a rational; hexadecimal float
literals and inf/nan words are not modelled (`tryAsNumber` only reaches
this with a '.' in the text). -/
def goParseFloat (s : String) : Option Rat :=
  let p : Bool × List Char :=
    match s.data with
    | '-' :: rest => (true, rest)
    | '+' :: rest => (false, rest)
    | l => (false, l)
  let mant := p.2.takeWhile (fun c => !(c == 'e') && !(c == 'E'))
  let expPart := p.2.drop mant.length
  let intPart := mant.takeWhile (fun c => !(c == '.'))
  let fracTail := mant.drop intPart.length
  let frac := match fracTail with
    | '.' :: f => some f
    | [] => some []
    | _ => none
  match frac with
  | none => none
  | some f =>
    if !(intPart.all Char.isDigit) || !(f.all Char.isDigit) then none
    else if intPart.isEmpty && f.isEmpty then none
    else
      match parseExpPart expPart with
      | none => none
      | some e =>
        let mantissa : Rat :=
          (digitsToNat 0 (intPart ++ f) : Rat) / ((10 : Rat) ^ f.length)
        let value := mantissa * (10 : Rat) ^ (e : Int)
        some (if p.1 then -value else value)

/-- The `tryAsNumber` helper: parse a string as an int, or as a float when
it contains a point; anything unparsable, and every non-string, is returned
unchanged.  Successful parses take the numeric kind of the spec's value
model (integral text to Int, pointed text to Float). -/
def tryAsNumber (valueA : JValue) : JValue :=
  match valueA with
  | .str aStr =>
    if aStr.data.contains '.' then
      match goParseFloat aStr with
      | some q => .float q
      | none => .str aStr
    else
      match goAtoi aStr with
      | some i => .int i
      | none => .str aStr
  | v => v

/-- Go `mustFloat64`: unpack an int or a float as a float; total because
every call site has already checked the kind. -/
def mustFloat64 : JValue → Rat
  | .int i => (i : Rat)
  | .float f => f
  | _ => 0

/-- Go `float64OrZero`: the number, or zero for a coerced null. -/
def float64OrZero : JValue → Rat
  | .int i => (i : Rat)
  | .float f => f
  | _ => 0

/-- One operand of an emission: the value, whether the Go side held a
`*objx.Value` (wrapped) or a raw `interface{}`, and the float comparison
function stored alongside (None models Go's nil function pointer). -/
structure jsonI where
  v : JValue
  wrapped : Bool
  floatEqualFunc : Option FloatEqualFunc

/-- Go `jsonI.JSON`: marshal the held data (wrapped or raw is marshalled
alike). -/
def jsonI.JSON (i : jsonI) : String := i.v.json

/-- Go `jsonI.isZero`.  The wrapped branch is the `*objx.Value` type switch
(total over the seven kinds, nil counts as zero); the raw branch covers
only int, float64, string and bool, and panics on a raw slice, map or nil;
a float test through a nil function pointer also panics. -/
def jsonI.isZero (i : jsonI) : Except String Bool :=
  if i.wrapped then
    match i.v with
    | .int n => .ok (n == 0)
    | .float f =>
      match i.floatEqualFunc with
      | some feq => .ok (feq f 0)
      | none => .error "panic: nil floatEqualFunc"
    | .str s => .ok (s == "")
    | .bool b => .ok (!b)
    | .arr xs => .ok xs.isEmpty
    | .obj m => .ok m.isEmpty
    | .null => .ok true
  else
    match i.v with
    | .int n => .ok (n == 0)
    | .float f =>
      match i.floatEqualFunc with
      | some feq => .ok (feq f 0)
      | none => .error "panic: nil floatEqualFunc"
    | .str s => .ok (s == "")
    | .bool b => .ok (!b)
    | .arr _ => .error "panic: isZero does not support this raw type"
    | .obj _ => .error "panic: isZero does not support this raw type"
    | .null => .error "panic: isZero does not support this raw type"

/-- The `lineA` emission site: a left-only patch, gated by the ignore and
ignore-if-zero rules of side A. -/
def Differ.lineA (d : Differ) (mainSelector selector : String) (valueA : jsonI) :
    Except String Differ :=
  if (d.shouldIgnore (joinSelectors mainSelector selector)).1 then .ok d
  else if (d.shouldIgnoreIfZero (joinSelectors mainSelector selector)).1 then
    match valueA.isZero with
    | .error e => .error e
    | .ok true => .ok d
    | .ok false =>
      .ok { d with diff := d.diff ++
        [{ selector := joinSelectors mainSelector selector,
           valueA := valueA.JSON, valueB := "" }] }
  else
    .ok { d with diff := d.diff ++
      [{ selector := joinSelectors mainSelector selector,
         valueA := valueA.JSON, valueB := "" }] }

/-- The `lineAB` emission site: a both-sides patch, gated by the rules of
both sides, checking side A's zero before side B's as Go's short-circuit
does. -/
def Differ.lineAB (d : Differ) (mainSelector selector : String) (valueA valueB : jsonI) :
    Except String Differ :=
  if (d.shouldIgnore (joinSelectors mainSelector selector)).1 ||
      (d.shouldIgnore (joinSelectors mainSelector selector)).2 then .ok d
  else
    match (if (d.shouldIgnoreIfZero (joinSelectors mainSelector selector)).1
        then valueA.isZero else .ok false) with
    | .error e => .error e
    | .ok true => .ok d
    | .ok false =>
      match (if (d.shouldIgnoreIfZero (joinSelectors mainSelector selector)).2
          then valueB.isZero else .ok false) with
      | .error e => .error e
      | .ok true => .ok d
      | .ok false =>
        .ok { d with diff := d.diff ++
          [{ selector := joinSelectors mainSelector selector,
             valueA := valueA.JSON, valueB := valueB.JSON }] }

/-- The `lineB` emission site: a right-only patch, gated by the rules of
side B. -/
def Differ.lineB (d : Differ) (mainSelector selector : String) (valueB : jsonI) :
    Except String Differ :=
  if (d.shouldIgnore (joinSelectors mainSelector selector)).2 then .ok d
  else if (d.shouldIgnoreIfZero (joinSelectors mainSelector selector)).2 then
    match valueB.isZero with
    | .error e => .error e
    | .ok true => .ok d
    | .ok false =>
      .ok { d with diff := d.diff ++
        [{ selector := joinSelectors mainSelector selector,
           valueA := "", valueB := valueB.JSON }] }
  else
    .ok { d with diff := d.diff ++
      [{ selector := joinSelectors mainSelector selector,
         valueA := "", valueB := valueB.JSON }] }

/-- Go `intSet`, as the list of its members. -/
abbrev intSet := List Nat

/-- Go `intSet.Add`. -/
def intSet.Add (s : intSet) (v : Nat) : intSet :=
  if s.contains v then s else v :: s

/-- Go `intSet.Has`. -/
def intSet.Has (s : intSet) (v : Nat) : Bool :=
  s.contains v

/-- The objx `IsObjxMapSlice` test: every element of the slice is a map (an
empty slice passes). -/
def isObjxMapSlice : JValue → Bool
  | .arr xs => xs.all JValue.isObj
  | _ => false

/-- The element-wise conversion behind objx `ObjxMapSlice`: none when an
element is not a map. -/
def objxMapSliceGo : List JValue → Option (List JMap)
  | [] => some []
  | .obj m :: rest => (objxMapSliceGo rest).map (fun ms => m :: ms)
  | _ => none

/-- The objx `MustObjxMapSlice` conversion, before its panic-on-none. -/
def objxMapSliceOf : JValue → Option (List JMap)
  | .arr xs => objxMapSliceGo xs
  | _ => none

/-- The Go reflect type name of a value's data, for the engine's
unsupported-type errors. -/
def kindName : JValue → String
  | .null => "<nil>"
  | .bool _ => "bool"
  | .int _ => "int"
  | .float _ => "float64"
  | .str _ => "string"
  | .arr _ => "[]interface \x7b\x7d"
  | .obj _ => "map[string]interface \x7b\x7d"

/-- The right-only overhang loop of the positional array diff: one raw
`lineB` per extra B element. -/
def interSliceTailB (d : Differ) (mainSelector : String) (bs : List JValue) (idx : Nat) :
    Except String Differ :=
  match bs with
  | [] => .ok d
  | b :: rest =>
    match d.lineB "" (joinSelectors mainSelector ("[" ++ toString idx ++ "]"))
        ⟨b, false, some (d.floatEqualFunc (joinSelectors mainSelector ("[" ++ toString idx ++ "]")))⟩ with
    | .error e => .error e
    | .ok d2 => interSliceTailB d2 mainSelector rest (idx + 1)

/-- The right-only overhang loop of `diffObjxMapSlice`: one raw map
`lineB` per extra B element. -/
def objxMapSliceTailB (d : Differ) (mainSelector : String) (bs : List JMap) (idx : Nat) :
    Except String Differ :=
  match bs with
  | [] => .ok d
  | b :: rest =>
    match d.lineB "" (joinSelectors mainSelector ("[" ++ toString idx ++ "]"))
        ⟨.obj b, false, some (d.floatEqualFunc (joinSelectors mainSelector ("[" ++ toString idx ++ "]")))⟩ with
    | .error e => .error e
    | .ok d2 => objxMapSliceTailB d2 mainSelector rest (idx + 1)

/-- The loop over B's sorted keys in `diffMap`: skip the keys A has (Go's
`visitedKeysA` holds exactly A's keys once its loop finished), emit a
right-only patch for the rest. -/
def diffMapWalkB (d : Differ) (mainSelector : String) (objA objB : JMap) (keys : List String) :
    Except String Differ :=
  match keys with
  | [] => .ok d
  | keyB :: rest =>
    if JMap.has objA keyB then diffMapWalkB d mainSelector objA objB rest
    else
      match d.lineB "" (joinSelectors mainSelector keyB)
          ⟨JMap.get objB keyB, true, some (d.floatEqualFunc (joinSelectors mainSelector keyB))⟩ with
      | .error e => .error e
      | .ok d2 => diffMapWalkB d2 mainSelector objA objB rest

theorem jsize_pos (v : JValue) : 1 ≤ jsize v := by
  cases v <;> simp [jsize] <;> omega

theorem jsizeM_objD_lt (v : JValue) : jsizeM v.objD < jsize v := by
  cases v <;> simp [JValue.objD, jsize, jsizeM] <;> omega

theorem jsizeM_objOrDefault_lt (v : JValue) : jsizeM (v.objOrDefault []) < jsize v := by
  cases v <;> simp [JValue.objOrDefault, jsize, jsizeM] <;> omega

theorem jsizeL_arrD_lt (v : JValue) : jsizeL v.arrD < jsize v := by
  cases v <;> simp [JValue.arrD, jsize, jsizeL] <;> omega

theorem jsize_tryAsNumber (v : JValue) : jsize (tryAsNumber v) = jsize v := by
  cases v <;> simp only [tryAsNumber] <;> try rfl
  split
  · split <;> simp [jsize]
  · split <;> simp [jsize]

theorem objxMapSliceGo_size {xs : List JValue} {ms : List JMap}
    (h : objxMapSliceGo xs = some ms) : jsizeMS ms ≤ jsizeL xs := by
  induction xs generalizing ms with
  | nil => simp [objxMapSliceGo] at h; subst h; simp [jsizeMS, jsizeL]
  | cons x rest ih =>
    cases x <;> simp [objxMapSliceGo] at h
    rcases h with ⟨ms2, hms2, hcons⟩
    subst hcons
    have := ih hms2
    simp [jsizeMS, jsizeL, jsize]
    omega

theorem objxMapSliceOf_lt {v : JValue} {ms : List JMap}
    (h : objxMapSliceOf v = some ms) : jsizeMS ms < jsize v := by
  cases v <;> simp [objxMapSliceOf] at h
  case arr xs =>
    have := objxMapSliceGo_size h
    simp [jsize]
    omega

/-- The conditional string-to-number conversion step of `diffValues`. -/
def tryAsNumberWhen (b : Bool) (v : JValue) : JValue :=
  if b then tryAsNumber v else v

theorem jsize_tryAsNumberWhen (b : Bool) (v : JValue) :
    jsize (tryAsNumberWhen b v) = jsize v := by
  unfold tryAsNumberWhen
  split <;> simp [jsize_tryAsNumber]

/-- The coerced array path's substitution of an empty slice for a null. -/
def nilToEmptySlice (v : JValue) : JValue :=
  if v.isNull then JValue.arr [] else v

theorem jsize_nilToEmptySlice_le (v : JValue) : jsize (nilToEmptySlice v) ≤ jsize v := by
  cases v <;> simp [nilToEmptySlice, JValue.isNull, jsize, jsizeL]

theorem jsize_nilToEmptySlice_lt {v : JValue} (h : v.isNull = true) :
    jsize (nilToEmptySlice v) < jsize v := by
  cases v <;> simp_all [nilToEmptySlice, JValue.isNull, jsize, jsizeL]

theorem nilToEmptySlice_eq_self {v : JValue} (h : ¬ v.isNull = true) :
    nilToEmptySlice v = v := by
  cases v <;> simp_all [nilToEmptySlice, JValue.isNull]

mutual

/-- The `diffValues` comparator: null-coercion entry, string-to-number
conversion, the numeric widening that skips the reflect type check, the
kind-mismatch emission, and the kind dispatch. -/
def diffValues (d : Differ) (selector : String) (valueA valueB : JValue) :
    Except String Differ :=
  if ((d.shouldCoerceNull selector).1 && valueA.isNull) ||
      ((d.shouldCoerceNull selector).2 && valueB.isNull) then
    diffValuesCoerced d selector valueA valueB
      (d.shouldCoerceNull selector).1 (d.shouldCoerceNull selector).2
  else
    diffValuesPost d selector
      (tryAsNumberWhen (d.shouldConvertStringToNumber selector) valueA)
      (tryAsNumberWhen (d.shouldConvertStringToNumber selector) valueB)
termination_by (jsize valueA + jsize valueB, 10, 0)
decreasing_by
  · exact Prod.Lex.right _ (Prod.Lex.left _ _ (by omega))
  · rw [show jsize (tryAsNumberWhen (d.shouldConvertStringToNumber selector) valueA) +
        jsize (tryAsNumberWhen (d.shouldConvertStringToNumber selector) valueB) =
        jsize valueA + jsize valueB from by
      rw [jsize_tryAsNumberWhen, jsize_tryAsNumberWhen]]
    exact Prod.Lex.right _ (Prod.Lex.left _ _ (by omega))

/-- The rest of the `diffValues` body after the coercion gate and the
string-to-number conversion: the numeric widening that skips the reflect
type check, the kind-mismatch emission, and the kind dispatch. -/
def diffValuesPost (d : Differ) (selector : String) (valueA valueB : JValue) :
    Except String Differ :=
  if !((valueA.isInt || valueA.isFloat) && (valueB.isInt || valueB.isFloat)) &&
      !(kindTag valueA == kindTag valueB) then
    d.lineAB "" selector ⟨valueA, true, none⟩ ⟨valueB, true, none⟩
  else if valueA.isFloat || valueB.isFloat then
    if d.floatEqualFunc selector (mustFloat64 valueA) (mustFloat64 valueB) then .ok d
    else d.lineAB "" selector ⟨valueA, true, some (d.floatEqualFunc selector)⟩
      ⟨valueB, true, some (d.floatEqualFunc selector)⟩
  else if valueA.isBool && valueB.isBool then
    if valueA.boolD == valueB.boolD then .ok d
    else d.lineAB "" selector ⟨valueA, true, none⟩ ⟨valueB, true, none⟩
  else if valueA.isInt then
    if valueA.intD == valueB.intD then .ok d
    else d.lineAB "" selector ⟨valueA, true, none⟩ ⟨valueB, true, none⟩
  else if valueA.isStr then
    if valueA.strD == valueB.strD then .ok d
    else d.lineAB "" selector ⟨valueA, true, none⟩ ⟨valueB, true, none⟩
  else if isObjxMapSlice valueA then
    match hsa : objxMapSliceOf valueA, hsb : objxMapSliceOf valueB with
    | some sliceA, some sliceB => diffObjxMapSlice d selector sliceA sliceB
    | _, _ => .error "panic: unable to convert to ObjxMapSlice"
  else if valueA.isArr then
    diffInterSlice d selector valueA valueB
  else if valueA.isObj then
    diffMap d selector valueA.objD valueB.objD
  else
    .error ("Support for type " ++ kindName valueA ++ " is not implemented")
termination_by (jsize valueA + jsize valueB, 9, 0)
decreasing_by
  all_goals first
  | (apply Prod.Lex.left
     first
     | (have hA := objxMapSliceOf_lt hsa
        have hB := objxMapSliceOf_lt hsb
        omega)
     | (have hA := jsizeM_objD_lt valueA
        have hB := jsizeM_objD_lt valueB
        omega))
  | exact Prod.Lex.right _ (Prod.Lex.left _ _ (by omega))

/-- The `diffValuesCoerced` comparator: the same kind dispatch with a null
on a coercing side read as the other side's zero value. -/
def diffValuesCoerced (d : Differ) (selector : String) (valueA valueB : JValue)
    (coerceA coerceB : Bool) : Except String Differ :=
  if (valueA.isFloat || valueB.isFloat) &&
      ((valueA.isFloat || valueA.isInt || (coerceA && valueA.isNull)) &&
       (valueB.isFloat || valueB.isInt || (coerceB && valueB.isNull))) then
    if d.floatEqualFunc selector (if coerceA then float64OrZero valueA else mustFloat64 valueA)
        (if coerceB then float64OrZero valueB else mustFloat64 valueB) then .ok d
    else d.lineAB "" selector ⟨valueA, true, some (d.floatEqualFunc selector)⟩
      ⟨valueB, true, some (d.floatEqualFunc selector)⟩
  else if (valueA.isInt || (coerceA && valueA.isNull)) &&
      (valueB.isInt || (coerceB && valueB.isNull)) then
    if (if coerceA then valueA.intOrDefault 0 else valueA.intD) ==
        (if coerceB then valueB.intOrDefault 0 else valueB.intD) then .ok d
    else d.lineAB "" selector ⟨valueA, true, none⟩ ⟨valueB, true, none⟩
  else if (valueA.isStr || (coerceA && valueA.isNull)) &&
      (valueB.isStr || (coerceB && valueB.isNull)) then
    if (if coerceA then valueA.strOrDefault "" else valueA.strD) ==
        (if coerceB then valueB.strOrDefault "" else valueB.strD) then .ok d
    else d.lineAB "" selector ⟨valueA, true, none⟩ ⟨valueB, true, none⟩
  else if (valueA.isBool || (coerceA && valueA.isNull)) &&
      (valueB.isBool || (coerceB && valueB.isNull)) then
    if (if coerceA then valueA.boolOrDefault false else valueA.boolD) ==
        (if coerceB then valueB.boolOrDefault false else valueB.boolD) then .ok d
    else d.lineAB "" selector ⟨valueA, true, none⟩ ⟨valueB, true, none⟩
  else if (valueA.isArr || (coerceA && valueA.isNull)) &&
      (valueB.isArr || (coerceB && valueB.isNull)) then
    diffInterSlice d selector (nilToEmptySlice valueA) (nilToEmptySlice valueB)
  else if (valueA.isObj || (coerceA && valueA.isNull)) &&
      (valueB.isObj || (coerceB && valueB.isNull)) then
    diffMap d selector (if coerceA then valueA.objOrDefault [] else valueA.objD)
      (if coerceB then valueB.objOrDefault [] else valueB.objD)
  else
    .error ("Support for type " ++ kindName valueA ++ " is not implemented")
termination_by (jsize valueA + jsize valueB, 8, 0)
decreasing_by
  all_goals try simp only [dite_eq_ite]
  · by_cases hA : valueA.isNull = true
    · apply Prod.Lex.left
      have h1 := jsize_nilToEmptySlice_lt hA
      have h2 := jsize_nilToEmptySlice_le valueB
      omega
    · by_cases hB : valueB.isNull = true
      · apply Prod.Lex.left
        have h1 := jsize_nilToEmptySlice_le valueA
        have h2 := jsize_nilToEmptySlice_lt hB
        omega
      · rw [nilToEmptySlice_eq_self hA, nilToEmptySlice_eq_self hB]
        exact Prod.Lex.right _ (Prod.Lex.left _ _ (by omega))
  · apply Prod.Lex.left
    have hA : jsizeM (if coerceA then valueA.objOrDefault [] else valueA.objD) < jsize valueA := by
      split
      · exact jsizeM_objOrDefault_lt valueA
      · exact jsizeM_objD_lt valueA
    have hB : jsizeM (if coerceB then valueB.objOrDefault [] else valueB.objD) < jsize valueB := by
      split
      · exact jsizeM_objOrDefault_lt valueB
      · exact jsizeM_objD_lt valueB
    omega

/-- The `diffInterSlice` comparator: the ignore-order pre-check when an
ignore-order rule matches, then the positional element walk. -/
def diffInterSlice (d : Differ) (mainSelector : String) (valueA valueB : JValue) :
    Except String Differ :=
  if !valueA.isArr || !valueB.isArr then
    .error ("type mismatch for " ++ mainSelector ++
      ", valueA or valueB is not []interface\x7b\x7d, this is programming error")
  else if d.shouldIgnoreOrder mainSelector then
    match diffInterSliceDetectEquals d mainSelector valueA valueB with
    | .error e => .error e
    | .ok true => .ok d
    | .ok false => diffInterSlicePositional d mainSelector valueA.arrD valueB.arrD
  else
    diffInterSlicePositional d mainSelector valueA.arrD valueB.arrD
termination_by (jsize valueA + jsize valueB, 7, 0)
decreasing_by
  · exact Prod.Lex.right _ (Prod.Lex.left _ _ (by omega))
  · apply Prod.Lex.left
    have hA := jsizeL_arrD_lt valueA
    have hB := jsizeL_arrD_lt valueB
    omega
  · apply Prod.Lex.left
    have hA := jsizeL_arrD_lt valueA
    have hB := jsizeL_arrD_lt valueB
    omega

/-- The `diffInterSliceDetectEquals` pre-check: greedy pairing of A
elements against not-yet-claimed B elements through scratch sub-diffs; the
result compares the sizes of the two index sets with the slice lengths. -/
def diffInterSliceDetectEquals (d : Differ) (mainSelector : String) (valueA valueB : JValue) :
    Except String Bool :=
  if !valueA.isArr || !valueB.isArr then
    .error ("type mismatch for " ++ mainSelector ++
      ", valueA or valueB is not []interface\x7b\x7d, this is programming error")
  else
    match detectOuter d mainSelector valueA.arrD valueB.arrD 0 [] [] with
    | .error e => .error e
    | .ok sets =>
      .ok (sets.1.length == valueA.arrD.length && sets.2.length == valueB.arrD.length)
termination_by (jsize valueA + jsize valueB, 6, 0)
decreasing_by
  apply Prod.Lex.left
  have hA := jsizeL_arrD_lt valueA
  have hB := jsizeL_arrD_lt valueB
  omega

/-- The outer loop of the pre-check over A's elements.  Go adds the running
A index to `idxEqualA` once on a successful pairing and once more,
unconditionally, after the inner loop; the double `Add` mirrors that. -/
def detectOuter (d : Differ) (mainSelector : String) (la lbFull : List JValue)
    (idxA : Nat) (idxEqualA idxEqualB : intSet) : Except String (intSet × intSet) :=
  match la with
  | [] => .ok (idxEqualA, idxEqualB)
  | a :: rest =>
    match detectInner d mainSelector idxA a lbFull 0 idxEqualB with
    | .error e => .error e
    | .ok (some idxB) =>
      detectOuter d mainSelector rest lbFull (idxA + 1)
        ((idxEqualA.Add idxA).Add idxA) (idxEqualB.Add idxB)
    | .ok none =>
      detectOuter d mainSelector rest lbFull (idxA + 1) (idxEqualA.Add idxA) idxEqualB
termination_by (jsizeL la + jsizeL lbFull, 5, 0)
decreasing_by
  all_goals apply Prod.Lex.left
  all_goals simp [jsizeL]
  all_goals try omega

/-- The inner loop of the pre-check: scan B's elements in order, skip the
claimed ones, sub-diff into a scratch differ (`d.clone` with a fresh empty
accumulator per sub-check), and claim the first zero-diff partner. -/
def detectInner (d : Differ) (mainSelector : String) (idxA : Nat) (a : JValue)
    (bs : List JValue) (idxB : Nat) (idxEqualB : intSet) : Except String (Option Nat) :=
  match bs with
  | [] => .ok none
  | b :: rest =>
    if idxEqualB.Has idxB then
      detectInner d mainSelector idxA a rest (idxB + 1) idxEqualB
    else
      match diffValues d.clone (joinSelectors mainSelector ("[" ++ toString idxA ++ "]")) a b with
      | .error e => .error e
      | .ok other =>
        if other.diff.isEmpty then .ok (some idxB)
        else detectInner d mainSelector idxA a rest (idxB + 1) idxEqualB
termination_by (jsize a + jsizeL bs, 4, 0)
decreasing_by
  all_goals apply Prod.Lex.left
  all_goals simp [jsizeL]
  all_goals try omega

/-- The positional array diff Go writes inline in `diffInterSlice`: walk
A's indices, then emit right-only patches for B's overhang. -/
def diffInterSlicePositional (d : Differ) (mainSelector : String) (la lb : List JValue) :
    Except String Differ :=
  match interSliceWalk d mainSelector la lb 0 with
  | .error e => .error e
  | .ok d2 =>
    if lb.length > la.length then
      interSliceTailB d2 mainSelector (lb.drop la.length) la.length
    else .ok d2
termination_by (jsizeL la + jsizeL lb, 4, 0)
decreasing_by
  exact Prod.Lex.right _ (Prod.Lex.left _ _ (by omega))

/-- The per-index loop of the positional array diff: when B is exhausted a
left-only patch of the raw element, else a recursive value diff of the two
elements at the index. -/
def interSliceWalk (d : Differ) (mainSelector : String) (la lb : List JValue) (idx : Nat) :
    Except String Differ :=
  match la with
  | [] => .ok d
  | a :: rest =>
    if h : lb.length ≤ idx then
      match d.lineA "" (joinSelectors mainSelector ("[" ++ toString idx ++ "]"))
          ⟨a, false, some (d.floatEqualFunc (joinSelectors mainSelector ("[" ++ toString idx ++ "]")))⟩ with
      | .error e => .error e
      | .ok d2 => interSliceWalk d2 mainSelector rest lb (idx + 1)
    else
      match diffValues d (joinSelectors mainSelector ("[" ++ toString idx ++ "]")) a
          (lb.getD idx .null) with
      | .error e => .error e
      | .ok d2 => interSliceWalk d2 mainSelector rest lb (idx + 1)
termination_by (jsizeL la + jsizeL lb, 3, 0)
decreasing_by
  all_goals apply Prod.Lex.left
  all_goals first
  | (simp [jsizeL]; done)
  | (simp [jsizeL]; omega)
  | (have hgd := jsizeL_getD_lt lb idx (by omega)
     simp [jsizeL] at hgd ⊢
     omega)

/-- The `diffObjxMapSlice` comparator for slices whose elements are all
maps: always positional, by index, with raw map operands at the overhang
emission sites. -/
def diffObjxMapSlice (d : Differ) (mainSelector : String) (sliceA sliceB : List JMap) :
    Except String Differ :=
  match objxMapSliceWalk d mainSelector sliceA sliceB 0 with
  | .error e => .error e
  | .ok d2 =>
    if sliceB.length > sliceA.length then
      objxMapSliceTailB d2 mainSelector (sliceB.drop sliceA.length) sliceA.length
    else .ok d2
termination_by (jsizeMS sliceA + jsizeMS sliceB, 3, 0)
decreasing_by
  exact Prod.Lex.right _ (Prod.Lex.left _ _ (by omega))

/-- The per-index loop of `diffObjxMapSlice`. -/
def objxMapSliceWalk (d : Differ) (mainSelector : String) (la lb : List JMap) (idx : Nat) :
    Except String Differ :=
  match la with
  | [] => .ok d
  | a :: rest =>
    if h : lb.length ≤ idx then
      match d.lineA "" (joinSelectors mainSelector ("[" ++ toString idx ++ "]"))
          ⟨.obj a, false, some (d.floatEqualFunc (joinSelectors mainSelector ("[" ++ toString idx ++ "]")))⟩ with
      | .error e => .error e
      | .ok d2 => objxMapSliceWalk d2 mainSelector rest lb (idx + 1)
    else
      match diffMap d (joinSelectors mainSelector ("[" ++ toString idx ++ "]")) a
          (lb.getD idx []) with
      | .error e => .error e
      | .ok d2 => objxMapSliceWalk d2 mainSelector rest lb (idx + 1)
termination_by (jsizeMS la + jsizeMS lb, 2, 0)
decreasing_by
  all_goals apply Prod.Lex.left
  all_goals first
  | (simp [jsizeMS]; done)
  | (simp [jsizeMS]; omega)
  | (have hgd := jsizeMS_getD_lt lb idx (by omega)
     simp [jsizeMS] at hgd ⊢
     omega)

/-- The `diffMap` comparator: A's sorted keys first (left-only patch when B
lacks the key, recursion otherwise), then B's sorted keys for the
right-only patches of keys A lacks. -/
def diffMap (d : Differ) (mainSelector : String) (objA objB : JMap) :
    Except String Differ :=
  match diffMapWalkA d mainSelector objA objB (sortedKeys objA) with
  | .error e => .error e
  | .ok d2 => diffMapWalkB d2 mainSelector objA objB (sortedKeys objB)
termination_by (jsizeM objA + jsizeM objB, 2, 0)
decreasing_by
  exact Prod.Lex.right _ (Prod.Lex.left _ _ (by omega))

/-- The loop over A's sorted keys.  The keys always come from
`sortedKeys objA`, so the lookup cannot miss; the impossible miss is
skipped. -/
def diffMapWalkA (d : Differ) (mainSelector : String) (objA objB : JMap) (keys : List String) :
    Except String Differ :=
  match keys with
  | [] => .ok d
  | keyA :: rest =>
    match hk : JMap.get? objA keyA with
    | none => diffMapWalkA d mainSelector objA objB rest
    | some valueA =>
      if hb : JMap.has objB keyA then
        match diffValues d (joinSelectors mainSelector keyA) valueA (JMap.get objB keyA) with
        | .error e => .error e
        | .ok d2 => diffMapWalkA d2 mainSelector objA objB rest
      else
        match d.lineA "" (joinSelectors mainSelector keyA)
            ⟨valueA, true, some (d.floatEqualFunc (joinSelectors mainSelector keyA))⟩ with
        | .error e => .error e
        | .ok d2 => diffMapWalkA d2 mainSelector objA objB rest
termination_by (jsizeM objA + jsizeM objB, 1, keys.length)
decreasing_by
  all_goals first
  | (apply Prod.Lex.left
     have hA := jsizeM_get?_lt hk
     have hB := jsizeM_get_lt_of_has hb
     omega)
  | (apply Prod.Lex.right
     apply Prod.Lex.right
     simp [List.length]
     try omega)

end

/-- The `Diff` method: run the map diff from the root on a differ with the
same rules and a fresh accumulator (Go also returns the partial diff next
to an error; the error branch carries no list here). -/
def Differ.Diff (d : Differ) (objA objB : JMap) : Except String DiffList :=
  let d2 : Differ := { diff := [], rulesA := d.rulesA, rulesB := d.rulesB }
  match diffMap d2 "" objA objB with
  | .error e => .error e
  | .ok d3 => .ok d3.diff

/-- The package-level `Diff`: exact diffing with no rules. -/
def Diff (objA objB : JMap) : Except String DiffList :=
  NewDiffer.Diff objA objB

/-!
A fuel-indexed executable twin of the engine.  The engine above is defined
by well-founded recursion, which the kernel cannot evaluate; the twin is
structurally recursive (kernel-computable), and `engineF_eq` below proves
the two agree whenever the fuel covers the recursion measure.  Concrete
runs of the engine are obtained by computing the twin.
-/

/-- Twin of `interSliceWalk`, with the recursive comparator abstracted. -/
def interSliceWalkF (rec : Differ → String → JValue → JValue → Except String Differ)
    (d : Differ) (mainSelector : String) (la lb : List JValue) (idx : Nat) :
    Except String Differ :=
  match la with
  | [] => .ok d
  | a :: rest =>
    if lb.length ≤ idx then
      match d.lineA "" (joinSelectors mainSelector ("[" ++ toString idx ++ "]"))
          ⟨a, false, some (d.floatEqualFunc (joinSelectors mainSelector ("[" ++ toString idx ++ "]")))⟩ with
      | .error e => .error e
      | .ok d2 => interSliceWalkF rec d2 mainSelector rest lb (idx + 1)
    else
      match rec d (joinSelectors mainSelector ("[" ++ toString idx ++ "]")) a
          (lb.getD idx .null) with
      | .error e => .error e
      | .ok d2 => interSliceWalkF rec d2 mainSelector rest lb (idx + 1)

/-- Twin of `diffInterSlicePositional`. -/
def diffInterSlicePositionalF (rec : Differ → String → JValue → JValue → Except String Differ)
    (d : Differ) (mainSelector : String) (la lb : List JValue) : Except String Differ :=
  match interSliceWalkF rec d mainSelector la lb 0 with
  | .error e => .error e
  | .ok d2 =>
    if lb.length > la.length then
      interSliceTailB d2 mainSelector (lb.drop la.length) la.length
    else .ok d2

/-- Twin of `detectInner`. -/
def detectInnerF (rec : Differ → String → JValue → JValue → Except String Differ)
    (d : Differ) (mainSelector : String) (idxA : Nat) (a : JValue)
    (bs : List JValue) (idxB : Nat) (idxEqualB : intSet) : Except String (Option Nat) :=
  match bs with
  | [] => .ok none
  | b :: rest =>
    if idxEqualB.Has idxB then
      detectInnerF rec d mainSelector idxA a rest (idxB + 1) idxEqualB
    else
      match rec d.clone (joinSelectors mainSelector ("[" ++ toString idxA ++ "]")) a b with
      | .error e => .error e
      | .ok other =>
        if other.diff.isEmpty then .ok (some idxB)
        else detectInnerF rec d mainSelector idxA a rest (idxB + 1) idxEqualB

/-- Twin of `detectOuter`. -/
def detectOuterF (rec : Differ → String → JValue → JValue → Except String Differ)
    (d : Differ) (mainSelector : String) (la lbFull : List JValue)
    (idxA : Nat) (idxEqualA idxEqualB : intSet) : Except String (intSet × intSet) :=
  match la with
  | [] => .ok (idxEqualA, idxEqualB)
  | a :: rest =>
    match detectInnerF rec d mainSelector idxA a lbFull 0 idxEqualB with
    | .error e => .error e
    | .ok (some idxB) =>
      detectOuterF rec d mainSelector rest lbFull (idxA + 1)
        ((idxEqualA.Add idxA).Add idxA) (idxEqualB.Add idxB)
    | .ok none =>
      detectOuterF rec d mainSelector rest lbFull (idxA + 1) (idxEqualA.Add idxA) idxEqualB

/-- Twin of `objxMapSliceWalk`, with the recursive map comparator
abstracted. -/
def objxMapSliceWalkF (recMap : Differ → String → JMap → JMap → Except String Differ)
    (d : Differ) (mainSelector : String) (la lb : List JMap) (idx : Nat) :
    Except String Differ :=
  match la with
  | [] => .ok d
  | a :: rest =>
    if lb.length ≤ idx then
      match d.lineA "" (joinSelectors mainSelector ("[" ++ toString idx ++ "]"))
          ⟨.obj a, false, some (d.floatEqualFunc (joinSelectors mainSelector ("[" ++ toString idx ++ "]")))⟩ with
      | .error e => .error e
      | .ok d2 => objxMapSliceWalkF recMap d2 mainSelector rest lb (idx + 1)
    else
      match recMap d (joinSelectors mainSelector ("[" ++ toString idx ++ "]")) a
          (lb.getD idx []) with
      | .error e => .error e
      | .ok d2 => objxMapSliceWalkF recMap d2 mainSelector rest lb (idx + 1)

/-- Twin of `diffMapWalkA`. -/
def diffMapWalkAF (rec : Differ → String → JValue → JValue → Except String Differ)
    (d : Differ) (mainSelector : String) (objA objB : JMap) (keys : List String) :
    Except String Differ :=
  match keys with
  | [] => .ok d
  | keyA :: rest =>
    match JMap.get? objA keyA with
    | none => diffMapWalkAF rec d mainSelector objA objB rest
    | some valueA =>
      if JMap.has objB keyA then
        match rec d (joinSelectors mainSelector keyA) valueA (JMap.get objB keyA) with
        | .error e => .error e
        | .ok d2 => diffMapWalkAF rec d2 mainSelector objA objB rest
      else
        match d.lineA "" (joinSelectors mainSelector keyA)
            ⟨valueA, true, some (d.floatEqualFunc (joinSelectors mainSelector keyA))⟩ with
        | .error e => .error e
        | .ok d2 => diffMapWalkAF rec d2 mainSelector objA objB rest

mutual

/-- Fuel-indexed twin of `diffValues`. -/
def diffValuesF : Nat → Differ → String → JValue → JValue → Except String Differ
  | 0, _, _, _, _ => .error "out of fuel"
  | fuel + 1, d, selector, valueA, valueB =>
    if ((d.shouldCoerceNull selector).1 && valueA.isNull) ||
        ((d.shouldCoerceNull selector).2 && valueB.isNull) then
      diffValuesCoercedF fuel d selector valueA valueB
        (d.shouldCoerceNull selector).1 (d.shouldCoerceNull selector).2
    else
      diffValuesPostF fuel d selector
        (tryAsNumberWhen (d.shouldConvertStringToNumber selector) valueA)
        (tryAsNumberWhen (d.shouldConvertStringToNumber selector) valueB)

/-- Fuel-indexed twin of `diffValuesPost`. -/
def diffValuesPostF : Nat → Differ → String → JValue → JValue → Except String Differ
  | 0, _, _, _, _ => .error "out of fuel"
  | fuel + 1, d, selector, valueA, valueB =>
    if !((valueA.isInt || valueA.isFloat) && (valueB.isInt || valueB.isFloat)) &&
        !(kindTag valueA == kindTag valueB) then
      d.lineAB "" selector ⟨valueA, true, none⟩ ⟨valueB, true, none⟩
    else if valueA.isFloat || valueB.isFloat then
      if d.floatEqualFunc selector (mustFloat64 valueA) (mustFloat64 valueB) then .ok d
      else d.lineAB "" selector ⟨valueA, true, some (d.floatEqualFunc selector)⟩
        ⟨valueB, true, some (d.floatEqualFunc selector)⟩
    else if valueA.isBool && valueB.isBool then
      if valueA.boolD == valueB.boolD then .ok d
      else d.lineAB "" selector ⟨valueA, true, none⟩ ⟨valueB, true, none⟩
    else if valueA.isInt then
      if valueA.intD == valueB.intD then .ok d
      else d.lineAB "" selector ⟨valueA, true, none⟩ ⟨valueB, true, none⟩
    else if valueA.isStr then
      if valueA.strD == valueB.strD then .ok d
      else d.lineAB "" selector ⟨valueA, true, none⟩ ⟨valueB, true, none⟩
    else if isObjxMapSlice valueA then
      match objxMapSliceOf valueA, objxMapSliceOf valueB with
      | some sliceA, some sliceB => diffObjxMapSliceF fuel d selector sliceA sliceB
      | _, _ => .error "panic: unable to convert to ObjxMapSlice"
    else if valueA.isArr then
      diffInterSliceF fuel d selector valueA valueB
    else if valueA.isObj then
      diffMapF fuel d selector valueA.objD valueB.objD
    else
      .error ("Support for type " ++ kindName valueA ++ " is not implemented")

/-- Fuel-indexed twin of `diffValuesCoerced`. -/
def diffValuesCoercedF : Nat → Differ → String → JValue → JValue → Bool → Bool →
    Except String Differ
  | 0, _, _, _, _, _, _ => .error "out of fuel"
  | fuel + 1, d, selector, valueA, valueB, coerceA, coerceB =>
    if (valueA.isFloat || valueB.isFloat) &&
        ((valueA.isFloat || valueA.isInt || (coerceA && valueA.isNull)) &&
         (valueB.isFloat || valueB.isInt || (coerceB && valueB.isNull))) then
      if d.floatEqualFunc selector (if coerceA then float64OrZero valueA else mustFloat64 valueA)
          (if coerceB then float64OrZero valueB else mustFloat64 valueB) then .ok d
      else d.lineAB "" selector ⟨valueA, true, some (d.floatEqualFunc selector)⟩
        ⟨valueB, true, some (d.floatEqualFunc selector)⟩
    else if (valueA.isInt || (coerceA && valueA.isNull)) &&
        (valueB.isInt || (coerceB && valueB.isNull)) then
      if (if coerceA then valueA.intOrDefault 0 else valueA.intD) ==
          (if coerceB then valueB.intOrDefault 0 else valueB.intD) then .ok d
      else d.lineAB "" selector ⟨valueA, true, none⟩ ⟨valueB, true, none⟩
    else if (valueA.isStr || (coerceA && valueA.isNull)) &&
        (valueB.isStr || (coerceB && valueB.isNull)) then
      if (if coerceA then valueA.strOrDefault "" else valueA.strD) ==
          (if coerceB then valueB.strOrDefault "" else valueB.strD) then .ok d
      else d.lineAB "" selector ⟨valueA, true, none⟩ ⟨valueB, true, none⟩
    else if (valueA.isBool || (coerceA && valueA.isNull)) &&
        (valueB.isBool || (coerceB && valueB.isNull)) then
      if (if coerceA then valueA.boolOrDefault false else valueA.boolD) ==
          (if coerceB then valueB.boolOrDefault false else valueB.boolD) then .ok d
      else d.lineAB "" selector ⟨valueA, true, none⟩ ⟨valueB, true, none⟩
    else if (valueA.isArr || (coerceA && valueA.isNull)) &&
        (valueB.isArr || (coerceB && valueB.isNull)) then
      diffInterSliceF fuel d selector (nilToEmptySlice valueA) (nilToEmptySlice valueB)
    else if (valueA.isObj || (coerceA && valueA.isNull)) &&
        (valueB.isObj || (coerceB && valueB.isNull)) then
      diffMapF fuel d selector (if coerceA then valueA.objOrDefault [] else valueA.objD)
        (if coerceB then valueB.objOrDefault [] else valueB.objD)
    else
      .error ("Support for type " ++ kindName valueA ++ " is not implemented")

/-- Fuel-indexed twin of `diffInterSlice`. -/
def diffInterSliceF : Nat → Differ → String → JValue → JValue → Except String Differ
  | 0, _, _, _, _ => .error "out of fuel"
  | fuel + 1, d, mainSelector, valueA, valueB =>
    if !valueA.isArr || !valueB.isArr then
      .error ("type mismatch for " ++ mainSelector ++
        ", valueA or valueB is not []interface\x7b\x7d, this is programming error")
    else if d.shouldIgnoreOrder mainSelector then
      match diffInterSliceDetectEqualsF fuel d mainSelector valueA valueB with
      | .error e => .error e
      | .ok true => .ok d
      | .ok false => diffInterSlicePositionalF (diffValuesF fuel) d mainSelector valueA.arrD valueB.arrD
    else
      diffInterSlicePositionalF (diffValuesF fuel) d mainSelector valueA.arrD valueB.arrD

/-- Fuel-indexed twin of `diffInterSliceDetectEquals`. -/
def diffInterSliceDetectEqualsF : Nat → Differ → String → JValue → JValue → Except String Bool
  | 0, _, _, _, _ => .error "out of fuel"
  | fuel + 1, d, mainSelector, valueA, valueB =>
    if !valueA.isArr || !valueB.isArr then
      .error ("type mismatch for " ++ mainSelector ++
        ", valueA or valueB is not []interface\x7b\x7d, this is programming error")
    else
      match detectOuterF (diffValuesF fuel) d mainSelector valueA.arrD valueB.arrD 0 [] [] with
      | .error e => .error e
      | .ok sets =>
        .ok (sets.1.length == valueA.arrD.length && sets.2.length == valueB.arrD.length)

/-- Fuel-indexed twin of `diffObjxMapSlice`. -/
def diffObjxMapSliceF : Nat → Differ → String → List JMap → List JMap → Except String Differ
  | 0, _, _, _, _ => .error "out of fuel"
  | fuel + 1, d, mainSelector, sliceA, sliceB =>
    match objxMapSliceWalkF (diffMapF fuel) d mainSelector sliceA sliceB 0 with
    | .error e => .error e
    | .ok d2 =>
      if sliceB.length > sliceA.length then
        objxMapSliceTailB d2 mainSelector (sliceB.drop sliceA.length) sliceA.length
      else .ok d2

/-- Fuel-indexed twin of `diffMap`. -/
def diffMapF : Nat → Differ → String → JMap → JMap → Except String Differ
  | 0, _, _, _, _ => .error "out of fuel"
  | fuel + 1, d, mainSelector, objA, objB =>
    match diffMapWalkAF (diffValuesF fuel) d mainSelector objA objB (sortedKeys objA) with
    | .error e => .error e
    | .ok d2 => diffMapWalkB d2 mainSelector objA objB (sortedKeys objB)

end

theorem jsizeL_cons (a : JValue) (l : List JValue) :
    jsizeL (a :: l) = 1 + jsize a + jsizeL l := rfl

theorem jsizeM_cons (p : String × JValue) (l : JMap) :
    jsizeM (p :: l) = 1 + jsize p.2 + jsizeM l := rfl

theorem jsizeMS_cons (m : JMap) (l : List JMap) :
    jsizeMS (m :: l) = 1 + jsizeM m + jsizeMS l := rfl

theorem interSliceWalkF_eq {rec : Differ → String → JValue → JValue → Except String Differ}
    {n : Nat} {la lb : List JValue}
    (hrec : ∀ d2 s2 a b, jsize a + jsize b ≤ n → rec d2 s2 a b = diffValues d2 s2 a b)
    (hsz : jsizeL la + jsizeL lb ≤ n)
    (d : Differ) (mainSelector : String) (idx : Nat) :
    interSliceWalkF rec d mainSelector la lb idx = interSliceWalk d mainSelector la lb idx := by
  induction la generalizing d idx with
  | nil => rw [interSliceWalk, interSliceWalkF]
  | cons a rest ih =>
    rw [interSliceWalk, interSliceWalkF]
    have hrest : jsizeL rest + jsizeL lb ≤ n := by
      rw [jsizeL_cons] at hsz; omega
    by_cases h : lb.length ≤ idx
    · rw [dif_pos h, if_pos h]
      split
      · rfl
      · rename_i d2 heq
        exact ih hrest d2 (idx + 1)
    · rw [dif_neg h, if_neg h]
      have hlt : idx < lb.length := by omega
      rw [hrec d (joinSelectors mainSelector ("[" ++ toString idx ++ "]")) a (lb.getD idx .null)
        (by
          have h1 : jsize a < jsizeL (a :: rest) := jsizeL_mem_lt (List.mem_cons_self a rest)
          have h2 := jsizeL_getD_lt lb idx hlt
          omega)]
      split
      · rfl
      · rename_i d2 heq
        exact ih hrest d2 (idx + 1)

theorem diffInterSlicePositionalF_eq
    {rec : Differ → String → JValue → JValue → Except String Differ}
    {n : Nat} {la lb : List JValue}
    (hrec : ∀ d2 s2 a b, jsize a + jsize b ≤ n → rec d2 s2 a b = diffValues d2 s2 a b)
    (hsz : jsizeL la + jsizeL lb ≤ n)
    (d : Differ) (mainSelector : String) :
    diffInterSlicePositionalF rec d mainSelector la lb =
      diffInterSlicePositional d mainSelector la lb := by
  rw [diffInterSlicePositional, diffInterSlicePositionalF,
    interSliceWalkF_eq hrec hsz d mainSelector 0]

theorem detectInnerF_eq {rec : Differ → String → JValue → JValue → Except String Differ}
    {n : Nat} {a : JValue} {bs : List JValue}
    (hrec : ∀ d2 s2 x y, jsize x + jsize y ≤ n → rec d2 s2 x y = diffValues d2 s2 x y)
    (hsz : jsize a + jsizeL bs ≤ n)
    (d : Differ) (mainSelector : String) (idxA idxB : Nat) (idxEqualB : intSet) :
    detectInnerF rec d mainSelector idxA a bs idxB idxEqualB =
      detectInner d mainSelector idxA a bs idxB idxEqualB := by
  induction bs generalizing idxB with
  | nil => rw [detectInner, detectInnerF]
  | cons b rest ih =>
    rw [detectInner, detectInnerF]
    have hrest : jsize a + jsizeL rest ≤ n := by
      rw [jsizeL_cons] at hsz; omega
    by_cases h : idxEqualB.Has idxB
    · rw [if_pos h, if_pos h]
      exact ih hrest (idxB + 1)
    · rw [if_neg h, if_neg h]
      rw [hrec d.clone (joinSelectors mainSelector ("[" ++ toString idxA ++ "]")) a b
        (by rw [jsizeL_cons] at hsz; omega)]
      split
      · rfl
      · rename_i other heq
        by_cases hempty : other.diff.isEmpty
        · rw [if_pos hempty, if_pos hempty]
        · rw [if_neg hempty, if_neg hempty]
          exact ih hrest (idxB + 1)

theorem detectOuterF_eq {rec : Differ → String → JValue → JValue → Except String Differ}
    {n : Nat} {la lbFull : List JValue}
    (hrec : ∀ d2 s2 x y, jsize x + jsize y ≤ n → rec d2 s2 x y = diffValues d2 s2 x y)
    (hsz : jsizeL la + jsizeL lbFull ≤ n)
    (d : Differ) (mainSelector : String) (idxA : Nat) (idxEqualA idxEqualB : intSet) :
    detectOuterF rec d mainSelector la lbFull idxA idxEqualA idxEqualB =
      detectOuter d mainSelector la lbFull idxA idxEqualA idxEqualB := by
  induction la generalizing idxA idxEqualA idxEqualB with
  | nil => rw [detectOuter, detectOuterF]
  | cons a rest ih =>
    rw [detectOuter, detectOuterF]
    have hrest : jsizeL rest + jsizeL lbFull ≤ n := by
      rw [jsizeL_cons] at hsz; omega
    rw [detectInnerF_eq hrec (by rw [jsizeL_cons] at hsz; omega) d mainSelector idxA 0 idxEqualB]
    split
    · rfl
    · rename_i idxB heq
      exact ih hrest (idxA + 1) ((idxEqualA.Add idxA).Add idxA) (idxEqualB.Add idxB)
    · exact ih hrest (idxA + 1) (idxEqualA.Add idxA) idxEqualB

theorem objxMapSliceWalkF_eq {recMap : Differ → String → JMap → JMap → Except String Differ}
    {n : Nat} {la lb : List JMap}
    (hrecMap : ∀ d2 s2 x y, jsizeM x + jsizeM y ≤ n → recMap d2 s2 x y = diffMap d2 s2 x y)
    (hsz : jsizeMS la + jsizeMS lb ≤ n)
    (d : Differ) (mainSelector : String) (idx : Nat) :
    objxMapSliceWalkF recMap d mainSelector la lb idx =
      objxMapSliceWalk d mainSelector la lb idx := by
  induction la generalizing d idx with
  | nil => rw [objxMapSliceWalk, objxMapSliceWalkF]
  | cons a rest ih =>
    rw [objxMapSliceWalk, objxMapSliceWalkF]
    have hrest : jsizeMS rest + jsizeMS lb ≤ n := by
      rw [jsizeMS_cons] at hsz; omega
    by_cases h : lb.length ≤ idx
    · rw [dif_pos h, if_pos h]
      split
      · rfl
      · rename_i d2 heq
        exact ih hrest d2 (idx + 1)
    · rw [dif_neg h, if_neg h]
      have hlt : idx < lb.length := by omega
      rw [hrecMap d (joinSelectors mainSelector ("[" ++ toString idx ++ "]")) a (lb.getD idx [])
        (by
          have h1 : jsizeM a < jsizeMS (a :: rest) := jsizeMS_mem_lt (List.mem_cons_self a rest)
          have h2 := jsizeMS_getD_lt lb idx hlt
          omega)]
      split
      · rfl
      · rename_i d2 heq
        exact ih hrest d2 (idx + 1)

theorem diffMapWalkAF_eq {rec : Differ → String → JValue → JValue → Except String Differ}
    {n : Nat} {objA objB : JMap}
    (hrec : ∀ d2 s2 x y, jsize x + jsize y ≤ n → rec d2 s2 x y = diffValues d2 s2 x y)
    (hsz : jsizeM objA + jsizeM objB ≤ n + 2)
    (d : Differ) (mainSelector : String) (keys : List String) :
    diffMapWalkAF rec d mainSelector objA objB keys =
      diffMapWalkA d mainSelector objA objB keys := by
  induction keys generalizing d with
  | nil => rw [diffMapWalkA, diffMapWalkAF]
  | cons keyA rest ih =>
    rw [diffMapWalkA, diffMapWalkAF]
    cases hk2 : JMap.get? objA keyA with
    | none => simp only []; exact ih d
    | some valueA =>
      simp only []
      by_cases hb : JMap.has objB keyA
      · rw [dif_pos hb, if_pos hb]
        rw [hrec d (joinSelectors mainSelector keyA) valueA (JMap.get objB keyA)
          (by
            have h1 := jsizeM_get?_lt hk2
            have h2 := jsizeM_get_lt_of_has hb
            omega)]
        split
        · rfl
        · rename_i d2 heq
          exact ih d2
      · rw [dif_neg hb, if_neg hb]
        split
        · rfl
        · rename_i d2 heq
          exact ih d2

/-- The twin agrees with the engine whenever the fuel covers the measure:
one simultaneous statement for the seven fuel-indexed functions. -/
theorem engineF_eq : ∀ fuel : Nat,
    (∀ d sel vA vB, 5 * (jsize vA + jsize vB) + 10 ≤ fuel →
      diffValuesF fuel d sel vA vB = diffValues d sel vA vB) ∧
    (∀ d sel vA vB, 5 * (jsize vA + jsize vB) + 9 ≤ fuel →
      diffValuesPostF fuel d sel vA vB = diffValuesPost d sel vA vB) ∧
    (∀ d sel vA vB cA cB, 5 * (jsize vA + jsize vB) + 8 ≤ fuel →
      diffValuesCoercedF fuel d sel vA vB cA cB = diffValuesCoerced d sel vA vB cA cB) ∧
    (∀ d sel vA vB, 5 * (jsize vA + jsize vB) + 7 ≤ fuel →
      diffInterSliceF fuel d sel vA vB = diffInterSlice d sel vA vB) ∧
    (∀ d sel vA vB, 5 * (jsize vA + jsize vB) + 6 ≤ fuel →
      diffInterSliceDetectEqualsF fuel d sel vA vB = diffInterSliceDetectEquals d sel vA vB) ∧
    (∀ d sel la lb, 5 * (jsizeMS la + jsizeMS lb) + 3 ≤ fuel →
      diffObjxMapSliceF fuel d sel la lb = diffObjxMapSlice d sel la lb) ∧
    (∀ d sel mA mB, 5 * (jsizeM mA + jsizeM mB) + 2 ≤ fuel →
      diffMapF fuel d sel mA mB = diffMap d sel mA mB) := by
  intro fuel
  induction fuel using Nat.strong_induction_on with
  | _ fuel ih =>
    match fuel with
    | 0 =>
      refine ⟨?_, ?_, ?_, ?_, ?_, ?_, ?_⟩ <;> intro d sel vA vB <;> intros <;> omega
    | f + 1 =>
      obtain ⟨ihV, ihP, ihC, ihIS, ihDet, ihMS, ihM⟩ := ih f (by omega)
      refine ⟨?_, ?_, ?_, ?_, ?_, ?_, ?_⟩
      · -- diffValues
        intro d sel vA vB hsz
        rw [diffValuesF, diffValues]
        by_cases hc : (((d.shouldCoerceNull sel).1 && vA.isNull) ||
            ((d.shouldCoerceNull sel).2 && vB.isNull)) = true
        · rw [if_pos hc, if_pos hc]
          exact ihC d sel vA vB _ _ (by omega)
        · rw [if_neg hc, if_neg hc]
          refine ihP d sel _ _ ?_
          rw [jsize_tryAsNumberWhen, jsize_tryAsNumberWhen]
          omega
      · -- diffValuesPost
        intro d sel vA vB hsz
        rw [diffValuesPostF, diffValuesPost]
        by_cases h1 : (!((vA.isInt || vA.isFloat) && (vB.isInt || vB.isFloat)) &&
            !(kindTag vA == kindTag vB)) = true
        · rw [if_pos h1, if_pos h1]
        · rw [if_neg h1, if_neg h1]
          by_cases h2 : (vA.isFloat || vB.isFloat) = true
          · rw [if_pos h2, if_pos h2]
          · rw [if_neg h2, if_neg h2]
            by_cases h3 : (vA.isBool && vB.isBool) = true
            · rw [if_pos h3, if_pos h3]
            · rw [if_neg h3, if_neg h3]
              by_cases h4 : vA.isInt = true
              · rw [if_pos h4, if_pos h4]
              · rw [if_neg h4, if_neg h4]
                by_cases h5 : vA.isStr = true
                · rw [if_pos h5, if_pos h5]
                · rw [if_neg h5, if_neg h5]
                  by_cases h6 : isObjxMapSlice vA = true
                  · rw [if_pos h6, if_pos h6]
                    cases hA : objxMapSliceOf vA <;> cases hB : objxMapSliceOf vB <;>
                      simp only []
                    rename_i sliceA sliceB
                    refine ihMS d sel sliceA sliceB ?_
                    have hA2 := objxMapSliceOf_lt hA
                    have hB2 := objxMapSliceOf_lt hB
                    omega
                  · rw [if_neg h6, if_neg h6]
                    by_cases h7 : vA.isArr = true
                    · rw [if_pos h7, if_pos h7]
                      exact ihIS d sel vA vB (by omega)
                    · rw [if_neg h7, if_neg h7]
                      by_cases h8 : vA.isObj = true
                      · rw [if_pos h8, if_pos h8]
                        refine ihM d sel vA.objD vB.objD ?_
                        have hA := jsizeM_objD_lt vA
                        have hB := jsizeM_objD_lt vB
                        omega
                      · rw [if_neg h8, if_neg h8]
      · -- diffValuesCoerced
        intro d sel vA vB cA cB hsz
        rw [diffValuesCoercedF, diffValuesCoerced]
        by_cases h1 : ((vA.isFloat || vB.isFloat) &&
            ((vA.isFloat || vA.isInt || (cA && vA.isNull)) &&
             (vB.isFloat || vB.isInt || (cB && vB.isNull)))) = true
        · rw [if_pos h1, if_pos h1]
        · rw [if_neg h1, if_neg h1]
          by_cases h2 : ((vA.isInt || (cA && vA.isNull)) &&
              (vB.isInt || (cB && vB.isNull))) = true
          · rw [if_pos h2, if_pos h2]
          · rw [if_neg h2, if_neg h2]
            by_cases h3 : ((vA.isStr || (cA && vA.isNull)) &&
                (vB.isStr || (cB && vB.isNull))) = true
            · rw [if_pos h3, if_pos h3]
            · rw [if_neg h3, if_neg h3]
              by_cases h4 : ((vA.isBool || (cA && vA.isNull)) &&
                  (vB.isBool || (cB && vB.isNull))) = true
              · rw [if_pos h4, if_pos h4]
              · rw [if_neg h4, if_neg h4]
                by_cases h5 : ((vA.isArr || (cA && vA.isNull)) &&
                    (vB.isArr || (cB && vB.isNull))) = true
                · rw [if_pos h5, if_pos h5]
                  refine ihIS d sel (nilToEmptySlice vA) (nilToEmptySlice vB) ?_
                  have hA := jsize_nilToEmptySlice_le vA
                  have hB := jsize_nilToEmptySlice_le vB
                  omega
                · rw [if_neg h5, if_neg h5]
                  by_cases h6 : ((vA.isObj || (cA && vA.isNull)) &&
                      (vB.isObj || (cB && vB.isNull))) = true
                  · rw [if_pos h6, if_pos h6]
                    refine ihM d sel _ _ ?_
                    have hA : jsizeM (if cA then vA.objOrDefault [] else vA.objD) < jsize vA := by
                      split
                      · exact jsizeM_objOrDefault_lt vA
                      · exact jsizeM_objD_lt vA
                    have hB : jsizeM (if cB then vB.objOrDefault [] else vB.objD) < jsize vB := by
                      split
                      · exact jsizeM_objOrDefault_lt vB
                      · exact jsizeM_objD_lt vB
                    omega
                  · rw [if_neg h6, if_neg h6]
      · -- diffInterSlice
        intro d sel vA vB hsz
        rw [diffInterSliceF, diffInterSlice]
        by_cases h1 : (!vA.isArr || !vB.isArr) = true
        · rw [if_pos h1, if_pos h1]
        · rw [if_neg h1, if_neg h1]
          have hwalk : diffInterSlicePositionalF (diffValuesF f) d sel vA.arrD vB.arrD =
              diffInterSlicePositional d sel vA.arrD vB.arrD := by
            refine diffInterSlicePositionalF_eq (n := jsizeL vA.arrD + jsizeL vB.arrD)
              ?_ (le_refl _) d sel
            intro d2 s2 x y hxy
            refine ihV d2 s2 x y ?_
            have hA := jsizeL_arrD_lt vA
            have hB := jsizeL_arrD_lt vB
            omega
          by_cases h2 : d.shouldIgnoreOrder sel = true
          · rw [if_pos h2, if_pos h2]
            rw [ihDet d sel vA vB (by omega)]
            split
            · rfl
            · rfl
            · exact hwalk
          · rw [if_neg h2, if_neg h2]
            exact hwalk
      · -- diffInterSliceDetectEquals
        intro d sel vA vB hsz
        rw [diffInterSliceDetectEqualsF, diffInterSliceDetectEquals]
        by_cases h1 : (!vA.isArr || !vB.isArr) = true
        · rw [if_pos h1, if_pos h1]
        · rw [if_neg h1, if_neg h1]
          rw [detectOuterF_eq (n := jsizeL vA.arrD + jsizeL vB.arrD)
            (fun d2 s2 x y hxy => ihV d2 s2 x y (by
              have hA := jsizeL_arrD_lt vA
              have hB := jsizeL_arrD_lt vB
              omega))
            (le_refl _) d sel 0 [] []]
      · -- diffObjxMapSlice
        intro d sel la lb hsz
        rw [diffObjxMapSliceF, diffObjxMapSlice]
        rw [objxMapSliceWalkF_eq (n := jsizeMS la + jsizeMS lb)
          (fun d2 s2 x y hxy => ihM d2 s2 x y (by omega))
          (le_refl _) d sel 0]
      · -- diffMap
        intro d sel mA mB hsz
        rw [diffMapF, diffMap]
        rw [diffMapWalkAF_eq (n := jsizeM mA + jsizeM mB - 2)
          (fun d2 s2 x y hxy => ihV d2 s2 x y (by
            have hA := jsize_pos x
            have hB := jsize_pos y
            omega))
          (by omega) d sel (sortedKeys mA)]

/-- Corollary of `engineF_eq` for `diffValues`. -/
theorem diffValuesF_eq (fuel : Nat) (d : Differ) (sel : String) (vA vB : JValue)
    (h : 5 * (jsize vA + jsize vB) + 10 ≤ fuel) :
    diffValuesF fuel d sel vA vB = diffValues d sel vA vB :=
  (engineF_eq fuel).1 d sel vA vB h

/-- Corolary of `engineF_eq` for `diffMap`. -/
theorem diffMapF_eq (fuel : Nat) (d : Differ) (sel : String) (mA mB : JMap)
    (h : 5 * (jsizeM mA + jsizeM mB) + 2 ≤ fuel) :
    diffMapF fuel d sel mA mB = diffMap d sel mA mB :=
  (engineF_eq fuel).2.2.2.2.2.2 d sel mA mB h

/-- Corollary of `engineF_eq` for `diffInterSlice`. -/
theorem diffInterSliceF_eq (fuel : Nat) (d : Differ) (sel : String) (vA vB : JValue)
    (h : 5 * (jsize vA + jsize vB) + 7 ≤ fuel) :
    diffInterSliceF fuel d sel vA vB = diffInterSlice d sel vA vB :=
  (engineF_eq fuel).2.2.2.1 d sel vA vB h

/-- Corollary of `engineF_eq` for `diffInterSliceDetectEquals`. -/
theorem diffInterSliceDetectEqualsF_eq (fuel : Nat) (d : Differ) (sel : String) (vA vB : JValue)
    (h : 5 * (jsize vA + jsize vB) + 6 ≤ fuel) :
    diffInterSliceDetectEqualsF fuel d sel vA vB = diffInterSliceDetectEquals d sel vA vB :=
  (engineF_eq fuel).2.2.2.2.1 d sel vA vB h

/-- Fuel-indexed twin of `Differ.Diff`. -/
def DiffF (fuel : Nat) (d : Differ) (objA objB : JMap) : Except String DiffList :=
  match diffMapF fuel { diff := [], rulesA := d.rulesA, rulesB := d.rulesB } "" objA objB with
  | .error e => .error e
  | .ok d3 => .ok d3.diff

/-- The twin of `Differ.Diff` agrees with it whenever the fuel covers the
measure of the two objects. -/
theorem DiffF_eq (fuel : Nat) (d : Differ) (objA objB : JMap)
    (h : 5 * (jsizeM objA + jsizeM objB) + 2 ≤ fuel) :
    DiffF fuel d objA objB = d.Diff objA objB := by
  unfold DiffF Differ.Diff
  rw [diffMapF_eq fuel _ "" objA objB h]

/-!
Relocation: every run of the engine equals the same run started from a
fresh clone, with the caller's accumulated patches prepended and the
caller's rules kept.  This captures at once that emissions only append to
the accumulator, that the rules never change during a run, and that the
patches contributed by a sub-run do not depend on what was accumulated
before it.
-/

/-- Prepend a base differ's accumulated patches to a sub-run's result,
keeping the base's rules. -/
def Differ.withBase (base e : Differ) : Differ :=
  { diff := base.diff ++ e.diff, rulesA := base.rulesA, rulesB := base.rulesB }

theorem clone_clone (d : Differ) : d.clone.clone = d.clone := rfl

theorem withBase_clone (d e : Differ) : (d.withBase e).clone = d.clone := rfl

theorem withBase_clone_self (d : Differ) : d.withBase d.clone = d := by
  unfold Differ.withBase Differ.clone
  simp

theorem reloc_ok_rules {op : Differ → Except String Differ} {d e : Differ}
    (hop : ∀ d2, op d2 = (op d2.clone).map d2.withBase)
    (h : op d.clone = .ok e) : e.rulesA = d.rulesA ∧ e.rulesB = d.rulesB := by
  have h2 := hop d.clone
  rw [clone_clone, h] at h2
  simp only [Except.map, Except.ok.injEq] at h2
  have h3 : e.rulesA = (d.clone.withBase e).rulesA := congrArg Differ.rulesA h2
  have h4 : e.rulesB = (d.clone.withBase e).rulesB := congrArg Differ.rulesB h2
  exact ⟨h3, h4⟩

theorem chain_reloc {tail : Differ → Except String Differ}
    (htail : ∀ d2, tail d2 = (tail d2.clone).map d2.withBase)
    {d e2 : Differ} (hra : e2.rulesA = d.rulesA) (hrb : e2.rulesB = d.rulesB) :
    tail (d.withBase e2) = (tail e2).map d.withBase := by
  rw [htail (d.withBase e2), htail e2, withBase_clone]
  have hc : e2.clone = d.clone := by
    unfold Differ.clone
    rw [hra, hrb]
  rw [hc]
  cases tail d.clone <;> simp [Except.map, Differ.withBase, List.append_assoc]

theorem lineA_reloc (d : Differ) (m s : String) (v : jsonI) :
    d.lineA m s v = (d.clone.lineA m s v).map d.withBase := by
  unfold Differ.lineA
  have hig : d.clone.shouldIgnore (joinSelectors m s) = d.shouldIgnore (joinSelectors m s) := rfl
  have hiz : d.clone.shouldIgnoreIfZero (joinSelectors m s) =
    d.shouldIgnoreIfZero (joinSelectors m s) := rfl
  rw [hig, hiz]
  by_cases h1 : (d.shouldIgnore (joinSelectors m s)).1 = true
  · rw [if_pos h1, if_pos h1]
    simp [Except.map, withBase_clone_self]
  · rw [if_neg h1, if_neg h1]
    by_cases h2 : (d.shouldIgnoreIfZero (joinSelectors m s)).1 = true
    · rw [if_pos h2, if_pos h2]
      cases hz : v.isZero with
      | error e => simp [Except.map]
      | ok b =>
        cases b
        · simp [Except.map, Differ.withBase, Differ.clone]
        · simp [Except.map, withBase_clone_self]
    · rw [if_neg h2, if_neg h2]
      simp [Except.map, Differ.withBase, Differ.clone]

theorem lineB_reloc (d : Differ) (m s : String) (v : jsonI) :
    d.lineB m s v = (d.clone.lineB m s v).map d.withBase := by
  unfold Differ.lineB
  have hig : d.clone.shouldIgnore (joinSelectors m s) = d.shouldIgnore (joinSelectors m s) := rfl
  have hiz : d.clone.shouldIgnoreIfZero (joinSelectors m s) =
    d.shouldIgnoreIfZero (joinSelectors m s) := rfl
  rw [hig, hiz]
  by_cases h1 : (d.shouldIgnore (joinSelectors m s)).2 = true
  · rw [if_pos h1, if_pos h1]
    simp [Except.map, withBase_clone_self]
  · rw [if_neg h1, if_neg h1]
    by_cases h2 : (d.shouldIgnoreIfZero (joinSelectors m s)).2 = true
    · rw [if_pos h2, if_pos h2]
      cases hz : v.isZero with
      | error e => simp [Except.map]
      | ok b =>
        cases b
        · simp [Except.map, Differ.withBase, Differ.clone]
        · simp [Except.map, withBase_clone_self]
    · rw [if_neg h2, if_neg h2]
      simp [Except.map, Differ.withBase, Differ.clone]

theorem lineAB_reloc (d : Differ) (m s : String) (vA vB : jsonI) :
    d.lineAB m s vA vB = (d.clone.lineAB m s vA vB).map d.withBase := by
  unfold Differ.lineAB
  have hig : d.clone.shouldIgnore (joinSelectors m s) = d.shouldIgnore (joinSelectors m s) := rfl
  have hiz : d.clone.shouldIgnoreIfZero (joinSelectors m s) =
    d.shouldIgnoreIfZero (joinSelectors m s) := rfl
  rw [hig, hiz]
  by_cases h1 : ((d.shouldIgnore (joinSelectors m s)).1 ||
      (d.shouldIgnore (joinSelectors m s)).2) = true
  · rw [if_pos h1, if_pos h1]
    simp [Except.map, withBase_clone_self]
  · rw [if_neg h1, if_neg h1]
    cases hz1 : (if (d.shouldIgnoreIfZero (joinSelectors m s)).1
        then vA.isZero else .ok false) with
    | error e => simp [Except.map]
    | ok b1 =>
      cases b1
      · cases hz2 : (if (d.shouldIgnoreIfZero (joinSelectors m s)).2
            then vB.isZero else .ok false) with
        | error e => simp [Except.map]
        | ok b2 =>
          cases b2
          · simp [Except.map, Differ.withBase, Differ.clone]
          · simp [Except.map, withBase_clone_self]
      · simp [Except.map, withBase_clone_self]

theorem interSliceTailB_reloc (bs : List JValue) :
    ∀ (d : Differ) (sel : String) (idx : Nat),
    interSliceTailB d sel bs idx = (interSliceTailB d.clone sel bs idx).map d.withBase := by
  induction bs with
  | nil => intro d sel idx; simp [interSliceTailB, Except.map, withBase_clone_self]
  | cons b rest ih =>
    intro d sel idx
    rw [interSliceTailB, interSliceTailB]
    have hfe : d.clone.floatEqualFunc = d.floatEqualFunc := rfl
    rw [hfe, lineB_reloc d]
    cases hc : d.clone.lineB "" (joinSelectors sel ("[" ++ toString idx ++ "]"))
        ⟨b, false, some (d.floatEqualFunc (joinSelectors sel ("[" ++ toString idx ++ "]")))⟩ with
    | error e => simp [Except.map]
    | ok e2 =>
      simp only [Except.map]
      obtain ⟨hra, hrb⟩ := reloc_ok_rules (fun d2 => lineB_reloc d2 "" _ _) hc
      exact chain_reloc (fun d2 => ih d2 sel (idx + 1)) hra hrb

theorem objxMapSliceTailB_reloc (bs : List JMap) :
    ∀ (d : Differ) (sel : String) (idx : Nat),
    objxMapSliceTailB d sel bs idx = (objxMapSliceTailB d.clone sel bs idx).map d.withBase := by
  induction bs with
  | nil => intro d sel idx; simp [objxMapSliceTailB, Except.map, withBase_clone_self]
  | cons b rest ih =>
    intro d sel idx
    rw [objxMapSliceTailB, objxMapSliceTailB]
    have hfe : d.clone.floatEqualFunc = d.floatEqualFunc := rfl
    rw [hfe, lineB_reloc d]
    cases hc : d.clone.lineB "" (joinSelectors sel ("[" ++ toString idx ++ "]"))
        ⟨.obj b, false, some (d.floatEqualFunc (joinSelectors sel ("[" ++ toString idx ++ "]")))⟩ with
    | error e => simp [Except.map]
    | ok e2 =>
      simp only [Except.map]
      obtain ⟨hra, hrb⟩ := reloc_ok_rules (fun d2 => lineB_reloc d2 "" _ _) hc
      exact chain_reloc (fun d2 => ih d2 sel (idx + 1)) hra hrb

theorem diffMapWalkB_reloc (keys : List String) :
    ∀ (d : Differ) (sel : String) (objA objB : JMap),
    diffMapWalkB d sel objA objB keys =
      (diffMapWalkB d.clone sel objA objB keys).map d.withBase := by
  induction keys with
  | nil => intro d sel objA objB; simp [diffMapWalkB, Except.map, withBase_clone_self]
  | cons keyB rest ih =>
    intro d sel objA objB
    rw [diffMapWalkB, diffMapWalkB]
    by_cases h : JMap.has objA keyB = true
    · rw [if_pos h, if_pos h, ih]
    · rw [if_neg h, if_neg h]
      have hfe : d.clone.floatEqualFunc = d.floatEqualFunc := rfl
      rw [hfe, lineB_reloc d]
      cases hc : d.clone.lineB "" (joinSelectors sel keyB)
          ⟨JMap.get objB keyB, true, some (d.floatEqualFunc (joinSelectors sel keyB))⟩ with
      | error e => simp [Except.map]
      | ok e2 =>
        simp only [Except.map]
        obtain ⟨hra, hrb⟩ := reloc_ok_rules (fun d2 => lineB_reloc d2 "" _ _) hc
        exact chain_reloc (fun d2 => ih d2 sel objA objB) hra hrb

theorem interSliceWalkF_reloc {rec : Differ → String → JValue → JValue → Except String Differ}
    (hrec : ∀ d2 s a b, rec d2 s a b = (rec d2.clone s a b).map d2.withBase)
    (la : List JValue) :
    ∀ (d : Differ) (sel : String) (lb : List JValue) (idx : Nat),
    interSliceWalkF rec d sel la lb idx =
      (interSliceWalkF rec d.clone sel la lb idx).map d.withBase := by
  induction la with
  | nil => intro d sel lb idx; simp [interSliceWalkF, Except.map, withBase_clone_self]
  | cons a rest ih =>
    intro d sel lb idx
    rw [interSliceWalkF, interSliceWalkF]
    by_cases h : lb.length ≤ idx
    · rw [if_pos h, if_pos h]
      have hfe : d.clone.floatEqualFunc = d.floatEqualFunc := rfl
      rw [hfe, lineA_reloc d]
      cases hc : d.clone.lineA "" (joinSelectors sel ("[" ++ toString idx ++ "]"))
          ⟨a, false, some (d.floatEqualFunc (joinSelectors sel ("[" ++ toString idx ++ "]")))⟩ with
      | error e => simp [Except.map]
      | ok e2 =>
        simp only [Except.map]
        obtain ⟨hra, hrb⟩ := reloc_ok_rules (fun d2 => lineA_reloc d2 "" _ _) hc
        exact chain_reloc (fun d2 => ih d2 sel lb (idx + 1)) hra hrb
    · rw [if_neg h, if_neg h]
      rw [hrec d]
      cases hc : rec d.clone (joinSelectors sel ("[" ++ toString idx ++ "]")) a
          (lb.getD idx .null) with
      | error e => simp [Except.map]
      | ok e2 =>
        simp only [Except.map]
        obtain ⟨hra, hrb⟩ := reloc_ok_rules (fun d2 => hrec d2 _ _ _) hc
        exact chain_reloc (fun d2 => ih d2 sel lb (idx + 1)) hra hrb

theorem diffInterSlicePositionalF_reloc
    {rec : Differ → String → JValue → JValue → Except String Differ}
    (hrec : ∀ d2 s a b, rec d2 s a b = (rec d2.clone s a b).map d2.withBase)
    (d : Differ) (sel : String) (la lb : List JValue) :
    diffInterSlicePositionalF rec d sel la lb =
      (diffInterSlicePositionalF rec d.clone sel la lb).map d.withBase := by
  unfold diffInterSlicePositionalF
  rw [interSliceWalkF_reloc hrec la d]
  cases hc : interSliceWalkF rec d.clone sel la lb 0 with
  | error e => simp [Except.map]
  | ok e2 =>
    simp only [Except.map]
    obtain ⟨hra, hrb⟩ := reloc_ok_rules (fun d2 => interSliceWalkF_reloc hrec la d2 sel lb 0) hc
    by_cases h : lb.length > la.length
    · rw [if_pos h, if_pos h]
      exact chain_reloc (fun d2 => interSliceTailB_reloc _ d2 sel la.length) hra hrb
    · rw [if_neg h, if_neg h]

theorem objxMapSliceWalkF_reloc {recMap : Differ → String → JMap → JMap → Except String Differ}
    (hrec : ∀ d2 s a b, recMap d2 s a b = (recMap d2.clone s a b).map d2.withBase)
    (la : List JMap) :
    ∀ (d : Differ) (sel : String) (lb : List JMap) (idx : Nat),
    objxMapSliceWalkF recMap d sel la lb idx =
      (objxMapSliceWalkF recMap d.clone sel la lb idx).map d.withBase := by
  induction la with
  | nil => intro d sel lb idx; simp [objxMapSliceWalkF, Except.map, withBase_clone_self]
  | cons a rest ih =>
    intro d sel lb idx
    rw [objxMapSliceWalkF, objxMapSliceWalkF]
    by_cases h : lb.length ≤ idx
    · rw [if_pos h, if_pos h]
      have hfe : d.clone.floatEqualFunc = d.floatEqualFunc := rfl
      rw [hfe, lineA_reloc d]
      cases hc : d.clone.lineA "" (joinSelectors sel ("[" ++ toString idx ++ "]"))
          ⟨.obj a, false, some (d.floatEqualFunc (joinSelectors sel ("[" ++ toString idx ++ "]")))⟩ with
      | error e => simp [Except.map]
      | ok e2 =>
        simp only [Except.map]
        obtain ⟨hra, hrb⟩ := reloc_ok_rules (fun d2 => lineA_reloc d2 "" _ _) hc
        exact chain_reloc (fun d2 => ih d2 sel lb (idx + 1)) hra hrb
    · rw [if_neg h, if_neg h]
      rw [hrec d]
      cases hc : recMap d.clone (joinSelectors sel ("[" ++ toString idx ++ "]")) a
          (lb.getD idx []) with
      | error e => simp [Except.map]
      | ok e2 =>
        simp only [Except.map]
        obtain ⟨hra, hrb⟩ := reloc_ok_rules (fun d2 => hrec d2 _ _ _) hc
        exact chain_reloc (fun d2 => ih d2 sel lb (idx + 1)) hra hrb

theorem diffMapWalkAF_reloc {rec : Differ → String → JValue → JValue → Except String Differ}
    (hrec : ∀ d2 s a b, rec d2 s a b = (rec d2.clone s a b).map d2.withBase)
    (keys : List String) :
    ∀ (d : Differ) (sel : String) (objA objB : JMap),
    diffMapWalkAF rec d sel objA objB keys =
      (diffMapWalkAF rec d.clone sel objA objB keys).map d.withBase := by
  induction keys with
  | nil => intro d sel objA objB; simp [diffMapWalkAF, Except.map, withBase_clone_self]
  | cons keyA rest ih =>
    intro d sel objA objB
    rw [diffMapWalkAF, diffMapWalkAF]
    cases hk : JMap.get? objA keyA with
    | none => simp only []; exact ih d sel objA objB
    | some valueA =>
      simp only []
      by_cases h : JMap.has objB keyA = true
      · rw [if_pos h, if_pos h]
        rw [hrec d]
        cases hc : rec d.clone (joinSelectors sel keyA) valueA (JMap.get objB keyA) with
        | error e => simp [Except.map]
        | ok e2 =>
          simp only [Except.map]
          obtain ⟨hra, hrb⟩ := reloc_ok_rules (fun d2 => hrec d2 _ _ _) hc
          exact chain_reloc (fun d2 => ih d2 sel objA objB) hra hrb
      · rw [if_neg h, if_neg h]
        have hfe : d.clone.floatEqualFunc = d.floatEqualFunc := rfl
        rw [hfe, lineA_reloc d]
        cases hc : d.clone.lineA "" (joinSelectors sel keyA)
            ⟨valueA, true, some (d.floatEqualFunc (joinSelectors sel keyA))⟩ with
        | error e => simp [Except.map]
        | ok e2 =>
          simp only [Except.map]
          obtain ⟨hra, hrb⟩ := reloc_ok_rules (fun d2 => lineA_reloc d2 "" _ _) hc
          exact chain_reloc (fun d2 => ih d2 sel objA objB) hra hrb

theorem detectInnerF_acc {rec : Differ → String → JValue → JValue → Except String Differ}
    (bs : List JValue) :
    ∀ (d : Differ) (sel : String) (idxA : Nat) (a : JValue) (idxB : Nat) (s : intSet),
    detectInnerF rec d.clone sel idxA a bs idxB s = detectInnerF rec d sel idxA a bs idxB s := by
  induction bs with
  | nil => intro d sel idxA a idxB s; rw [detectInnerF, detectInnerF]
  | cons b rest ih =>
    intro d sel idxA a idxB s
    rw [detectInnerF, detectInnerF, clone_clone]
    by_cases h : s.Has idxB = true
    · rw [if_pos h, if_pos h, ih]
    · rw [if_neg h, if_neg h]
      split
      · rfl
      · split
        · rfl
        · exact ih d sel idxA a (idxB + 1) s

theorem detectOuterF_acc {rec : Differ → String → JValue → JValue → Except String Differ}
    (la : List JValue) :
    ∀ (d : Differ) (sel : String) (lbFull : List JValue) (idxA : Nat) (sA sB : intSet),
    detectOuterF rec d.clone sel la lbFull idxA sA sB =
      detectOuterF rec d sel la lbFull idxA sA sB := by
  induction la with
  | nil => intro d sel lb idxA sA sB; rw [detectOuterF, detectOuterF]
  | cons a rest ih =>
    intro d sel lb idxA sA sB
    rw [detectOuterF, detectOuterF, detectInnerF_acc]
    split
    · rfl
    · exact ih d sel lb _ _ _
    · exact ih d sel lb _ _ _

theorem diffInterSliceDetectEqualsF_acc (fuel : Nat) (d : Differ) (sel : String)
    (vA vB : JValue) :
    diffInterSliceDetectEqualsF fuel d.clone sel vA vB =
      diffInterSliceDetectEqualsF fuel d sel vA vB := by
  cases fuel with
  | zero => rfl
  | succ f =>
    rw [diffInterSliceDetectEqualsF, diffInterSliceDetectEqualsF, detectOuterF_acc]

/-- The relocation statement for the five fuel-indexed comparators that
return a differ. -/
theorem relocF : ∀ fuel : Nat,
    (∀ d sel vA vB, diffValuesF fuel d sel vA vB =
      (diffValuesF fuel d.clone sel vA vB).map d.withBase) ∧
    (∀ d sel vA vB, diffValuesPostF fuel d sel vA vB =
      (diffValuesPostF fuel d.clone sel vA vB).map d.withBase) ∧
    (∀ d sel vA vB cA cB, diffValuesCoercedF fuel d sel vA vB cA cB =
      (diffValuesCoercedF fuel d.clone sel vA vB cA cB).map d.withBase) ∧
    (∀ d sel vA vB, diffInterSliceF fuel d sel vA vB =
      (diffInterSliceF fuel d.clone sel vA vB).map d.withBase) ∧
    (∀ d sel la lb, diffObjxMapSliceF fuel d sel la lb =
      (diffObjxMapSliceF fuel d.clone sel la lb).map d.withBase) ∧
    (∀ d sel mA mB, diffMapF fuel d sel mA mB =
      (diffMapF fuel d.clone sel mA mB).map d.withBase) := by
  intro fuel
  induction fuel with
  | zero =>
    refine ⟨?_, ?_, ?_, ?_, ?_, ?_⟩ <;> intro d sel a b <;> intros <;> rfl
  | succ f ih =>
    obtain ⟨ihV, ihP, ihC, ihIS, ihMS, ihM⟩ := ih
    refine ⟨?_, ?_, ?_, ?_, ?_, ?_⟩
    · -- diffValuesF
      intro d sel vA vB
      rw [diffValuesF, diffValuesF]
      have hcn : d.clone.shouldCoerceNull sel = d.shouldCoerceNull sel := rfl
      have hsn : d.clone.shouldConvertStringToNumber sel =
        d.shouldConvertStringToNumber sel := rfl
      rw [hcn, hsn]
      by_cases h : (((d.shouldCoerceNull sel).1 && vA.isNull) ||
          ((d.shouldCoerceNull sel).2 && vB.isNull)) = true
      · rw [if_pos h, if_pos h]
        exact ihC d sel vA vB _ _
      · rw [if_neg h, if_neg h]
        exact ihP d sel _ _
    · -- diffValuesPostF
      intro d sel vA vB
      rw [diffValuesPostF, diffValuesPostF]
      have hfe : d.clone.floatEqualFunc sel = d.floatEqualFunc sel := rfl
      rw [hfe]
      by_cases h1 : (!((vA.isInt || vA.isFloat) && (vB.isInt || vB.isFloat)) &&
          !(kindTag vA == kindTag vB)) = true
      · rw [if_pos h1, if_pos h1]
        exact lineAB_reloc d "" sel _ _
      · rw [if_neg h1, if_neg h1]
        by_cases h2 : (vA.isFloat || vB.isFloat) = true
        · rw [if_pos h2, if_pos h2]
          by_cases hq : d.floatEqualFunc sel (mustFloat64 vA) (mustFloat64 vB) = true
          · rw [if_pos hq, if_pos hq]
            simp [Except.map, withBase_clone_self]
          · rw [if_neg hq, if_neg hq]
            exact lineAB_reloc d "" sel _ _
        · rw [if_neg h2, if_neg h2]
          by_cases h3 : (vA.isBool && vB.isBool) = true
          · rw [if_pos h3, if_pos h3]
            by_cases hq : (vA.boolD == vB.boolD) = true
            · rw [if_pos hq, if_pos hq]
              simp [Except.map, withBase_clone_self]
            · rw [if_neg hq, if_neg hq]
              exact lineAB_reloc d "" sel _ _
          · rw [if_neg h3, if_neg h3]
            by_cases h4 : vA.isInt = true
            · rw [if_pos h4, if_pos h4]
              by_cases hq : (vA.intD == vB.intD) = true
              · rw [if_pos hq, if_pos hq]
                simp [Except.map, withBase_clone_self]
              · rw [if_neg hq, if_neg hq]
                exact lineAB_reloc d "" sel _ _
            · rw [if_neg h4, if_neg h4]
              by_cases h5 : vA.isStr = true
              · rw [if_pos h5, if_pos h5]
                by_cases hq : (vA.strD == vB.strD) = true
                · rw [if_pos hq, if_pos hq]
                  simp [Except.map, withBase_clone_self]
                · rw [if_neg hq, if_neg hq]
                  exact lineAB_reloc d "" sel _ _
              · rw [if_neg h5, if_neg h5]
                by_cases h6 : isObjxMapSlice vA = true
                · rw [if_pos h6, if_pos h6]
                  cases hA : objxMapSliceOf vA <;> cases hB : objxMapSliceOf vB <;>
                    simp only []
                  · rfl
                  · rfl
                  · rfl
                  · exact ihMS d sel _ _
                · rw [if_neg h6, if_neg h6]
                  by_cases h7 : vA.isArr = true
                  · rw [if_pos h7, if_pos h7]
                    exact ihIS d sel vA vB
                  · rw [if_neg h7, if_neg h7]
                    by_cases h8 : vA.isObj = true
                    · rw [if_pos h8, if_pos h8]
                      exact ihM d sel _ _
                    · rw [if_neg h8, if_neg h8]
                      rfl
    · -- diffValuesCoercedF
      intro d sel vA vB cA cB
      rw [diffValuesCoercedF, diffValuesCoercedF]
      have hfe : d.clone.floatEqualFunc sel = d.floatEqualFunc sel := rfl
      rw [hfe]
      by_cases h1 : ((vA.isFloat || vB.isFloat) &&
          ((vA.isFloat || vA.isInt || (cA && vA.isNull)) &&
           (vB.isFloat || vB.isInt || (cB && vB.isNull)))) = true
      · rw [if_pos h1, if_pos h1]
        by_cases hq : d.floatEqualFunc sel
            (if cA then float64OrZero vA else mustFloat64 vA)
            (if cB then float64OrZero vB else mustFloat64 vB) = true
        · rw [if_pos hq, if_pos hq]
          simp [Except.map, withBase_clone_self]
        · rw [if_neg hq, if_neg hq]
          exact lineAB_reloc d "" sel _ _
      · rw [if_neg h1, if_neg h1]
        by_cases h2 : ((vA.isInt || (cA && vA.isNull)) &&
            (vB.isInt || (cB && vB.isNull))) = true
        · rw [if_pos h2, if_pos h2]
          by_cases hq : ((if cA then vA.intOrDefault 0 else vA.intD) ==
              (if cB then vB.intOrDefault 0 else vB.intD)) = true
          · rw [if_pos hq, if_pos hq]
            simp [Except.map, withBase_clone_self]
          · rw [if_neg hq, if_neg hq]
            exact lineAB_reloc d "" sel _ _
        · rw [if_neg h2, if_neg h2]
          by_cases h3 : ((vA.isStr || (cA && vA.isNull)) &&
              (vB.isStr || (cB && vB.isNull))) = true
          · rw [if_pos h3, if_pos h3]
            by_cases hq : ((if cA then vA.strOrDefault "" else vA.strD) ==
                (if cB then vB.strOrDefault "" else vB.strD)) = true
            · rw [if_pos hq, if_pos hq]
              simp [Except.map, withBase_clone_self]
            · rw [if_neg hq, if_neg hq]
              exact lineAB_reloc d "" sel _ _
          · rw [if_neg h3, if_neg h3]
            by_cases h4 : ((vA.isBool || (cA && vA.isNull)) &&
                (vB.isBool || (cB && vB.isNull))) = true
            · rw [if_pos h4, if_pos h4]
              by_cases hq : ((if cA then vA.boolOrDefault false else vA.boolD) ==
                  (if cB then vB.boolOrDefault false else vB.boolD)) = true
              · rw [if_pos hq, if_pos hq]
                simp [Except.map, withBase_clone_self]
              · rw [if_neg hq, if_neg hq]
                exact lineAB_reloc d "" sel _ _
            · rw [if_neg h4, if_neg h4]
              by_cases h5 : ((vA.isArr || (cA && vA.isNull)) &&
                  (vB.isArr || (cB && vB.isNull))) = true
              · rw [if_pos h5, if_pos h5]
                exact ihIS d sel _ _
              · rw [if_neg h5, if_neg h5]
                by_cases h6 : ((vA.isObj || (cA && vA.isNull)) &&
                    (vB.isObj || (cB && vB.isNull))) = true
                · rw [if_pos h6, if_pos h6]
                  exact ihM d sel _ _
                · rw [if_neg h6, if_neg h6]
                  rfl
    · -- diffInterSliceF
      intro d sel vA vB
      rw [diffInterSliceF, diffInterSliceF]
      have hio : d.clone.shouldIgnoreOrder sel = d.shouldIgnoreOrder sel := rfl
      rw [hio]
      by_cases h1 : (!vA.isArr || !vB.isArr) = true
      · rw [if_pos h1, if_pos h1]
        rfl
      · rw [if_neg h1, if_neg h1]
        by_cases h2 : d.shouldIgnoreOrder sel = true
        · rw [if_pos h2, if_pos h2, diffInterSliceDetectEqualsF_acc]
          cases hdet : diffInterSliceDetectEqualsF f d sel vA vB with
          | error e => simp [Except.map]
          | ok b =>
            cases b
            · simp only []
              exact diffInterSlicePositionalF_reloc ihV d sel _ _
            · simp [Except.map, withBase_clone_self]
        · rw [if_neg h2, if_neg h2]
          exact diffInterSlicePositionalF_reloc ihV d sel _ _
    · -- diffObjxMapSliceF
      intro d sel la lb
      rw [diffObjxMapSliceF, diffObjxMapSliceF]
      rw [objxMapSliceWalkF_reloc ihM la d]
      cases hc : objxMapSliceWalkF (diffMapF f) d.clone sel la lb 0 with
      | error e => simp [Except.map]
      | ok e2 =>
        simp only [Except.map]
        obtain ⟨hra, hrb⟩ :=
          reloc_ok_rules (fun d2 => objxMapSliceWalkF_reloc ihM la d2 sel lb 0) hc
        by_cases h : lb.length > la.length
        · rw [if_pos h, if_pos h]
          exact chain_reloc (fun d2 => objxMapSliceTailB_reloc _ d2 sel la.length) hra hrb
        · rw [if_neg h, if_neg h]
    · -- diffMapF
      intro d sel mA mB
      rw [diffMapF, diffMapF]
      rw [diffMapWalkAF_reloc ihV (sortedKeys mA) d]
      cases hc : diffMapWalkAF (diffValuesF f) d.clone sel mA mB (sortedKeys mA) with
      | error e => simp [Except.map]
      | ok e2 =>
        simp only [Except.map]
        obtain ⟨hra, hrb⟩ :=
          reloc_ok_rules (fun d2 => diffMapWalkAF_reloc ihV (sortedKeys mA) d2 sel mA mB) hc
        exact chain_reloc (fun d2 => diffMapWalkB_reloc (sortedKeys mB) d2 sel mA mB) hra hrb

/-- Relocation at the engine level: a `diffValues` run equals the same run
from a fresh clone with the accumulated patches prepended. -/
theorem diffValues_reloc (d : Differ) (sel : String) (vA vB : JValue) :
    diffValues d sel vA vB = (diffValues d.clone sel vA vB).map d.withBase := by
  rw [← diffValuesF_eq (5 * (jsize vA + jsize vB) + 10) d sel vA vB (le_refl _),
    ← diffValuesF_eq (5 * (jsize vA + jsize vB) + 10) d.clone sel vA vB (le_refl _)]
  exact (relocF _).1 d sel vA vB

/-- Relocation at the engine level for `diffMap`. -/
theorem diffMap_reloc (d : Differ) (sel : String) (mA mB : JMap) :
    diffMap d sel mA mB = (diffMap d.clone sel mA mB).map d.withBase := by
  rw [← diffMapF_eq (5 * (jsizeM mA + jsizeM mB) + 2) d sel mA mB (le_refl _),
    ← diffMapF_eq (5 * (jsizeM mA + jsizeM mB) + 2) d.clone sel mA mB (le_refl _)]
  exact (relocF _).2.2.2.2.2 d sel mA mB

/-- The patch block one key of A contributes at an object level with no
rules installed: a single left-only patch when B lacks the key, otherwise
the patches of the recursive value diff of the two values, run from a
fresh rule-free differ. -/
def keyBlock (sel : String) (mA mB : JMap) (k : String) : DiffList :=
  if JMap.has mB k then
    match diffValues NewDiffer (joinSelectors sel k) (JMap.get mA k) (JMap.get mB k) with
    | .ok e => e.diff
    | .error _ => []
  else
    [{ selector := joinSelectors sel k, valueA := (JMap.get mA k).json, valueB := "" }]

/-- The right-only patches of B's keys absent from A, in ascending key
order. -/
def rightOnlyTail (sel : String) (mA mB : JMap) : DiffList :=
  ((sortedKeys mB).filter (fun k => !(JMap.has mA k))).map
    (fun k => { selector := joinSelectors sel k, valueA := "",
                valueB := (JMap.get mB k).json })

theorem noRules_shouldIgnore {d : Differ} (hA : d.rulesA = []) (hB : d.rulesB = [])
    (s : String) : d.shouldIgnore s = (false, false) := by
  unfold Differ.shouldIgnore Differ.matchRule
  rw [hA, hB]
  rfl

theorem noRules_shouldIgnoreIfZero {d : Differ} (hA : d.rulesA = []) (hB : d.rulesB = [])
    (s : String) : d.shouldIgnoreIfZero s = (false, false) := by
  unfold Differ.shouldIgnoreIfZero Differ.matchRule
  rw [hA, hB]
  rfl

theorem noRules_clone {d : Differ} (hA : d.rulesA = []) (hB : d.rulesB = []) :
    d.clone = NewDiffer := by
  unfold Differ.clone NewDiffer
  rw [hA, hB]

theorem noRules_lineA {d : Differ} (hA : d.rulesA = []) (hB : d.rulesB = [])
    (m s : String) (v : jsonI) :
    d.lineA m s v = .ok { d with diff := d.diff ++
      [{ selector := joinSelectors m s, valueA := v.JSON, valueB := "" }] } := by
  unfold Differ.lineA
  rw [noRules_shouldIgnore hA hB, noRules_shouldIgnoreIfZero hA hB]
  rfl

theorem noRules_lineB {d : Differ} (hA : d.rulesA = []) (hB : d.rulesB = [])
    (m s : String) (v : jsonI) :
    d.lineB m s v = .ok { d with diff := d.diff ++
      [{ selector := joinSelectors m s, valueA := "", valueB := v.JSON }] } := by
  unfold Differ.lineB
  rw [noRules_shouldIgnore hA hB, noRules_shouldIgnoreIfZero hA hB]
  rfl

theorem get?_some_get {m : JMap} {k : String} {v : JValue}
    (h : JMap.get? m k = some v) : JMap.get m k = v := by
  unfold JMap.get
  rw [h]
  rfl

theorem mem_sortedKeys_get?_isSome {m : JMap} {k : String}
    (h : k ∈ sortedKeys m) : (JMap.get? m k).isSome = true := by
  have hmem : k ∈ m.map Prod.fst := by
    have hperm := List.perm_insertionSort strLe (m.map Prod.fst)
    exact hperm.mem_iff.mp h
  obtain ⟨p, hp, hpk⟩ := List.mem_map.mp hmem
  have hs : (List.find? (fun q => q.1 == k) m).isSome = true :=
    List.find?_isSome.mpr ⟨p, hp, by simp [hpk]⟩
  unfold JMap.get?
  obtain ⟨q, hq⟩ := Option.isSome_iff_exists.mp hs
  rw [hq]
  rfl

theorem diffMapWalkB_noRules (keys : List String) :
    ∀ (d : Differ), d.rulesA = [] → d.rulesB = [] →
    ∀ (sel : String) (mA mB : JMap),
    diffMapWalkB d sel mA mB keys = .ok { d with diff := d.diff ++
      ((keys.filter (fun k => !(JMap.has mA k))).map
        (fun k => { selector := joinSelectors sel k, valueA := "",
                    valueB := (JMap.get mB k).json })) } := by
  induction keys with
  | nil =>
    intro d hA hB sel mA mB
    rw [diffMapWalkB]
    simp
  | cons keyB rest ih =>
    intro d hA hB sel mA mB
    rw [diffMapWalkB]
    by_cases h : JMap.has mA keyB = true
    · rw [if_pos h, ih d hA hB]
      simp [List.filter_cons, h]
    · rw [if_neg h]
      cases hc : d.lineB "" (joinSelectors sel keyB)
          ⟨JMap.get mB keyB, true, some (d.floatEqualFunc (joinSelectors sel keyB))⟩ with
      | error e =>
        rw [noRules_lineB hA hB] at hc
        cases hc
      | ok d2 =>
        simp only []
        rw [noRules_lineB hA hB] at hc
        injection hc with hc
        have hra2 : d2.rulesA = [] := by rw [← hc]; exact hA
        have hrb2 : d2.rulesB = [] := by rw [← hc]; exact hB
        rw [ih d2 hra2 hrb2, ← hc]
        simp [List.filter_cons, h, jsonI.JSON, joinSelectors]


instance {α β : Type} [DecidableEq α] [DecidableEq β] : DecidableEq (Except α β) :=
  fun a b =>
  match a, b with
  | .ok x, .ok y =>
    if h : x = y then .isTrue (by rw [h]) else .isFalse (by simp [h])
  | .error x, .error y =>
    if h : x = y then .isTrue (by rw [h]) else .isFalse (by simp [h])
  | .ok _, .error _ => .isFalse (by simp)
  | .error _, .ok _ => .isFalse (by simp)

mutual

/-- No `null` anywhere in the tree. -/
def nullFree : JValue → Bool
  | .null => false
  | .bool _ => true
  | .int _ => true
  | .float _ => true
  | .str _ => true
  | .arr xs => nullFreeL xs
  | .obj m => nullFreeM m

/-- `nullFree` on every element. -/
def nullFreeL : List JValue → Bool
  | [] => true
  | x :: xs => nullFree x && nullFreeL xs

/-- `nullFree` on every field value. -/
def nullFreeM : JMap → Bool
  | [] => true
  | p :: rest => nullFree p.2 && nullFreeM rest

end

theorem jsizeM_pair_mem_lt {p : String × JValue} {m : JMap} (hp : p ∈ m) :
    jsize p.2 < jsizeM m := by
  induction m with
  | nil => cases hp
  | cons q rest ih =>
    rcases List.mem_cons.mp hp with h1 | h2
    · subst h1; simp [jsizeM]; omega
    · have := ih h2
      simp [jsizeM]
      omega

theorem diffMapWalkA_decomp (sel : String) (mA mB : JMap) (keys : List String) :
    ∀ (d d2 : Differ), d.rulesA = [] → d.rulesB = [] →
    (∀ k ∈ keys, (JMap.get? mA k).isSome = true) →
    diffMapWalkA d sel mA mB keys = .ok d2 →
    d2.rulesA = [] ∧ d2.rulesB = [] ∧
      d2.diff = d.diff ++ (keys.map (keyBlock sel mA mB)).join := by
  induction keys with
  | nil =>
    intro d d2 hA hB hk hok
    rw [diffMapWalkA] at hok
    cases hok
    exact ⟨hA, hB, by simp⟩
  | cons keyA rest ih =>
    intro d d2 hA hB hk hok
    rw [diffMapWalkA] at hok
    split at hok
    · rename_i heq
      have hks := hk keyA (by simp)
      rw [heq] at hks
      cases hks
    · rename_i valueA heq
      split at hok
      · rename_i hb
        split at hok
        · cases hok
        · rename_i d3 hc
          rw [diffValues_reloc, noRules_clone hA hB] at hc
          cases hrun : diffValues NewDiffer (joinSelectors sel keyA) valueA
              (JMap.get mB keyA) with
          | error e =>
            rw [hrun] at hc
            cases hc
          | ok e =>
            rw [hrun] at hc
            simp only [Except.map, Except.ok.injEq] at hc
            have hra3 : d3.rulesA = [] := by rw [← hc]; exact hA
            have hrb3 : d3.rulesB = [] := by rw [← hc]; exact hB
            obtain ⟨h1, h2, h3⟩ := ih d3 d2 hra3 hrb3
              (fun k hkr => hk k (List.mem_cons_of_mem _ hkr)) hok
            refine ⟨h1, h2, ?_⟩
            rw [h3, ← hc]
            have hkb : keyBlock sel mA mB keyA = e.diff := by
              unfold keyBlock
              rw [if_pos hb, get?_some_get heq, hrun]
            simp [Differ.withBase, hkb, List.append_assoc]
      · rename_i hb
        split at hok
        · cases hok
        · rename_i d3 hc
          rw [noRules_lineA hA hB] at hc
          injection hc with hc
          have hra3 : d3.rulesA = [] := by rw [← hc]; exact hA
          have hrb3 : d3.rulesB = [] := by rw [← hc]; exact hB
          obtain ⟨h1, h2, h3⟩ := ih d3 d2 hra3 hrb3
            (fun k hkr => hk k (List.mem_cons_of_mem _ hkr)) hok
          refine ⟨h1, h2, ?_⟩
          rw [h3, ← hc]
          have hkb : keyBlock sel mA mB keyA =
              [{ selector := joinSelectors sel keyA,
                 valueA := (JMap.get mA keyA).json, valueB := "" }] := by
            unfold keyBlock
            rw [if_neg (by simp [hb])]
          simp [hkb, jsonI.JSON, joinSelectors, get?_some_get heq, List.append_assoc]

/-- C4.  With no rules installed, an object diff appends to the accumulator
exactly: one block per key of A in ascending key order — a left-only patch
`selector.k : (json of A[k], "")` when B lacks k, the recursive diff of the
two values otherwise — followed by one right-only patch
`selector.k : ("", json of B[k])` per key of B absent from A, again in
ascending key order.  The left-only plus right-only selectors at this
level are therefore exactly the symmetric difference of the key sets. -/
theorem diff_map_sorted_symmetric_difference (d : Differ) (sel : String) (mA mB : JMap)
    (d2 : Differ) (hA : d.rulesA = []) (hB : d.rulesB = [])
    (hok : diffMap d sel mA mB = .ok d2) :
    d2.diff = d.diff ++ ((sortedKeys mA).map (keyBlock sel mA mB)).join ++
      rightOnlyTail sel mA mB := by
  rw [diffMap] at hok
  split at hok
  · cases hok
  · rename_i dmid heq
    obtain ⟨hra, hrb, hdiff⟩ := diffMapWalkA_decomp sel mA mB (sortedKeys mA) d dmid hA hB
      (fun k hkk => mem_sortedKeys_get?_isSome hkk) heq
    rw [diffMapWalkB_noRules (sortedKeys mB) dmid hra hrb sel mA mB] at hok
    injection hok with hok
    rw [← hok]
    simp [hdiff, rightOnlyTail, List.append_assoc]

/-- Witness for C4: the decomposition at A = {"b":1}, B = {"c":2} with no
rules, whose diff is the left-only patch for b followed by the right-only
patch for c. -/
theorem diff_map_sorted_witness :
    ({ diff := [⟨"b", "1", ""⟩, ⟨"c", "", "2"⟩], rulesA := [], rulesB := [] } : Differ).diff =
      NewDiffer.diff ++
        ((sortedKeys [("b", .int 1)]).map
          (keyBlock "" [("b", .int 1)] [("c", .int 2)])).join ++
        rightOnlyTail "" [("b", .int 1)] [("c", .int 2)] :=
  diff_map_sorted_symmetric_difference NewDiffer "" [("b", .int 1)] [("c", .int 2)]
    { diff := [⟨"b", "1", ""⟩, ⟨"c", "", "2"⟩], rulesA := [], rulesB := [] } rfl rfl
    (by
      rw [← diffMapF_eq 1000 NewDiffer "" [("b", .int 1)] [("c", .int 2)] (by decide)]
      rfl)

/-!
Field-order independence: the canonical presentation `sortJ` (every
object's fields in ascending key order, recursively) determines the
engine's output.  Two Go maps with the same contents are modelled by two
association lists that are permutations of one another at every level,
which is exactly `sortJ a = sortJ a'` once keys are duplicate-free.
-/

/-- The canonical presentation of one map. -/
def sortM (m : JMap) : JMap := sortPairs (sortJM m)

/-- No string occurs twice. -/
def nodupB : List String → Bool
  | [] => true
  | k :: rest => !(rest.contains k) && nodupB rest

mutual

/-- Every object in the tree has duplicate-free keys (always true of a
tree decoded from a Go map). -/
def wfKeys : JValue → Bool
  | .null => true
  | .bool _ => true
  | .int _ => true
  | .float _ => true
  | .str _ => true
  | .arr xs => wfKeysL xs
  | .obj m => nodupB (m.map Prod.fst) && wfKeysM m

/-- `wfKeys` on every element. -/
def wfKeysL : List JValue → Bool
  | [] => true
  | x :: xs => wfKeys x && wfKeysL xs

/-- `wfKeys` on every field value. -/
def wfKeysM : JMap → Bool
  | [] => true
  | p :: rest => wfKeys p.2 && wfKeysM rest

end

/-- `wfKeys` on every map of an objx map slice. -/
def wfKeysMS : List JMap → Bool
  | [] => true
  | m :: rest => (nodupB (m.map Prod.fst) && wfKeysM m) && wfKeysMS rest

theorem sortJL_eq_map (xs : List JValue) : sortJL xs = xs.map sortJ := by
  induction xs with
  | nil => rfl
  | cons x rest ih => rw [sortJL, ih]; rfl

theorem sortJM_eq_map (m : JMap) : sortJM m = m.map (fun p => (p.1, sortJ p.2)) := by
  induction m with
  | nil => rfl
  | cons p rest ih => rw [sortJM, ih]; rfl

theorem sortJM_map_fst (m : JMap) : (sortJM m).map Prod.fst = m.map Prod.fst := by
  rw [sortJM_eq_map, List.map_map]
  rfl

theorem kindTag_sortJ (v : JValue) : kindTag (sortJ v) = kindTag v := by
  cases v <;> rfl

theorem isNull_sortJ (v : JValue) : (sortJ v).isNull = v.isNull := by cases v <;> rfl

theorem isBool_sortJ (v : JValue) : (sortJ v).isBool = v.isBool := by cases v <;> rfl

theorem isInt_sortJ (v : JValue) : (sortJ v).isInt = v.isInt := by cases v <;> rfl

theorem isFloat_sortJ (v : JValue) : (sortJ v).isFloat = v.isFloat := by cases v <;> rfl

theorem isStr_sortJ (v : JValue) : (sortJ v).isStr = v.isStr := by cases v <;> rfl

theorem isArr_sortJ (v : JValue) : (sortJ v).isArr = v.isArr := by cases v <;> rfl

theorem isObj_sortJ (v : JValue) : (sortJ v).isObj = v.isObj := by cases v <;> rfl

theorem boolD_sortJ (v : JValue) : (sortJ v).boolD = v.boolD := by cases v <;> rfl

theorem intD_sortJ (v : JValue) : (sortJ v).intD = v.intD := by cases v <;> rfl

theorem strD_sortJ (v : JValue) : (sortJ v).strD = v.strD := by cases v <;> rfl

theorem mustFloat64_sortJ (v : JValue) : mustFloat64 (sortJ v) = mustFloat64 v := by
  cases v <;> rfl

theorem float64OrZero_sortJ (v : JValue) : float64OrZero (sortJ v) = float64OrZero v := by
  cases v <;> rfl

theorem boolOrDefault_sortJ (v : JValue) (b : Bool) :
    (sortJ v).boolOrDefault b = v.boolOrDefault b := by cases v <;> rfl

theorem intOrDefault_sortJ (v : JValue) (i : Int) :
    (sortJ v).intOrDefault i = v.intOrDefault i := by cases v <;> rfl

theorem strOrDefault_sortJ (v : JValue) (s : String) :
    (sortJ v).strOrDefault s = v.strOrDefault s := by cases v <;> rfl

theorem sortJ_null_inv {v : JValue} (h : sortJ v = .null) : v = .null := by
  cases v <;> first | rfl | cases h

theorem sortJ_bool_inv {v : JValue} {b : Bool} (h : sortJ v = .bool b) : v = .bool b := by
  cases v <;> cases h <;> rfl

theorem sortJ_int_inv {v : JValue} {i : Int} (h : sortJ v = .int i) : v = .int i := by
  cases v <;> cases h <;> rfl

theorem sortJ_float_inv {v : JValue} {q : Rat} (h : sortJ v = .float q) : v = .float q := by
  cases v <;> cases h <;> rfl

theorem sortJ_str_inv {v : JValue} {s : String} (h : sortJ v = .str s) : v = .str s := by
  cases v <;> cases h <;> rfl

theorem sortJ_arr_inv {v : JValue} {ys : List JValue} (h : sortJ v = .arr ys) :
    ∃ xs, v = .arr xs ∧ xs.map sortJ = ys := by
  cases v <;> cases h
  rename_i xs
  exact ⟨xs, rfl, (sortJL_eq_map xs).symm⟩

theorem sortJ_obj_inv {v : JValue} {ys : JMap} (h : sortJ v = .obj ys) :
    ∃ m, v = .obj m ∧ sortM m = ys := by
  cases v <;> cases h
  rename_i m
  exact ⟨m, rfl, rfl⟩

theorem map_fst_orderedInsert (p : String × JValue) (l : JMap) :
    (List.orderedInsert pairLe p l).map Prod.fst =
      List.orderedInsert strLe p.1 (l.map Prod.fst) := by
  induction l with
  | nil => rfl
  | cons q rest ih =>
    simp only [List.map_cons, List.orderedInsert]
    by_cases h : strLe p.1 q.1
    · have hp : pairLe p q := h
      rw [if_pos h, if_pos hp]
      simp
    · have hp : ¬pairLe p q := h
      rw [if_neg h, if_neg hp]
      simp [ih]

theorem map_fst_sortPairs (m : JMap) :
    (sortPairs m).map Prod.fst = sortStrings (m.map Prod.fst) := by
  unfold sortPairs sortStrings
  induction m with
  | nil => rfl
  | cons p rest ih =>
    rw [List.map_cons, List.insertionSort, List.insertionSort, map_fst_orderedInsert, ih]

theorem sortedKeys_congr {mA mA' : JMap} (h : sortM mA = sortM mA') :
    sortedKeys mA = sortedKeys mA' := by
  have h1 := congrArg (List.map Prod.fst) h
  unfold sortM at h1
  rw [map_fst_sortPairs, map_fst_sortPairs, sortJM_map_fst, sortJM_map_fst] at h1
  exact h1

theorem get?_eq_none_iff {m : JMap} {k : String} :
    JMap.get? m k = none ↔ k ∉ m.map Prod.fst := by
  unfold JMap.get?
  rw [Option.map_eq_none', List.find?_eq_none]
  constructor
  · intro hf hmem
    obtain ⟨p, hp, hpk⟩ := List.mem_map.mp hmem
    exact absurd (by simp [hpk]) (hf p hp)
  · intro hmem p hp
    simp only [beq_iff_eq]
    intro hpk
    exact hmem (List.mem_map.mpr ⟨p, hp, hpk⟩)

theorem mem_of_get? {m : JMap} {k : String} {v : JValue}
    (h : JMap.get? m k = some v) : (k, v) ∈ m := by
  unfold JMap.get? at h
  cases hf : List.find? (fun p => p.1 == k) m with
  | none => rw [hf] at h; cases h
  | some q =>
    rw [hf] at h
    have hq := List.mem_of_find?_eq_some hf
    have hqk : q.1 = k := by
      have := List.find?_some hf
      simpa using this
    have hqv : q.2 = v := by injection h
    have : q = (k, v) := by
      rw [← hqk, ← hqv]
    rw [← this]
    exact hq

theorem get?_of_mem_nodup {m : JMap} {k : String} {v : JValue}
    (hnd : nodupB (m.map Prod.fst) = true) (hmem : (k, v) ∈ m) :
    JMap.get? m k = some v := by
  induction m with
  | nil => cases hmem
  | cons q rest ih =>
    rw [List.map_cons, nodupB, Bool.and_eq_true] at hnd
    rcases List.mem_cons.mp hmem with h1 | h2
    · unfold JMap.get?
      rw [List.find?_cons_of_pos _ (by rw [← h1]; simp)]
      rw [← h1]
      rfl
    · have hq1 : q.1 ≠ k := by
        intro hk
        have hkmem : k ∈ rest.map Prod.fst := List.mem_map.mpr ⟨(k, v), h2, rfl⟩
        have hcont : (rest.map Prod.fst).contains k = true := List.elem_iff.mpr hkmem
        have hnot := hnd.1
        rw [hk, hcont] at hnot
        cases hnot
      unfold JMap.get?
      rw [List.find?_cons_of_neg _ (by simp [hq1])]
      exact ih hnd.2 h2

theorem mem_sortM_of_mem {m : JMap} {k : String} {v : JValue} (h : (k, v) ∈ m) :
    (k, sortJ v) ∈ sortM m := by
  unfold sortM sortPairs
  rw [(List.perm_insertionSort pairLe (sortJM m)).mem_iff]
  rw [sortJM_eq_map]
  exact List.mem_map.mpr ⟨(k, v), h, rfl⟩

theorem mem_of_mem_sortM {m : JMap} {k : String} {w : JValue} (h : (k, w) ∈ sortM m) :
    ∃ v, (k, v) ∈ m ∧ sortJ v = w := by
  unfold sortM sortPairs at h
  rw [(List.perm_insertionSort pairLe (sortJM m)).mem_iff, sortJM_eq_map] at h
  obtain ⟨p, hp, hpq⟩ := List.mem_map.mp h
  refine ⟨p.2, ?_, ?_⟩
  · have h1 : p.1 = k := congrArg Prod.fst hpq
    have : p = (k, p.2) := by rw [← h1]
    rw [← this]
    exact hp
  · exact congrArg Prod.snd hpq

theorem get?_congr {mA mA' : JMap} (hndA : nodupB (mA.map Prod.fst) = true)
    (hndA' : nodupB (mA'.map Prod.fst) = true) (h : sortM mA = sortM mA') (k : String) :
    (JMap.get? mA k).map sortJ = (JMap.get? mA' k).map sortJ := by
  cases hA : JMap.get? mA k with
  | none =>
    cases hA' : JMap.get? mA' k with
    | none => rfl
    | some v' =>
      exfalso
      have hmem' := mem_of_get? hA'
      have hs := mem_sortM_of_mem hmem'
      rw [← h] at hs
      obtain ⟨v, hv, _⟩ := mem_of_mem_sortM hs
      have : k ∈ mA.map Prod.fst := List.mem_map.mpr ⟨(k, v), hv, rfl⟩
      exact get?_eq_none_iff.mp hA this
  | some v =>
    have hmem := mem_of_get? hA
    have hs := mem_sortM_of_mem hmem
    rw [h] at hs
    obtain ⟨v', hv', hsv'⟩ := mem_of_mem_sortM hs
    rw [get?_of_mem_nodup hndA' hv']
    simp [Option.map, hsv']

theorem has_congr {mA mA' : JMap} (hndA : nodupB (mA.map Prod.fst) = true)
    (hndA' : nodupB (mA'.map Prod.fst) = true) (h : sortM mA = sortM mA') (k : String) :
    JMap.has mA k = JMap.has mA' k := by
  have hq := get?_congr hndA hndA' h k
  unfold JMap.has
  cases hA : JMap.get? mA k with
  | none =>
    cases hA' : JMap.get? mA' k with
    | none => rfl
    | some v' => rw [hA, hA'] at hq; cases hq
  | some v =>
    cases hA' : JMap.get? mA' k with
    | none => rw [hA, hA'] at hq; cases hq
    | some v' => rfl

theorem get_congr {mA mA' : JMap} (hndA : nodupB (mA.map Prod.fst) = true)
    (hndA' : nodupB (mA'.map Prod.fst) = true) (h : sortM mA = sortM mA') (k : String) :
    sortJ (JMap.get mA k) = sortJ (JMap.get mA' k) := by
  have hq := get?_congr hndA hndA' h k
  unfold JMap.get
  cases hA : JMap.get? mA k with
  | none =>
    cases hA' : JMap.get? mA' k with
    | none => rfl
    | some v' => rw [hA, hA'] at hq; cases hq
  | some v =>
    cases hA' : JMap.get? mA' k with
    | none => rw [hA, hA'] at hq; cases hq
    | some v' =>
      rw [hA, hA'] at hq
      simp only [Option.map, Option.getD] at hq ⊢
      injection hq

theorem isEmpty_eq_of_length_eq {α β : Type} {l : List α} {l2 : List β}
    (h : l.length = l2.length) : l.isEmpty = l2.isEmpty := by
  cases l <;> cases l2 <;> simp_all

theorem sortM_length (m : JMap) : (sortM m).length = m.length := by
  unfold sortM sortPairs
  rw [(List.perm_insertionSort pairLe (sortJM m)).length_eq]
  rw [sortJM_eq_map, List.length_map]

theorem isZero_sortJ (v : JValue) (w : Bool) (f : Option FloatEqualFunc) :
    jsonI.isZero ⟨sortJ v, w, f⟩ = jsonI.isZero ⟨v, w, f⟩ := by
  cases v with
  | arr xs =>
    have hlen : (sortJL xs).length = xs.length := by rw [sortJL_eq_map, List.length_map]
    have hemp : (sortJL xs).isEmpty = xs.isEmpty := isEmpty_eq_of_length_eq hlen
    cases w <;> simp [jsonI.isZero, sortJ, hemp]
  | obj m =>
    have hemp : (sortPairs (sortJM m)).isEmpty = m.isEmpty :=
      isEmpty_eq_of_length_eq (sortM_length m)
    cases w <;> simp [jsonI.isZero, sortJ, hemp]
  | null => rfl
  | bool b => rfl
  | int i => rfl
  | float q => rfl
  | str s => rfl

theorem json_congr {a a' : JValue} (h : sortJ a = sortJ a') : a.json = a'.json := by
  unfold JValue.json
  rw [h]

theorem lineA_congr (d : Differ) (m s : String) {a a' : JValue} (w : Bool)
    (f : Option FloatEqualFunc) (h : sortJ a = sortJ a') :
    d.lineA m s ⟨a, w, f⟩ = d.lineA m s ⟨a', w, f⟩ := by
  unfold Differ.lineA
  have hz : jsonI.isZero ⟨a, w, f⟩ = jsonI.isZero ⟨a', w, f⟩ := by
    rw [← isZero_sortJ a, ← isZero_sortJ a', h]
  have hj : jsonI.JSON ⟨a, w, f⟩ = jsonI.JSON ⟨a', w, f⟩ := by
    unfold jsonI.JSON
    simp only []
    exact json_congr h
  rw [hz, hj]

theorem lineB_congr (d : Differ) (m s : String) {b b' : JValue} (w : Bool)
    (f : Option FloatEqualFunc) (h : sortJ b = sortJ b') :
    d.lineB m s ⟨b, w, f⟩ = d.lineB m s ⟨b', w, f⟩ := by
  unfold Differ.lineB
  have hz : jsonI.isZero ⟨b, w, f⟩ = jsonI.isZero ⟨b', w, f⟩ := by
    rw [← isZero_sortJ b, ← isZero_sortJ b', h]
  have hj : jsonI.JSON ⟨b, w, f⟩ = jsonI.JSON ⟨b', w, f⟩ := by
    unfold jsonI.JSON
    simp only []
    exact json_congr h
  rw [hz, hj]

theorem lineAB_congr (d : Differ) (m s : String) {a a' b b' : JValue} (w : Bool)
    (f : Option FloatEqualFunc) (ha : sortJ a = sortJ a') (hb : sortJ b = sortJ b') :
    d.lineAB m s ⟨a, w, f⟩ ⟨b, w, f⟩ = d.lineAB m s ⟨a', w, f⟩ ⟨b', w, f⟩ := by
  unfold Differ.lineAB
  have hza : jsonI.isZero ⟨a, w, f⟩ = jsonI.isZero ⟨a', w, f⟩ := by
    rw [← isZero_sortJ a, ← isZero_sortJ a', ha]
  have hzb : jsonI.isZero ⟨b, w, f⟩ = jsonI.isZero ⟨b', w, f⟩ := by
    rw [← isZero_sortJ b, ← isZero_sortJ b', hb]
  have hja : jsonI.JSON ⟨a, w, f⟩ = jsonI.JSON ⟨a', w, f⟩ := by
    unfold jsonI.JSON
    simp only []
    exact json_congr ha
  have hjb : jsonI.JSON ⟨b, w, f⟩ = jsonI.JSON ⟨b', w, f⟩ := by
    unfold jsonI.JSON
    simp only []
    exact json_congr hb
  rw [hza, hzb, hja, hjb]

theorem sortJ_tryAsNumber_congr {a a' : JValue} (h : sortJ a = sortJ a') :
    sortJ (tryAsNumber a) = sortJ (tryAsNumber a') := by
  cases a with
  | null => rw [sortJ_null_inv h.symm]
  | bool b => rw [sortJ_bool_inv h.symm]
  | int i => rw [sortJ_int_inv h.symm]
  | float q => rw [sortJ_float_inv h.symm]
  | str s => rw [sortJ_str_inv h.symm]
  | arr xs =>
    obtain ⟨xs', hx, _⟩ := sortJ_arr_inv (v := a') (show sortJ a' = JValue.arr (sortJL xs) from h.symm)
    rw [hx] at h ⊢
    exact h
  | obj m =>
    obtain ⟨m', hx, _⟩ := sortJ_obj_inv (v := a') (show sortJ a' = JValue.obj (sortPairs (sortJM m)) from h.symm)
    rw [hx] at h ⊢
    exact h

theorem wfKeys_tryAsNumber {a : JValue} (h : wfKeys a = true) :
    wfKeys (tryAsNumber a) = true := by
  cases a <;> simp only [tryAsNumber] <;> try exact h
  split
  · split <;> first | rfl | exact h
  · split <;> first | rfl | exact h

theorem sortJ_tryAsNumberWhen_congr (flag : Bool) {a a' : JValue}
    (h : sortJ a = sortJ a') :
    sortJ (tryAsNumberWhen flag a) = sortJ (tryAsNumberWhen flag a') := by
  unfold tryAsNumberWhen
  split
  · exact sortJ_tryAsNumber_congr h
  · exact h

theorem wfKeys_tryAsNumberWhen (flag : Bool) {a : JValue} (h : wfKeys a = true) :
    wfKeys (tryAsNumberWhen flag a) = true := by
  unfold tryAsNumberWhen
  split
  · exact wfKeys_tryAsNumber h
  · exact h

theorem sortJ_nilToEmptySlice_congr {a a' : JValue} (h : sortJ a = sortJ a') :
    sortJ (nilToEmptySlice a) = sortJ (nilToEmptySlice a') := by
  unfold nilToEmptySlice
  have hn : a.isNull = a'.isNull := by rw [← isNull_sortJ, ← isNull_sortJ a', h]
  by_cases hnull : a.isNull = true
  · rw [if_pos hnull, if_pos (by rw [← hn]; exact hnull)]
  · rw [if_neg hnull, if_neg (by rw [← hn]; exact hnull)]
    exact h

theorem wfKeys_nilToEmptySlice {a : JValue} (h : wfKeys a = true) :
    wfKeys (nilToEmptySlice a) = true := by
  unfold nilToEmptySlice
  split
  · rfl
  · exact h

theorem wfKeysL_mem {x : JValue} {xs : List JValue} (hx : x ∈ xs)
    (h : wfKeysL xs = true) : wfKeys x = true := by
  induction xs with
  | nil => cases hx
  | cons y ys ih =>
    rw [wfKeysL, Bool.and_eq_true] at h
    rcases List.mem_cons.mp hx with h1 | h2
    · rw [h1]; exact h.1
    · exact ih h2 h.2

theorem wfKeysM_mem {p : String × JValue} {m : JMap} (hp : p ∈ m)
    (h : wfKeysM m = true) : wfKeys p.2 = true := by
  induction m with
  | nil => cases hp
  | cons q rest ih =>
    rw [wfKeysM, Bool.and_eq_true] at h
    rcases List.mem_cons.mp hp with h1 | h2
    · rw [h1]; exact h.1
    · exact ih h2 h.2

theorem wfKeysMS_mem {mp : JMap} {ms : List JMap} (hm : mp ∈ ms)
    (h : wfKeysMS ms = true) : (nodupB (mp.map Prod.fst) && wfKeysM mp) = true := by
  induction ms with
  | nil => cases hm
  | cons q rest ih =>
    rw [wfKeysMS, Bool.and_eq_true] at h
    rcases List.mem_cons.mp hm with h1 | h2
    · rw [h1]; exact h.1
    · exact ih h2 h.2

theorem map_sortJ_cons_inv {a : JValue} {rest la' : List JValue}
    (h : (a :: rest).map sortJ = la'.map sortJ) :
    ∃ a' rest', la' = a' :: rest' ∧ sortJ a = sortJ a' ∧
      rest.map sortJ = rest'.map sortJ := by
  cases la' with
  | nil => cases h
  | cons a' rest' =>
    rw [List.map_cons, List.map_cons] at h
    exact ⟨a', rest', rfl, by injection h, by injection h⟩

theorem map_sortM_cons_inv {a : JMap} {rest la' : List JMap}
    (h : (a :: rest).map sortM = la'.map sortM) :
    ∃ a' rest', la' = a' :: rest' ∧ sortM a = sortM a' ∧
      rest.map sortM = rest'.map sortM := by
  cases la' with
  | nil => cases h
  | cons a' rest' =>
    rw [List.map_cons, List.map_cons] at h
    exact ⟨a', rest', rfl, by injection h, by injection h⟩

theorem getD_sortJ_congr {lb0 lb0' : List JValue}
    (h : lb0.map sortJ = lb0'.map sortJ) (idx : Nat) :
    sortJ (lb0.getD idx .null) = sortJ (lb0'.getD idx .null) := by
  have h1 := List.getD_map lb0 JValue.null sortJ (n := idx)
  have h2 := List.getD_map lb0' JValue.null sortJ (n := idx)
  rw [← h1, ← h2, h]

theorem getD_sortM_congr {lb0 lb0' : List JMap}
    (h : lb0.map sortM = lb0'.map sortM) (idx : Nat) :
    sortM (lb0.getD idx []) = sortM (lb0'.getD idx []) := by
  have h1 := List.getD_map lb0 ([] : JMap) sortM (n := idx)
  have h2 := List.getD_map lb0' ([] : JMap) sortM (n := idx)
  rw [show sortM [] = ([] : JMap) from rfl] at h1 h2
  rw [← h1, ← h2, h]

theorem getD_mem_or {α : Type} (l : List α) (idx : Nat) (dflt : α) :
    l.getD idx dflt ∈ l ∨ l.getD idx dflt = dflt := by
  by_cases hlt : idx < l.length
  · left
    rw [List.getD_eq_getElem?_getD, List.getElem?_eq_getElem hlt]
    exact List.getElem_mem hlt
  · right
    rw [List.getD_eq_getElem?_getD, List.getElem?_eq_none (by omega)]
    rfl

theorem interSliceTailB_congr :
    ∀ (bs bs' : List JValue), bs.map sortJ = bs'.map sortJ →
    ∀ (d : Differ) (sel : String) (idx : Nat),
    interSliceTailB d sel bs idx = interSliceTailB d sel bs' idx := by
  intro bs
  induction bs with
  | nil =>
    intro bs' h d sel idx
    cases bs' with
    | nil => rfl
    | cons b' rest' => cases h
  | cons b rest ih =>
    intro bs' h d sel idx
    obtain ⟨b', rest', hcons, hsb, hrest⟩ := map_sortJ_cons_inv h
    subst hcons
    rw [interSliceTailB, interSliceTailB]
    rw [lineB_congr d "" (joinSelectors sel ("[" ++ toString idx ++ "]")) false
      (some (d.floatEqualFunc (joinSelectors sel ("[" ++ toString idx ++ "]")))) hsb]
    cases hc : d.lineB "" (joinSelectors sel ("[" ++ toString idx ++ "]"))
        ⟨b', false, some (d.floatEqualFunc (joinSelectors sel ("[" ++ toString idx ++ "]")))⟩ with
    | error e => rfl
    | ok d2 => exact ih rest' hrest d2 sel (idx + 1)

theorem objxMapSliceTailB_congr :
    ∀ (bs bs' : List JMap), bs.map sortM = bs'.map sortM →
    ∀ (d : Differ) (sel : String) (idx : Nat),
    objxMapSliceTailB d sel bs idx = objxMapSliceTailB d sel bs' idx := by
  intro bs
  induction bs with
  | nil =>
    intro bs' h d sel idx
    cases bs' with
    | nil => rfl
    | cons b' rest' => cases h
  | cons b rest ih =>
    intro bs' h d sel idx
    obtain ⟨b', rest', hcons, hsb, hrest⟩ := map_sortM_cons_inv h
    subst hcons
    rw [objxMapSliceTailB, objxMapSliceTailB]
    have hsj : sortJ (.obj b) = sortJ (.obj b') := by
      show JValue.obj (sortM b) = JValue.obj (sortM b')
      rw [hsb]
    rw [lineB_congr d "" (joinSelectors sel ("[" ++ toString idx ++ "]")) false
      (some (d.floatEqualFunc (joinSelectors sel ("[" ++ toString idx ++ "]")))) hsj]
    cases hc : d.lineB "" (joinSelectors sel ("[" ++ toString idx ++ "]"))
        ⟨.obj b', false, some (d.floatEqualFunc (joinSelectors sel ("[" ++ toString idx ++ "]")))⟩ with
    | error e => rfl
    | ok d2 => exact ih rest' hrest d2 sel (idx + 1)

theorem interSliceWalk_congr :
    ∀ (la la' : List JValue) {lb0 lb0' : List JValue},
    lb0.map sortJ = lb0'.map sortJ →
    (∀ x x' y y', x ∈ la → x' ∈ la' → (y ∈ lb0 ∨ y = .null) → (y' ∈ lb0' ∨ y' = .null) →
      sortJ x = sortJ x' → sortJ y = sortJ y' →
      ∀ (d2 : Differ) (s2 : String), diffValues d2 s2 x y = diffValues d2 s2 x' y') →
    la.map sortJ = la'.map sortJ →
    ∀ (d : Differ) (sel : String) (idx : Nat),
    interSliceWalk d sel la lb0 idx = interSliceWalk d sel la' lb0' idx := by
  intro la
  induction la with
  | nil =>
    intro la' lb0 lb0' hlb hrec hla d sel idx
    cases la' with
    | nil => rw [interSliceWalk, interSliceWalk]
    | cons a' rest' => cases hla
  | cons a rest ih =>
    intro la' lb0 lb0' hlb hrec hla d sel idx
    obtain ⟨a', rest', hcons, hsa, hrest⟩ := map_sortJ_cons_inv hla
    subst hcons
    rw [interSliceWalk, interSliceWalk]
    have hlen : lb0.length = lb0'.length := by
      have := congrArg List.length hlb
      simpa using this
    by_cases hov : lb0.length ≤ idx
    · rw [dif_pos hov, dif_pos (by omega)]
      rw [lineA_congr d "" (joinSelectors sel ("[" ++ toString idx ++ "]")) false
        (some (d.floatEqualFunc (joinSelectors sel ("[" ++ toString idx ++ "]")))) hsa]
      cases hc : d.lineA "" (joinSelectors sel ("[" ++ toString idx ++ "]"))
          ⟨a', false, some (d.floatEqualFunc (joinSelectors sel ("[" ++ toString idx ++ "]")))⟩ with
      | error e => rfl
      | ok d2 =>
        exact ih rest' hlb
          (fun x x' y y' hx hx' hy hy' h1 h2 => hrec x x' y y'
            (List.mem_cons_of_mem _ hx) (List.mem_cons_of_mem _ hx') hy hy' h1 h2)
          hrest d2 sel (idx + 1)
    · rw [dif_neg hov, dif_neg (by omega)]
      have hy : sortJ (lb0.getD idx .null) = sortJ (lb0'.getD idx .null) :=
        getD_sortJ_congr hlb idx
      have hymem := getD_mem_or lb0 idx .null
      have hymem' := getD_mem_or lb0' idx .null
      rw [hrec a a' (lb0.getD idx .null) (lb0'.getD idx .null)
        (List.mem_cons_self a rest) (List.mem_cons_self a' rest')
        hymem hymem' hsa hy d (joinSelectors sel ("[" ++ toString idx ++ "]"))]
      cases hc : diffValues d (joinSelectors sel ("[" ++ toString idx ++ "]")) a'
          (lb0'.getD idx .null) with
      | error e => rfl
      | ok d2 =>
        exact ih rest' hlb
          (fun x x' y y' hx hx' hy2 hy2' h1 h2 => hrec x x' y y'
            (List.mem_cons_of_mem _ hx) (List.mem_cons_of_mem _ hx') hy2 hy2' h1 h2)
          hrest d2 sel (idx + 1)

theorem detectInner_congr {a a' : JValue} (ha : sortJ a = sortJ a') :
    ∀ (bs bs' : List JValue), bs.map sortJ = bs'.map sortJ →
    (∀ y y', y ∈ bs → y' ∈ bs' → sortJ y = sortJ y' →
      ∀ (d2 : Differ) (s2 : String), diffValues d2 s2 a y = diffValues d2 s2 a' y') →
    ∀ (d : Differ) (sel : String) (idxA idxB : Nat) (s : intSet),
    detectInner d sel idxA a bs idxB s = detectInner d sel idxA a' bs' idxB s := by
  intro bs
  induction bs with
  | nil =>
    intro bs' h hrec d sel idxA idxB s
    cases bs' with
    | nil => rw [detectInner, detectInner]
    | cons b' rest' => cases h
  | cons b rest ih =>
    intro bs' h hrec d sel idxA idxB s
    obtain ⟨b', rest', hcons, hsb, hrest⟩ := map_sortJ_cons_inv h
    subst hcons
    rw [detectInner, detectInner]
    by_cases hhas : s.Has idxB = true
    · rw [if_pos hhas, if_pos hhas]
      exact ih rest' hrest
        (fun y y' hy hy' h2 => hrec y y' (List.mem_cons_of_mem _ hy)
          (List.mem_cons_of_mem _ hy') h2)
        d sel idxA (idxB + 1) s
    · rw [if_neg hhas, if_neg hhas]
      rw [hrec b b' (List.mem_cons_self b rest) (List.mem_cons_self b' rest') hsb
        d.clone (joinSelectors sel ("[" ++ toString idxA ++ "]"))]
      cases hc : diffValues d.clone (joinSelectors sel ("[" ++ toString idxA ++ "]")) a' b' with
      | error e => rfl
      | ok other =>
        simp only []
        by_cases hz : other.diff.isEmpty = true
        · rw [if_pos hz, if_pos hz]
        · rw [if_neg hz, if_neg hz]
          exact ih rest' hrest
            (fun y y' hy hy' h2 => hrec y y' (List.mem_cons_of_mem _ hy)
              (List.mem_cons_of_mem _ hy') h2)
            d sel idxA (idxB + 1) s

theorem detectOuter_congr :
    ∀ (la la' : List JValue) {lb0 lb0' : List JValue},
    lb0.map sortJ = lb0'.map sortJ →
    (∀ x x' y y', x ∈ la → x' ∈ la' → y ∈ lb0 → y' ∈ lb0' →
      sortJ x = sortJ x' → sortJ y = sortJ y' →
      ∀ (d2 : Differ) (s2 : String), diffValues d2 s2 x y = diffValues d2 s2 x' y') →
    la.map sortJ = la'.map sortJ →
    ∀ (d : Differ) (sel : String) (idxA : Nat) (sA sB : intSet),
    detectOuter d sel la lb0 idxA sA sB = detectOuter d sel la' lb0' idxA sA sB := by
  intro la
  induction la with
  | nil =>
    intro la' lb0 lb0' hlb hrec hla d sel idxA sA sB
    cases la' with
    | nil => rw [detectOuter, detectOuter]
    | cons a' rest' => cases hla
  | cons a rest ih =>
    intro la' lb0 lb0' hlb hrec hla d sel idxA sA sB
    obtain ⟨a', rest', hcons, hsa, hrest⟩ := map_sortJ_cons_inv hla
    subst hcons
    rw [detectOuter, detectOuter]
    rw [detectInner_congr hsa lb0 lb0' hlb
      (fun y y' hy hy' h2 => hrec a a' y y' (List.mem_cons_self a rest)
        (List.mem_cons_self a' rest') hy hy' hsa h2)
      d sel idxA 0 sB]
    cases hc : detectInner d sel idxA a' lb0' 0 sB with
    | error e => rfl
    | ok r =>
      cases r with
      | some idxB =>
        exact ih rest' hlb
          (fun x x' y y' hx hx' hy hy' h1 h2 => hrec x x' y y'
            (List.mem_cons_of_mem _ hx) (List.mem_cons_of_mem _ hx') hy hy' h1 h2)
          hrest d sel (idxA + 1) ((sA.Add idxA).Add idxA) (sB.Add idxB)
      | none =>
        exact ih rest' hlb
          (fun x x' y y' hx hx' hy hy' h1 h2 => hrec x x' y y'
            (List.mem_cons_of_mem _ hx) (List.mem_cons_of_mem _ hx') hy hy' h1 h2)
          hrest d sel (idxA + 1) (sA.Add idxA) sB

theorem objxMapSliceWalk_congr :
    ∀ (la la' : List JMap) {lb0 lb0' : List JMap},
    lb0.map sortM = lb0'.map sortM →
    (∀ x x' y y', x ∈ la → x' ∈ la' → (y ∈ lb0 ∨ y = []) → (y' ∈ lb0' ∨ y' = []) →
      sortM x = sortM x' → sortM y = sortM y' →
      ∀ (d2 : Differ) (s2 : String), diffMap d2 s2 x y = diffMap d2 s2 x' y') →
    la.map sortM = la'.map sortM →
    ∀ (d : Differ) (sel : String) (idx : Nat),
    objxMapSliceWalk d sel la lb0 idx = objxMapSliceWalk d sel la' lb0' idx := by
  intro la
  induction la with
  | nil =>
    intro la' lb0 lb0' hlb hrec hla d sel idx
    cases la' with
    | nil => rw [objxMapSliceWalk, objxMapSliceWalk]
    | cons a' rest' => cases hla
  | cons a rest ih =>
    intro la' lb0 lb0' hlb hrec hla d sel idx
    obtain ⟨a', rest', hcons, hsa, hrest⟩ := map_sortM_cons_inv hla
    subst hcons
    rw [objxMapSliceWalk, objxMapSliceWalk]
    have hlen : lb0.length = lb0'.length := by
      have := congrArg List.length hlb
      simpa using this
    by_cases hov : lb0.length ≤ idx
    · rw [dif_pos hov, dif_pos (by omega)]
      have hsj : sortJ (.obj a) = sortJ (.obj a') := by
        show JValue.obj (sortM a) = JValue.obj (sortM a')
        rw [hsa]
      rw [lineA_congr d "" (joinSelectors sel ("[" ++ toString idx ++ "]")) false
        (some (d.floatEqualFunc (joinSelectors sel ("[" ++ toString idx ++ "]")))) hsj]
      cases hc : d.lineA "" (joinSelectors sel ("[" ++ toString idx ++ "]"))
          ⟨.obj a', false, some (d.floatEqualFunc (joinSelectors sel ("[" ++ toString idx ++ "]")))⟩ with
      | error e => rfl
      | ok d2 =>
        exact ih rest' hlb
          (fun x x' y y' hx hx' hy hy' h1 h2 => hrec x x' y y'
            (List.mem_cons_of_mem _ hx) (List.mem_cons_of_mem _ hx') hy hy' h1 h2)
          hrest d2 sel (idx + 1)
    · rw [dif_neg hov, dif_neg (by omega)]
      have hy : sortM (lb0.getD idx []) = sortM (lb0'.getD idx []) :=
        getD_sortM_congr hlb idx
      rw [hrec a a' (lb0.getD idx []) (lb0'.getD idx [])
        (List.mem_cons_self a rest) (List.mem_cons_self a' rest')
        (getD_mem_or lb0 idx []) (getD_mem_or lb0' idx [])
        hsa hy d (joinSelectors sel ("[" ++ toString idx ++ "]"))]
      cases hc : diffMap d (joinSelectors sel ("[" ++ toString idx ++ "]")) a'
          (lb0'.getD idx []) with
      | error e => rfl
      | ok d2 =>
        exact ih rest' hlb
          (fun x x' y y' hx hx' hy2 hy2' h1 h2 => hrec x x' y y'
            (List.mem_cons_of_mem _ hx) (List.mem_cons_of_mem _ hx') hy2 hy2' h1 h2)
          hrest d2 sel (idx + 1)

theorem diffMapWalkA_congr {mA mA' mB mB' : JMap}
    (hndA : nodupB (mA.map Prod.fst) = true) (hndA' : nodupB (mA'.map Prod.fst) = true)
    (hndB : nodupB (mB.map Prod.fst) = true) (hndB' : nodupB (mB'.map Prod.fst) = true)
    (hA : sortM mA = sortM mA') (hB : sortM mB = sortM mB')
    (hrec : ∀ x x' y y', (∃ p ∈ mA, p.2 = x) → (∃ p ∈ mA', p.2 = x') →
      (∃ p ∈ mB, p.2 = y) → (∃ p ∈ mB', p.2 = y') →
      sortJ x = sortJ x' → sortJ y = sortJ y' →
      ∀ (d2 : Differ) (s2 : String), diffValues d2 s2 x y = diffValues d2 s2 x' y') :
    ∀ (keys : List String) (d : Differ) (sel : String),
    diffMapWalkA d sel mA mB keys = diffMapWalkA d sel mA' mB' keys := by
  intro keys
  induction keys with
  | nil => intro d sel; rw [diffMapWalkA, diffMapWalkA]
  | cons k rest ih =>
    intro d sel
    rw [diffMapWalkA, diffMapWalkA]
    have hget := get?_congr hndA hndA' hA k
    cases hgA : JMap.get? mA k with
    | none =>
      cases hgA' : JMap.get? mA' k with
      | none =>
        simp only []
        exact ih d sel
      | some x' => rw [hgA, hgA'] at hget; cases hget
    | some x =>
      cases hgA' : JMap.get? mA' k with
      | none => rw [hgA, hgA'] at hget; cases hget
      | some x' =>
        simp only []
        rw [hgA, hgA'] at hget
        simp only [Option.map, Option.some.injEq] at hget
        have hhas := has_congr hndB hndB' hB k
        by_cases hb : JMap.has mB k = true
        · rw [dif_pos hb, dif_pos (by rw [← hhas]; exact hb)]
          have hy : sortJ (JMap.get mB k) = sortJ (JMap.get mB' k) :=
            get_congr hndB hndB' hB k
          have hymem : ∃ p ∈ mB, p.2 = JMap.get mB k := by
            unfold JMap.has at hb
            cases hgB : JMap.get? mB k with
            | none => rw [hgB] at hb; cases hb
            | some yv => exact ⟨(k, yv), mem_of_get? hgB, (get?_some_get hgB).symm⟩
          have hymem' : ∃ p ∈ mB', p.2 = JMap.get mB' k := by
            have hb' : JMap.has mB' k = true := by rw [← hhas]; exact hb
            unfold JMap.has at hb'
            cases hgB' : JMap.get? mB' k with
            | none => rw [hgB'] at hb'; cases hb'
            | some yv => exact ⟨(k, yv), mem_of_get? hgB', (get?_some_get hgB').symm⟩
          rw [hrec x x' (JMap.get mB k) (JMap.get mB' k)
            ⟨(k, x), mem_of_get? hgA, rfl⟩ ⟨(k, x'), mem_of_get? hgA', rfl⟩
            hymem hymem' hget hy d (joinSelectors sel k)]
          cases hc : diffValues d (joinSelectors sel k) x' (JMap.get mB' k) with
          | error e => rfl
          | ok d2 => exact ih d2 sel
        · rw [dif_neg hb, dif_neg (by rw [← hhas]; exact hb)]
          rw [lineA_congr d "" (joinSelectors sel k) true
            (some (d.floatEqualFunc (joinSelectors sel k))) hget]
          cases hc : d.lineA "" (joinSelectors sel k)
              ⟨x', true, some (d.floatEqualFunc (joinSelectors sel k))⟩ with
          | error e => rfl
          | ok d2 => exact ih d2 sel

theorem diffMapWalkB_congr {mA mA' mB mB' : JMap}
    (hndA : nodupB (mA.map Prod.fst) = true) (hndA' : nodupB (mA'.map Prod.fst) = true)
    (hndB : nodupB (mB.map Prod.fst) = true) (hndB' : nodupB (mB'.map Prod.fst) = true)
    (hA : sortM mA = sortM mA') (hB : sortM mB = sortM mB') :
    ∀ (keys : List String) (d : Differ) (sel : String),
    diffMapWalkB d sel mA mB keys = diffMapWalkB d sel mA' mB' keys := by
  intro keys
  induction keys with
  | nil => intro d sel; rw [diffMapWalkB, diffMapWalkB]
  | cons k rest ih =>
    intro d sel
    rw [diffMapWalkB, diffMapWalkB]
    have hhas := has_congr hndA hndA' hA k
    by_cases hb : JMap.has mA k = true
    · rw [if_pos hb, if_pos (by rw [← hhas]; exact hb)]
      exact ih d sel
    · rw [if_neg hb, if_neg (by rw [← hhas]; exact hb)]
      have hy : sortJ (JMap.get mB k) = sortJ (JMap.get mB' k) :=
        get_congr hndB hndB' hB k
      rw [lineB_congr d "" (joinSelectors sel k) true
        (some (d.floatEqualFunc (joinSelectors sel k))) hy]
      cases hc : d.lineB "" (joinSelectors sel k)
          ⟨JMap.get mB' k, true, some (d.floatEqualFunc (joinSelectors sel k))⟩ with
      | error e => rfl
      | ok d2 => exact ih d2 sel

theorem arrD_sortJ_congr {a a' : JValue} (h : sortJ a = sortJ a') :
    a.arrD.map sortJ = a'.arrD.map sortJ := by
  cases a with
  | arr xs =>
    obtain ⟨xs', hx, hmap⟩ := sortJ_arr_inv (v := a') (show sortJ a' = JValue.arr (sortJL xs) from h.symm)
    rw [hx]
    show xs.map sortJ = xs'.map sortJ
    rw [hmap, ← sortJL_eq_map]
  | null => rw [sortJ_null_inv h.symm]
  | bool b => rw [sortJ_bool_inv h.symm]
  | int i => rw [sortJ_int_inv h.symm]
  | float q => rw [sortJ_float_inv h.symm]
  | str s => rw [sortJ_str_inv h.symm]
  | obj m =>
    obtain ⟨m', hx, _⟩ := sortJ_obj_inv (v := a') (show sortJ a' = JValue.obj (sortPairs (sortJM m)) from h.symm)
    rw [hx]; rfl

theorem wfKeys_arrD {a : JValue} (h : wfKeys a = true) : wfKeysL a.arrD = true := by
  cases a <;> first | rfl | exact h

theorem wfKeysL_wf_mem {x : JValue} {xs : List JValue} (hx : x ∈ xs)
    (h : wfKeysL xs = true) : wfKeys x = true := wfKeysL_mem hx h

theorem all_isObj_congr :
    ∀ {xs xs' : List JValue}, xs.map sortJ = xs'.map sortJ →
    xs.all JValue.isObj = xs'.all JValue.isObj := by
  intro xs
  induction xs with
  | nil =>
    intro xs' h
    cases xs' with
    | nil => rfl
    | cons x' rest' => cases h
  | cons x rest ih =>
    intro xs' h
    obtain ⟨x', rest', hcons, hsx, hrest⟩ := map_sortJ_cons_inv h
    subst hcons
    rw [List.all_cons, List.all_cons, ih hrest]
    have : x.isObj = x'.isObj := by rw [← isObj_sortJ, ← isObj_sortJ x', hsx]
    rw [this]

theorem isObjxMapSlice_congr {a a' : JValue} (h : sortJ a = sortJ a') :
    isObjxMapSlice a = isObjxMapSlice a' := by
  cases a with
  | arr xs =>
    obtain ⟨xs', hx, hmap⟩ := sortJ_arr_inv (v := a') (show sortJ a' = JValue.arr (sortJL xs) from h.symm)
    rw [hx]
    show xs.all JValue.isObj = xs'.all JValue.isObj
    exact all_isObj_congr (by rw [hmap, ← sortJL_eq_map])
  | null => rw [sortJ_null_inv h.symm]
  | bool b => rw [sortJ_bool_inv h.symm]
  | int i => rw [sortJ_int_inv h.symm]
  | float q => rw [sortJ_float_inv h.symm]
  | str s => rw [sortJ_str_inv h.symm]
  | obj m =>
    obtain ⟨m', hx, _⟩ := sortJ_obj_inv (v := a') (show sortJ a' = JValue.obj (sortPairs (sortJM m)) from h.symm)
    rw [hx]; rfl

theorem objxMapSliceGo_congr :
    ∀ {xs xs' : List JValue}, xs.map sortJ = xs'.map sortJ →
    (objxMapSliceGo xs = none ∧ objxMapSliceGo xs' = none) ∨
    (∃ ms ms', objxMapSliceGo xs = some ms ∧ objxMapSliceGo xs' = some ms' ∧
      ms.map sortM = ms'.map sortM) := by
  intro xs
  induction xs with
  | nil =>
    intro xs' h
    cases xs' with
    | nil => exact Or.inr ⟨[], [], rfl, rfl, rfl⟩
    | cons x' rest' => cases h
  | cons x rest ih =>
    intro xs' h
    obtain ⟨x', rest', hcons, hsx, hrest⟩ := map_sortJ_cons_inv h
    subst hcons
    cases x with
    | obj m =>
      obtain ⟨m', hx', hsm⟩ := sortJ_obj_inv (v := x') (show sortJ x' = JValue.obj (sortPairs (sortJM m)) from hsx.symm)
      subst hx'
      rcases ih hrest with ⟨h1, h2⟩ | ⟨ms, ms', h1, h2, h3⟩
      · left
        constructor
        · simp [objxMapSliceGo, h1]
        · simp [objxMapSliceGo, h2]
      · right
        refine ⟨m :: ms, m' :: ms', ?_, ?_, ?_⟩
        · simp [objxMapSliceGo, h1]
        · simp [objxMapSliceGo, h2]
        · rw [List.map_cons, List.map_cons, h3]
          show sortM m :: _ = sortM m' :: _
          rw [hsm]
          rfl
    | null =>
      rw [sortJ_null_inv hsx.symm]
      exact Or.inl ⟨rfl, rfl⟩
    | bool b =>
      rw [sortJ_bool_inv hsx.symm]
      exact Or.inl ⟨rfl, rfl⟩
    | int i =>
      rw [sortJ_int_inv hsx.symm]
      exact Or.inl ⟨rfl, rfl⟩
    | float q =>
      rw [sortJ_float_inv hsx.symm]
      exact Or.inl ⟨rfl, rfl⟩
    | str s =>
      rw [sortJ_str_inv hsx.symm]
      exact Or.inl ⟨rfl, rfl⟩
    | arr ys =>
      obtain ⟨ys', hx', _⟩ := sortJ_arr_inv (v := x') (show sortJ x' = JValue.arr (sortJL ys) from hsx.symm)
      rw [hx']
      exact Or.inl ⟨rfl, rfl⟩

theorem objxMapSliceOf_congr {a a' : JValue} (h : sortJ a = sortJ a') :
    (objxMapSliceOf a = none ∧ objxMapSliceOf a' = none) ∨
    (∃ ms ms', objxMapSliceOf a = some ms ∧ objxMapSliceOf a' = some ms' ∧
      ms.map sortM = ms'.map sortM) := by
  cases a with
  | arr xs =>
    obtain ⟨xs', hx, hmap⟩ := sortJ_arr_inv (v := a') (show sortJ a' = JValue.arr (sortJL xs) from h.symm)
    subst hx
    have hm : xs.map sortJ = xs'.map sortJ := by rw [hmap, ← sortJL_eq_map]
    exact objxMapSliceGo_congr hm
  | null => rw [sortJ_null_inv h.symm]; exact Or.inl ⟨rfl, rfl⟩
  | bool b => rw [sortJ_bool_inv h.symm]; exact Or.inl ⟨rfl, rfl⟩
  | int i => rw [sortJ_int_inv h.symm]; exact Or.inl ⟨rfl, rfl⟩
  | float q => rw [sortJ_float_inv h.symm]; exact Or.inl ⟨rfl, rfl⟩
  | str s => rw [sortJ_str_inv h.symm]; exact Or.inl ⟨rfl, rfl⟩
  | obj m =>
    obtain ⟨m', hx, _⟩ := sortJ_obj_inv (v := a') (show sortJ a' = JValue.obj (sortPairs (sortJM m)) from h.symm)
    rw [hx]
    exact Or.inl ⟨rfl, rfl⟩

theorem wfKeysMS_of_go {xs : List JValue} {ms : List JMap}
    (hgo : objxMapSliceGo xs = some ms) (h : wfKeysL xs = true) :
    wfKeysMS ms = true := by
  induction xs generalizing ms with
  | nil => simp [objxMapSliceGo] at hgo; subst hgo; rfl
  | cons x rest ih =>
    cases x <;> simp [objxMapSliceGo] at hgo
    rcases hgo with ⟨ms2, hms2, hcons⟩
    subst hcons
    rw [wfKeysL, Bool.and_eq_true] at h
    rw [wfKeysMS, Bool.and_eq_true]
    exact ⟨h.1, ih hms2 h.2⟩

theorem wfKeysMS_of_objxMapSliceOf {a : JValue} {ms : List JMap}
    (hof : objxMapSliceOf a = some ms) (h : wfKeys a = true) :
    wfKeysMS ms = true := by
  cases a <;> simp [objxMapSliceOf] at hof
  exact wfKeysMS_of_go hof h

theorem objD_sortM_congr {a a' : JValue} (h : sortJ a = sortJ a') :
    sortM a.objD = sortM a'.objD := by
  cases a with
  | obj m =>
    obtain ⟨m', hx, hsm⟩ := sortJ_obj_inv (v := a') (show sortJ a' = JValue.obj (sortPairs (sortJM m)) from h.symm)
    rw [hx]
    exact hsm.symm ▸ rfl
  | null => rw [sortJ_null_inv h.symm]
  | bool b => rw [sortJ_bool_inv h.symm]
  | int i => rw [sortJ_int_inv h.symm]
  | float q => rw [sortJ_float_inv h.symm]
  | str s => rw [sortJ_str_inv h.symm]
  | arr xs =>
    obtain ⟨xs', hx, _⟩ := sortJ_arr_inv (v := a') (show sortJ a' = JValue.arr (sortJL xs) from h.symm)
    rw [hx]; rfl

theorem objOrDefault_sortM_congr {a a' : JValue} (h : sortJ a = sortJ a') :
    sortM (a.objOrDefault []) = sortM (a'.objOrDefault []) := by
  cases a with
  | obj m =>
    obtain ⟨m', hx, hsm⟩ := sortJ_obj_inv (v := a') (show sortJ a' = JValue.obj (sortPairs (sortJM m)) from h.symm)
    rw [hx]
    exact hsm.symm ▸ rfl
  | null => rw [sortJ_null_inv h.symm]
  | bool b => rw [sortJ_bool_inv h.symm]
  | int i => rw [sortJ_int_inv h.symm]
  | float q => rw [sortJ_float_inv h.symm]
  | str s => rw [sortJ_str_inv h.symm]
  | arr xs =>
    obtain ⟨xs', hx, _⟩ := sortJ_arr_inv (v := a') (show sortJ a' = JValue.arr (sortJL xs) from h.symm)
    rw [hx]; rfl

theorem wfKeys_objD_nodup {a : JValue} (h : wfKeys a = true) :
    nodupB (a.objD.map Prod.fst) = true := by
  cases a <;> try rfl
  rename_i m
  rw [wfKeys, Bool.and_eq_true] at h
  exact h.1

theorem wfKeys_objD_wfM {a : JValue} (h : wfKeys a = true) :
    wfKeysM a.objD = true := by
  cases a <;> try rfl
  rename_i m
  rw [wfKeys, Bool.and_eq_true] at h
  exact h.2

theorem wfKeys_objOrDefault_nodup {a : JValue} (h : wfKeys a = true) :
    nodupB ((a.objOrDefault []).map Prod.fst) = true := by
  cases a <;> try rfl
  rename_i m
  rw [wfKeys, Bool.and_eq_true] at h
  exact h.1

theorem wfKeys_objOrDefault_wfM {a : JValue} (h : wfKeys a = true) :
    wfKeysM (a.objOrDefault []) = true := by
  cases a <;> try rfl
  rename_i m
  rw [wfKeys, Bool.and_eq_true] at h
  exact h.2

theorem kindName_sortJ (v : JValue) : kindName (sortJ v) = kindName v := by
  cases v <;> rfl

theorem objX_sortM_congr (c : Bool) {a a' : JValue} (h : sortJ a = sortJ a') :
    sortM (if c then a.objOrDefault [] else a.objD) =
      sortM (if c then a'.objOrDefault [] else a'.objD) := by
  by_cases hc : c = true
  · rw [if_pos hc, if_pos hc]; exact objOrDefault_sortM_congr h
  · rw [if_neg hc, if_neg hc]; exact objD_sortM_congr h

theorem wfKeys_objX_nodup (c : Bool) {a : JValue} (h : wfKeys a = true) :
    nodupB ((if c then a.objOrDefault [] else a.objD).map Prod.fst) = true := by
  by_cases hc : c = true
  · rw [if_pos hc]; exact wfKeys_objOrDefault_nodup h
  · rw [if_neg hc]; exact wfKeys_objD_nodup h

theorem wfKeys_objX_wfM (c : Bool) {a : JValue} (h : wfKeys a = true) :
    wfKeysM (if c then a.objOrDefault [] else a.objD) = true := by
  by_cases hc : c = true
  · rw [if_pos hc]; exact wfKeys_objOrDefault_wfM h
  · rw [if_neg hc]; exact wfKeys_objD_wfM h

theorem jsizeM_objX_lt (c : Bool) (a : JValue) :
    jsizeM (if c then a.objOrDefault [] else a.objD) < jsize a := by
  by_cases hc : c = true
  · rw [if_pos hc]; exact jsizeM_objOrDefault_lt a
  · rw [if_neg hc]; exact jsizeM_objD_lt a

/-- Congruence of the whole comparator family under the canonical
(`sortJ`-sorted) presentation: two inputs equal up to the recursive ordering
of object fields drive every comparator to the same result.  Strong
induction on a size budget, one conjunct per comparator. -/
theorem congr_engine : ∀ n : Nat,
    (∀ (a a' b b' : JValue) (d : Differ) (sel : String),
      jsize a + jsize b ≤ n →
      wfKeys a = true → wfKeys a' = true → wfKeys b = true → wfKeys b' = true →
      sortJ a = sortJ a' → sortJ b = sortJ b' →
      diffValuesPost d sel a b = diffValuesPost d sel a' b') ∧
    (∀ (a a' b b' : JValue) (d : Differ) (sel : String),
      jsize a + jsize b ≤ n →
      wfKeys a = true → wfKeys a' = true → wfKeys b = true → wfKeys b' = true →
      sortJ a = sortJ a' → sortJ b = sortJ b' →
      diffValues d sel a b = diffValues d sel a' b') ∧
    (∀ (a a' b b' : JValue) (d : Differ) (sel : String) (cA cB : Bool),
      jsize a + jsize b ≤ n →
      wfKeys a = true → wfKeys a' = true → wfKeys b = true → wfKeys b' = true →
      sortJ a = sortJ a' → sortJ b = sortJ b' →
      diffValuesCoerced d sel a b cA cB = diffValuesCoerced d sel a' b' cA cB) ∧
    (∀ (a a' b b' : JValue) (d : Differ) (sel : String),
      jsize a + jsize b ≤ n →
      wfKeys a = true → wfKeys a' = true → wfKeys b = true → wfKeys b' = true →
      sortJ a = sortJ a' → sortJ b = sortJ b' →
      diffInterSlice d sel a b = diffInterSlice d sel a' b') ∧
    (∀ (ms ms' ns ns' : List JMap) (d : Differ) (sel : String),
      jsizeMS ms + jsizeMS ns < n →
      wfKeysMS ms = true → wfKeysMS ms' = true → wfKeysMS ns = true → wfKeysMS ns' = true →
      ms.map sortM = ms'.map sortM → ns.map sortM = ns'.map sortM →
      diffObjxMapSlice d sel ms ns = diffObjxMapSlice d sel ms' ns') ∧
    (∀ (mA mA' mB mB' : JMap) (d : Differ) (sel : String),
      jsizeM mA + jsizeM mB < n →
      nodupB (mA.map Prod.fst) = true → nodupB (mA'.map Prod.fst) = true →
      nodupB (mB.map Prod.fst) = true → nodupB (mB'.map Prod.fst) = true →
      wfKeysM mA = true → wfKeysM mA' = true → wfKeysM mB = true → wfKeysM mB' = true →
      sortM mA = sortM mA' → sortM mB = sortM mB' →
      diffMap d sel mA mB = diffMap d sel mA' mB') := by
  intro n
  induction n using Nat.strong_induction_on with
  | _ n ih =>
    have hCVsmall : ∀ (a a' b b' : JValue) (d : Differ) (sel : String),
        jsize a + jsize b < n →
        wfKeys a = true → wfKeys a' = true → wfKeys b = true → wfKeys b' = true →
        sortJ a = sortJ a' → sortJ b = sortJ b' →
        diffValues d sel a b = diffValues d sel a' b' := by
      intro a a' b b' d sel hsz hwa hwa' hwb hwb' hsja hsjb
      have hpa := jsize_pos a
      exact (ih (n - 1) (by omega)).2.1 a a' b b' d sel (by omega)
        hwa hwa' hwb hwb' hsja hsjb
    have hCM : ∀ (mA mA' mB mB' : JMap) (d : Differ) (sel : String),
        jsizeM mA + jsizeM mB < n →
        nodupB (mA.map Prod.fst) = true → nodupB (mA'.map Prod.fst) = true →
        nodupB (mB.map Prod.fst) = true → nodupB (mB'.map Prod.fst) = true →
        wfKeysM mA = true → wfKeysM mA' = true → wfKeysM mB = true → wfKeysM mB' = true →
        sortM mA = sortM mA' → sortM mB = sortM mB' →
        diffMap d sel mA mB = diffMap d sel mA' mB' := by
      intro mA mA' mB mB' d sel hsz hndA hndA' hndB hndB' hwA hwA' hwB hwB' hA hB
      have hrec : ∀ x x' y y', (∃ p ∈ mA, p.2 = x) → (∃ p ∈ mA', p.2 = x') →
          (∃ p ∈ mB, p.2 = y) → (∃ p ∈ mB', p.2 = y') →
          sortJ x = sortJ x' → sortJ y = sortJ y' →
          ∀ (d2 : Differ) (s2 : String), diffValues d2 s2 x y = diffValues d2 s2 x' y' := by
        intro x x' y y' hx hx' hy hy' hsx hsy d2 s2
        obtain ⟨p, hp, hpx⟩ := hx
        obtain ⟨p1, hp1, hpx1⟩ := hx'
        obtain ⟨q, hq, hqy⟩ := hy
        obtain ⟨q1, hq1, hqy1⟩ := hy'
        have sz1 := jsizeM_pair_mem_lt hp
        have sz2 := jsizeM_pair_mem_lt hq
        rw [hpx] at sz1
        rw [hqy] at sz2
        refine hCVsmall x x' y y' d2 s2 (by omega) ?_ ?_ ?_ ?_ hsx hsy
        · rw [← hpx]; exact wfKeysM_mem hp hwA
        · rw [← hpx1]; exact wfKeysM_mem hp1 hwA'
        · rw [← hqy]; exact wfKeysM_mem hq hwB
        · rw [← hqy1]; exact wfKeysM_mem hq1 hwB'
      rw [diffMap, diffMap]
      rw [show sortedKeys mA' = sortedKeys mA from (sortedKeys_congr hA).symm]
      rw [show sortedKeys mB' = sortedKeys mB from (sortedKeys_congr hB).symm]
      rw [diffMapWalkA_congr hndA hndA' hndB hndB' hA hB hrec (sortedKeys mA) d sel]
      cases hc : diffMapWalkA d sel mA' mB' (sortedKeys mA) with
      | error e => rfl
      | ok d2 =>
        simp only []
        exact diffMapWalkB_congr hndA hndA' hndB hndB' hA hB (sortedKeys mB) d2 sel
    have hCMS : ∀ (ms ms' ns ns' : List JMap) (d : Differ) (sel : String),
        jsizeMS ms + jsizeMS ns < n →
        wfKeysMS ms = true → wfKeysMS ms' = true → wfKeysMS ns = true → wfKeysMS ns' = true →
        ms.map sortM = ms'.map sortM → ns.map sortM = ns'.map sortM →
        diffObjxMapSlice d sel ms ns = diffObjxMapSlice d sel ms' ns' := by
      intro ms ms' ns ns' d sel hsz hwms hwms' hwns hwns' hms hns
      have hrecM : ∀ x x' y y', x ∈ ms → x' ∈ ms' → (y ∈ ns ∨ y = []) → (y' ∈ ns' ∨ y' = []) →
          sortM x = sortM x' → sortM y = sortM y' →
          ∀ (d2 : Differ) (s2 : String), diffMap d2 s2 x y = diffMap d2 s2 x' y' := by
        intro x x' y y' hx hx' hy hy' hsx hsy d2 s2
        have sz1 := jsizeMS_mem_lt hx
        have sz2 : jsizeM y ≤ jsizeMS ns := by
          rcases hy with hy | hy
          · exact Nat.le_of_lt (jsizeMS_mem_lt hy)
          · rw [hy]; exact Nat.zero_le _
        have hwx := wfKeysMS_mem hx hwms
        have hwx1 := wfKeysMS_mem hx' hwms'
        rw [Bool.and_eq_true] at hwx hwx1
        have hwy : nodupB (y.map Prod.fst) = true ∧ wfKeysM y = true := by
          rcases hy with hy | hy
          · have h2 := wfKeysMS_mem hy hwns; rw [Bool.and_eq_true] at h2; exact h2
          · rw [hy]; exact ⟨rfl, rfl⟩
        have hwy1 : nodupB (y'.map Prod.fst) = true ∧ wfKeysM y' = true := by
          rcases hy' with hy' | hy'
          · have h2 := wfKeysMS_mem hy' hwns'; rw [Bool.and_eq_true] at h2; exact h2
          · rw [hy']; exact ⟨rfl, rfl⟩
        exact hCM x x' y y' d2 s2 (by omega) hwx.1 hwx1.1 hwy.1 hwy1.1
          hwx.2 hwx1.2 hwy.2 hwy1.2 hsx hsy
      rw [diffObjxMapSlice, diffObjxMapSlice]
      rw [objxMapSliceWalk_congr ms ms' hns hrecM hms d sel 0]
      cases hc : objxMapSliceWalk d sel ms' ns' 0 with
      | error e => rfl
      | ok d2 =>
        simp only []
        have hlm : ms.length = ms'.length := by
          have h2 := congrArg List.length hms; simpa using h2
        have hln : ns.length = ns'.length := by
          have h2 := congrArg List.length hns; simpa using h2
        rw [← hlm, ← hln]
        by_cases hgt : ns.length > ms.length
        · rw [if_pos hgt, if_pos hgt]
          exact objxMapSliceTailB_congr (ns.drop ms.length) (ns'.drop ms.length)
            (by rw [List.map_drop, List.map_drop, hns]) d2 sel ms.length
        · rw [if_neg hgt, if_neg hgt]
    have hCIS : ∀ (a a' b b' : JValue) (d : Differ) (sel : String),
        jsize a + jsize b ≤ n →
        wfKeys a = true → wfKeys a' = true → wfKeys b = true → wfKeys b' = true →
        sortJ a = sortJ a' → sortJ b = sortJ b' →
        diffInterSlice d sel a b = diffInterSlice d sel a' b' := by
      intro a a' b b' d sel hsz hwa hwa' hwb hwb' hsja hsjb
      have hARa : a'.isArr = a.isArr := by rw [← isArr_sortJ a', ← hsja, isArr_sortJ]
      have hARb : b'.isArr = b.isArr := by rw [← isArr_sortJ b', ← hsjb, isArr_sortJ]
      rw [diffInterSlice, diffInterSlice, hARa, hARb]
      by_cases hcond : (!a.isArr || !b.isArr) = true
      · rw [if_pos hcond, if_pos hcond]
      · rw [if_neg hcond, if_neg hcond]
        have harrD := arrD_sortJ_congr hsja
        have hbrrD := arrD_sortJ_congr hsjb
        have hwLa := wfKeys_arrD hwa
        have hwLa1 := wfKeys_arrD hwa'
        have hwLb := wfKeys_arrD hwb
        have hwLb1 := wfKeys_arrD hwb'
        have hszLa := jsizeL_arrD_lt a
        have hszLb := jsizeL_arrD_lt b
        have hbp := jsize_pos b
        have hrecV : ∀ x x' y y', x ∈ a.arrD → x' ∈ a'.arrD →
            (y ∈ b.arrD ∨ y = .null) → (y' ∈ b'.arrD ∨ y' = .null) →
            sortJ x = sortJ x' → sortJ y = sortJ y' →
            ∀ (d2 : Differ) (s2 : String), diffValues d2 s2 x y = diffValues d2 s2 x' y' := by
          intro x x' y y' hx hx' hy hy' hsx hsy d2 s2
          have sz1 := jsizeL_mem_lt hx
          have szy : jsize x + jsize y < n := by
            rcases hy with hy | hy
            · have h2 := jsizeL_mem_lt hy
              omega
            · rw [hy]
              have hn2 : jsize JValue.null = 2 := rfl
              omega
          have hwx := wfKeysL_mem hx hwLa
          have hwx1 := wfKeysL_mem hx' hwLa1
          have hwy : wfKeys y = true := by
            rcases hy with hy | hy
            · exact wfKeysL_mem hy hwLb
            · rw [hy]; rfl
          have hwy1 : wfKeys y' = true := by
            rcases hy' with hy' | hy'
            · exact wfKeysL_mem hy' hwLb1
            · rw [hy']; rfl
          exact hCVsmall x x' y y' d2 s2 szy hwx hwx1 hwy hwy1 hsx hsy
        have hpos : diffInterSlicePositional d sel a.arrD b.arrD =
            diffInterSlicePositional d sel a'.arrD b'.arrD := by
          rw [diffInterSlicePositional, diffInterSlicePositional]
          rw [interSliceWalk_congr a.arrD a'.arrD hbrrD hrecV harrD d sel 0]
          cases hc : interSliceWalk d sel a'.arrD b'.arrD 0 with
          | error e => rfl
          | ok d2 =>
            simp only []
            have hla : a.arrD.length = a'.arrD.length := by
              have h2 := congrArg List.length harrD; simpa using h2
            have hlb : b.arrD.length = b'.arrD.length := by
              have h2 := congrArg List.length hbrrD; simpa using h2
            rw [← hla, ← hlb]
            by_cases hgt : b.arrD.length > a.arrD.length
            · rw [if_pos hgt, if_pos hgt]
              exact interSliceTailB_congr (b.arrD.drop a.arrD.length)
                (b'.arrD.drop a.arrD.length)
                (by rw [List.map_drop, List.map_drop, hbrrD]) d2 sel a.arrD.length
            · rw [if_neg hgt, if_neg hgt]
        by_cases hio : d.shouldIgnoreOrder sel = true
        · rw [if_pos hio, if_pos hio]
          have hdet : diffInterSliceDetectEquals d sel a b =
              diffInterSliceDetectEquals d sel a' b' := by
            rw [diffInterSliceDetectEquals, diffInterSliceDetectEquals, hARa, hARb]
            rw [if_neg hcond, if_neg hcond]
            have hrecO : ∀ x x' y y', x ∈ a.arrD → x' ∈ a'.arrD → y ∈ b.arrD → y' ∈ b'.arrD →
                sortJ x = sortJ x' → sortJ y = sortJ y' →
                ∀ (d2 : Differ) (s2 : String),
                diffValues d2 s2 x y = diffValues d2 s2 x' y' := by
              intro x x' y y' hx hx' hy hy' hsx hsy d2 s2
              exact hrecV x x' y y' hx hx' (Or.inl hy) (Or.inl hy') hsx hsy d2 s2
            rw [detectOuter_congr a.arrD a'.arrD hbrrD hrecO harrD d sel 0 [] []]
            cases hc : detectOuter d sel a'.arrD b'.arrD 0 [] [] with
            | error e => rfl
            | ok sets =>
              simp only []
              have hla : a.arrD.length = a'.arrD.length := by
                have h2 := congrArg List.length harrD; simpa using h2
              have hlb : b.arrD.length = b'.arrD.length := by
                have h2 := congrArg List.length hbrrD; simpa using h2
              rw [hla, hlb]
          rw [hdet]
          cases hc2 : diffInterSliceDetectEquals d sel a' b' with
          | error e => rfl
          | ok bb =>
            cases bb with
            | false => exact hpos
            | true => rfl
        · rw [if_neg hio, if_neg hio]
          exact hpos
    have hCP : ∀ (a a' b b' : JValue) (d : Differ) (sel : String),
        jsize a + jsize b ≤ n →
        wfKeys a = true → wfKeys a' = true → wfKeys b = true → wfKeys b' = true →
        sortJ a = sortJ a' → sortJ b = sortJ b' →
        diffValuesPost d sel a b = diffValuesPost d sel a' b' := by
      intro a a' b b' d sel hsz hwa hwa' hwb hwb' hsja hsjb
      have hIa : a'.isInt = a.isInt := by rw [← isInt_sortJ a', ← hsja, isInt_sortJ]
      have hIb : b'.isInt = b.isInt := by rw [← isInt_sortJ b', ← hsjb, isInt_sortJ]
      have hFa : a'.isFloat = a.isFloat := by rw [← isFloat_sortJ a', ← hsja, isFloat_sortJ]
      have hFb : b'.isFloat = b.isFloat := by rw [← isFloat_sortJ b', ← hsjb, isFloat_sortJ]
      have hKa : kindTag a' = kindTag a := by rw [← kindTag_sortJ a', ← hsja, kindTag_sortJ]
      have hKb : kindTag b' = kindTag b := by rw [← kindTag_sortJ b', ← hsjb, kindTag_sortJ]
      have hmfa : mustFloat64 a' = mustFloat64 a := by
        rw [← mustFloat64_sortJ a', ← hsja, mustFloat64_sortJ]
      have hmfb : mustFloat64 b' = mustFloat64 b := by
        rw [← mustFloat64_sortJ b', ← hsjb, mustFloat64_sortJ]
      have hBa : a'.isBool = a.isBool := by rw [← isBool_sortJ a', ← hsja, isBool_sortJ]
      have hBb : b'.isBool = b.isBool := by rw [← isBool_sortJ b', ← hsjb, isBool_sortJ]
      have hbda : a'.boolD = a.boolD := by rw [← boolD_sortJ a', ← hsja, boolD_sortJ]
      have hbdb : b'.boolD = b.boolD := by rw [← boolD_sortJ b', ← hsjb, boolD_sortJ]
      have hida : a'.intD = a.intD := by rw [← intD_sortJ a', ← hsja, intD_sortJ]
      have hidb : b'.intD = b.intD := by rw [← intD_sortJ b', ← hsjb, intD_sortJ]
      have hSa : a'.isStr = a.isStr := by rw [← isStr_sortJ a', ← hsja, isStr_sortJ]
      have hsda : a'.strD = a.strD := by rw [← strD_sortJ a', ← hsja, strD_sortJ]
      have hsdb : b'.strD = b.strD := by rw [← strD_sortJ b', ← hsjb, strD_sortJ]
      have hOXa : isObjxMapSlice a' = isObjxMapSlice a := (isObjxMapSlice_congr hsja).symm
      have hAa : a'.isArr = a.isArr := by rw [← isArr_sortJ a', ← hsja, isArr_sortJ]
      have hOa : a'.isObj = a.isObj := by rw [← isObj_sortJ a', ← hsja, isObj_sortJ]
      have hkna : kindName a' = kindName a := by
        rw [← kindName_sortJ a', ← hsja, kindName_sortJ]
      rw [diffValuesPost, diffValuesPost]
      rw [hIa, hIb, hFa, hFb, hKa, hKb, hmfa, hmfb, hBa, hBb, hbda, hbdb, hida, hidb,
        hSa, hsda, hsdb, hOXa, hAa, hOa, hkna]
      by_cases h1 : (!((a.isInt || a.isFloat) && (b.isInt || b.isFloat)) &&
          !(kindTag a == kindTag b)) = true
      · rw [if_pos h1, if_pos h1]
        exact lineAB_congr d "" sel true none hsja hsjb
      · rw [if_neg h1, if_neg h1]
        by_cases h2 : (a.isFloat || b.isFloat) = true
        · rw [if_pos h2, if_pos h2]
          by_cases h2f : d.floatEqualFunc sel (mustFloat64 a) (mustFloat64 b) = true
          · rw [if_pos h2f, if_pos h2f]
          · rw [if_neg h2f, if_neg h2f]
            exact lineAB_congr d "" sel true (some (d.floatEqualFunc sel)) hsja hsjb
        · rw [if_neg h2, if_neg h2]
          by_cases h3 : (a.isBool && b.isBool) = true
          · rw [if_pos h3, if_pos h3]
            by_cases h3v : (a.boolD == b.boolD) = true
            · rw [if_pos h3v, if_pos h3v]
            · rw [if_neg h3v, if_neg h3v]
              exact lineAB_congr d "" sel true none hsja hsjb
          · rw [if_neg h3, if_neg h3]
            by_cases h4 : a.isInt = true
            · rw [if_pos h4, if_pos h4]
              by_cases h4v : (a.intD == b.intD) = true
              · rw [if_pos h4v, if_pos h4v]
              · rw [if_neg h4v, if_neg h4v]
                exact lineAB_congr d "" sel true none hsja hsjb
            · rw [if_neg h4, if_neg h4]
              by_cases h5 : a.isStr = true
              · rw [if_pos h5, if_pos h5]
                by_cases h5v : (a.strD == b.strD) = true
                · rw [if_pos h5v, if_pos h5v]
                · rw [if_neg h5v, if_neg h5v]
                  exact lineAB_congr d "" sel true none hsja hsjb
              · rw [if_neg h5, if_neg h5]
                by_cases h6 : isObjxMapSlice a = true
                · rw [if_pos h6, if_pos h6]
                  rcases objxMapSliceOf_congr hsja with ⟨hA1, hA2⟩ |
                    ⟨msA, msA', hA1, hA2, hA3⟩
                  · cases hcA : objxMapSliceOf a with
                    | some ms1 => rw [hA1] at hcA; cases hcA
                    | none =>
                      cases hcA1 : objxMapSliceOf a' with
                      | some ms1 => rw [hA2] at hcA1; cases hcA1
                      | none =>
                        cases hcB : objxMapSliceOf b <;>
                          cases hcB1 : objxMapSliceOf b' <;> rfl
                  · cases hcA : objxMapSliceOf a with
                    | none => rw [hA1] at hcA; cases hcA
                    | some ms1 =>
                      rw [hA1] at hcA
                      injection hcA with hq
                      rw [← hq]
                      cases hcA1 : objxMapSliceOf a' with
                      | none => rw [hA2] at hcA1; cases hcA1
                      | some ms2 =>
                        rw [hA2] at hcA1
                        injection hcA1 with hq1
                        rw [← hq1]
                        rcases objxMapSliceOf_congr hsjb with ⟨hB1, hB2⟩ |
                          ⟨msB, msB', hB1, hB2, hB3⟩
                        · cases hcB : objxMapSliceOf b with
                          | some ms3 => rw [hB1] at hcB; cases hcB
                          | none =>
                            cases hcB1 : objxMapSliceOf b' with
                            | some ms3 => rw [hB2] at hcB1; cases hcB1
                            | none => rfl
                        · cases hcB : objxMapSliceOf b with
                          | none => rw [hB1] at hcB; cases hcB
                          | some ms3 =>
                            rw [hB1] at hcB
                            injection hcB with hq2
                            rw [← hq2]
                            cases hcB1 : objxMapSliceOf b' with
                            | none => rw [hB2] at hcB1; cases hcB1
                            | some ms4 =>
                              rw [hB2] at hcB1
                              injection hcB1 with hq3
                              rw [← hq3]
                              simp only []
                              refine hCMS msA msA' msB msB' d sel ?_
                                (wfKeysMS_of_objxMapSliceOf hA1 hwa)
                                (wfKeysMS_of_objxMapSliceOf hA2 hwa')
                                (wfKeysMS_of_objxMapSliceOf hB1 hwb)
                                (wfKeysMS_of_objxMapSliceOf hB2 hwb')
                                hA3 hB3
                              have s1 := objxMapSliceOf_lt hA1
                              have s2 := objxMapSliceOf_lt hB1
                              omega
                · rw [if_neg h6, if_neg h6]
                  by_cases h7 : a.isArr = true
                  · rw [if_pos h7, if_pos h7]
                    exact hCIS a a' b b' d sel hsz hwa hwa' hwb hwb' hsja hsjb
                  · rw [if_neg h7, if_neg h7]
                    by_cases h8 : a.isObj = true
                    · rw [if_pos h8, if_pos h8]
                      refine hCM a.objD a'.objD b.objD b'.objD d sel ?_
                        (wfKeys_objD_nodup hwa) (wfKeys_objD_nodup hwa')
                        (wfKeys_objD_nodup hwb) (wfKeys_objD_nodup hwb')
                        (wfKeys_objD_wfM hwa) (wfKeys_objD_wfM hwa')
                        (wfKeys_objD_wfM hwb) (wfKeys_objD_wfM hwb')
                        (objD_sortM_congr hsja) (objD_sortM_congr hsjb)
                      have s1 := jsizeM_objD_lt a
                      have s2 := jsizeM_objD_lt b
                      omega
                    · rw [if_neg h8, if_neg h8]
    have hCC : ∀ (a a' b b' : JValue) (d : Differ) (sel : String) (cA cB : Bool),
        jsize a + jsize b ≤ n →
        wfKeys a = true → wfKeys a' = true → wfKeys b = true → wfKeys b' = true →
        sortJ a = sortJ a' → sortJ b = sortJ b' →
        diffValuesCoerced d sel a b cA cB = diffValuesCoerced d sel a' b' cA cB := by
      intro a a' b b' d sel cA cB hsz hwa hwa' hwb hwb' hsja hsjb
      have hFa : a'.isFloat = a.isFloat := by rw [← isFloat_sortJ a', ← hsja, isFloat_sortJ]
      have hFb : b'.isFloat = b.isFloat := by rw [← isFloat_sortJ b', ← hsjb, isFloat_sortJ]
      have hIa : a'.isInt = a.isInt := by rw [← isInt_sortJ a', ← hsja, isInt_sortJ]
      have hIb : b'.isInt = b.isInt := by rw [← isInt_sortJ b', ← hsjb, isInt_sortJ]
      have hNa : a'.isNull = a.isNull := by rw [← isNull_sortJ a', ← hsja, isNull_sortJ]
      have hNb : b'.isNull = b.isNull := by rw [← isNull_sortJ b', ← hsjb, isNull_sortJ]
      have hSa : a'.isStr = a.isStr := by rw [← isStr_sortJ a', ← hsja, isStr_sortJ]
      have hSb : b'.isStr = b.isStr := by rw [← isStr_sortJ b', ← hsjb, isStr_sortJ]
      have hBa : a'.isBool = a.isBool := by rw [← isBool_sortJ a', ← hsja, isBool_sortJ]
      have hBb : b'.isBool = b.isBool := by rw [← isBool_sortJ b', ← hsjb, isBool_sortJ]
      have hAa : a'.isArr = a.isArr := by rw [← isArr_sortJ a', ← hsja, isArr_sortJ]
      have hAb : b'.isArr = b.isArr := by rw [← isArr_sortJ b', ← hsjb, isArr_sortJ]
      have hOa : a'.isObj = a.isObj := by rw [← isObj_sortJ a', ← hsja, isObj_sortJ]
      have hOb : b'.isObj = b.isObj := by rw [← isObj_sortJ b', ← hsjb, isObj_sortJ]
      have hmfa : mustFloat64 a' = mustFloat64 a := by
        rw [← mustFloat64_sortJ a', ← hsja, mustFloat64_sortJ]
      have hmfb : mustFloat64 b' = mustFloat64 b := by
        rw [← mustFloat64_sortJ b', ← hsjb, mustFloat64_sortJ]
      have hfza : float64OrZero a' = float64OrZero a := by
        rw [← float64OrZero_sortJ a', ← hsja, float64OrZero_sortJ]
      have hfzb : float64OrZero b' = float64OrZero b := by
        rw [← float64OrZero_sortJ b', ← hsjb, float64OrZero_sortJ]
      have hioa : a'.intOrDefault 0 = a.intOrDefault 0 := by
        rw [← intOrDefault_sortJ a' 0, ← hsja, intOrDefault_sortJ]
      have hiob : b'.intOrDefault 0 = b.intOrDefault 0 := by
        rw [← intOrDefault_sortJ b' 0, ← hsjb, intOrDefault_sortJ]
      have hida : a'.intD = a.intD := by rw [← intD_sortJ a', ← hsja, intD_sortJ]
      have hidb : b'.intD = b.intD := by rw [← intD_sortJ b', ← hsjb, intD_sortJ]
      have hsoa : a'.strOrDefault "" = a.strOrDefault "" := by
        rw [← strOrDefault_sortJ a' "", ← hsja, strOrDefault_sortJ]
      have hsob : b'.strOrDefault "" = b.strOrDefault "" := by
        rw [← strOrDefault_sortJ b' "", ← hsjb, strOrDefault_sortJ]
      have hsda : a'.strD = a.strD := by rw [← strD_sortJ a', ← hsja, strD_sortJ]
      have hsdb : b'.strD = b.strD := by rw [← strD_sortJ b', ← hsjb, strD_sortJ]
      have hboa : a'.boolOrDefault false = a.boolOrDefault false := by
        rw [← boolOrDefault_sortJ a' false, ← hsja, boolOrDefault_sortJ]
      have hbob : b'.boolOrDefault false = b.boolOrDefault false := by
        rw [← boolOrDefault_sortJ b' false, ← hsjb, boolOrDefault_sortJ]
      have hbda : a'.boolD = a.boolD := by rw [← boolD_sortJ a', ← hsja, boolD_sortJ]
      have hbdb : b'.boolD = b.boolD := by rw [← boolD_sortJ b', ← hsjb, boolD_sortJ]
      have hkna : kindName a' = kindName a := by
        rw [← kindName_sortJ a', ← hsja, kindName_sortJ]
      rw [diffValuesCoerced, diffValuesCoerced]
      rw [hFa, hFb, hIa, hIb, hNa, hNb, hSa, hSb, hBa, hBb, hAa, hAb, hOa, hOb,
        hmfa, hmfb, hfza, hfzb, hioa, hiob, hida, hidb, hsoa, hsob, hsda, hsdb,
        hboa, hbob, hbda, hbdb, hkna]
      by_cases h1 : ((a.isFloat || b.isFloat) &&
          ((a.isFloat || a.isInt || (cA && a.isNull)) &&
           (b.isFloat || b.isInt || (cB && b.isNull)))) = true
      · rw [if_pos h1, if_pos h1]
        by_cases h1f : d.floatEqualFunc sel (if cA then float64OrZero a else mustFloat64 a)
            (if cB then float64OrZero b else mustFloat64 b) = true
        · rw [if_pos h1f, if_pos h1f]
        · rw [if_neg h1f, if_neg h1f]
          exact lineAB_congr d "" sel true (some (d.floatEqualFunc sel)) hsja hsjb
      · rw [if_neg h1, if_neg h1]
        by_cases h2 : ((a.isInt || (cA && a.isNull)) && (b.isInt || (cB && b.isNull))) = true
        · rw [if_pos h2, if_pos h2]
          by_cases h2v : ((if cA then a.intOrDefault 0 else a.intD) ==
              (if cB then b.intOrDefault 0 else b.intD)) = true
          · rw [if_pos h2v, if_pos h2v]
          · rw [if_neg h2v, if_neg h2v]
            exact lineAB_congr d "" sel true none hsja hsjb
        · rw [if_neg h2, if_neg h2]
          by_cases h3 : ((a.isStr || (cA && a.isNull)) && (b.isStr || (cB && b.isNull))) = true
          · rw [if_pos h3, if_pos h3]
            by_cases h3v : ((if cA then a.strOrDefault "" else a.strD) ==
                (if cB then b.strOrDefault "" else b.strD)) = true
            · rw [if_pos h3v, if_pos h3v]
            · rw [if_neg h3v, if_neg h3v]
              exact lineAB_congr d "" sel true none hsja hsjb
          · rw [if_neg h3, if_neg h3]
            by_cases h4 : ((a.isBool || (cA && a.isNull)) &&
                (b.isBool || (cB && b.isNull))) = true
            · rw [if_pos h4, if_pos h4]
              by_cases h4v : ((if cA then a.boolOrDefault false else a.boolD) ==
                  (if cB then b.boolOrDefault false else b.boolD)) = true
              · rw [if_pos h4v, if_pos h4v]
              · rw [if_neg h4v, if_neg h4v]
                exact lineAB_congr d "" sel true none hsja hsjb
            · rw [if_neg h4, if_neg h4]
              by_cases h5 : ((a.isArr || (cA && a.isNull)) &&
                  (b.isArr || (cB && b.isNull))) = true
              · rw [if_pos h5, if_pos h5]
                refine hCIS (nilToEmptySlice a) (nilToEmptySlice a') (nilToEmptySlice b)
                  (nilToEmptySlice b') d sel ?_
                  (wfKeys_nilToEmptySlice hwa) (wfKeys_nilToEmptySlice hwa')
                  (wfKeys_nilToEmptySlice hwb) (wfKeys_nilToEmptySlice hwb')
                  (sortJ_nilToEmptySlice_congr hsja) (sortJ_nilToEmptySlice_congr hsjb)
                have s1 := jsize_nilToEmptySlice_le a
                have s2 := jsize_nilToEmptySlice_le b
                omega
              · rw [if_neg h5, if_neg h5]
                by_cases h6 : ((a.isObj || (cA && a.isNull)) &&
                    (b.isObj || (cB && b.isNull))) = true
                · rw [if_pos h6, if_pos h6]
                  refine hCM (if cA then a.objOrDefault [] else a.objD)
                    (if cA then a'.objOrDefault [] else a'.objD)
                    (if cB then b.objOrDefault [] else b.objD)
                    (if cB then b'.objOrDefault [] else b'.objD) d sel ?_
                    (wfKeys_objX_nodup cA hwa) (wfKeys_objX_nodup cA hwa')
                    (wfKeys_objX_nodup cB hwb) (wfKeys_objX_nodup cB hwb')
                    (wfKeys_objX_wfM cA hwa) (wfKeys_objX_wfM cA hwa')
                    (wfKeys_objX_wfM cB hwb) (wfKeys_objX_wfM cB hwb')
                    (objX_sortM_congr cA hsja) (objX_sortM_congr cB hsjb)
                  have s1 := jsizeM_objX_lt cA a
                  have s2 := jsizeM_objX_lt cB b
                  omega
                · rw [if_neg h6, if_neg h6]
    have hCV : ∀ (a a' b b' : JValue) (d : Differ) (sel : String),
        jsize a + jsize b ≤ n →
        wfKeys a = true → wfKeys a' = true → wfKeys b = true → wfKeys b' = true →
        sortJ a = sortJ a' → sortJ b = sortJ b' →
        diffValues d sel a b = diffValues d sel a' b' := by
      intro a a' b b' d sel hsz hwa hwa' hwb hwb' hsja hsjb
      have hNa : a'.isNull = a.isNull := by rw [← isNull_sortJ a', ← hsja, isNull_sortJ]
      have hNb : b'.isNull = b.isNull := by rw [← isNull_sortJ b', ← hsjb, isNull_sortJ]
      rw [diffValues, diffValues, hNa, hNb]
      by_cases hg : (((d.shouldCoerceNull sel).1 && a.isNull) ||
          ((d.shouldCoerceNull sel).2 && b.isNull)) = true
      · rw [if_pos hg, if_pos hg]
        exact hCC a a' b b' d sel (d.shouldCoerceNull sel).1 (d.shouldCoerceNull sel).2
          hsz hwa hwa' hwb hwb' hsja hsjb
      · rw [if_neg hg, if_neg hg]
        exact hCP (tryAsNumberWhen (d.shouldConvertStringToNumber sel) a)
          (tryAsNumberWhen (d.shouldConvertStringToNumber sel) a')
          (tryAsNumberWhen (d.shouldConvertStringToNumber sel) b)
          (tryAsNumberWhen (d.shouldConvertStringToNumber sel) b') d sel
          (by rw [jsize_tryAsNumberWhen, jsize_tryAsNumberWhen]; exact hsz)
          (wfKeys_tryAsNumberWhen _ hwa) (wfKeys_tryAsNumberWhen _ hwa')
          (wfKeys_tryAsNumberWhen _ hwb) (wfKeys_tryAsNumberWhen _ hwb')
          (sortJ_tryAsNumberWhen_congr _ hsja) (sortJ_tryAsNumberWhen_congr _ hsjb)
    exact ⟨hCP, hCV, hCC, hCIS, hCMS, hCM⟩

/-- Example A of the spec's selector-format walkthrough. -/
def exA5 : JMap :=
  [("n", .int 42), ("s", .str "hello"), ("arr", .arr [.int 4, .int 2, .int 1])]

/-- Example B of the spec's selector-format walkthrough. -/
def exB5 : JMap :=
  [("n", .int 43), ("s", .str "hellp"), ("arr", .arr [.int 4, .int 2, .int 99])]

/-- An array of two distinct objects. -/
def exA10 : JMap := [("a", .arr [.obj [("x", .int 1)], .obj [("x", .int 2)]])]

/-- The same two objects in the opposite array order. -/
def exB10 : JMap := [("a", .arr [.obj [("x", .int 2)], .obj [("x", .int 1)]])]

/-- C5. For the spec's example pair, `Diff` returns exactly the three
patches (arr[2], n, s) in sorted-key order: object keys joined with a dot
(no leading dot at the root), array indices appended as `[i]` with no
separator, strings re-quoted. -/
theorem diff_selector_format_example :
    Diff exA5 exB5 =
      .ok [⟨"arr[2]", "1", "99"⟩, ⟨"n", "42", "43"⟩, ⟨"s", "\"hello\"", "\"hellp\""⟩] := by
  rw [Diff, ← DiffF_eq 1000 NewDiffer exA5 exB5 (by decide)]
  decide

/-- C2. The ignore-order pre-check deems A = [1] and B = [] equal and the
whole array subtree emits nothing, although A's only element pairs with no
element of B and the lengths differ; without the rule the positional diff
emits the left-only patch.  The `idxEqualA.Add(idxA)` placed after the
inner loop (rather than inside its success branch) makes the all-of-A-paired
conjunct of the final length check vacuous, so the pre-check tests only
that every element of B was claimed. -/
theorem ignore_order_unpaired_a_deemed_equal :
    (NewDiffer.AddIgnoreOrder (fun _ => true)).Diff
      [("list", .arr [.int 1])] [("list", .arr [])] = .ok [] ∧
    Diff [("list", .arr [.int 1])] [("list", .arr [])] =
      .ok [⟨"list[0]", "1", ""⟩] := by
  constructor
  · rw [← DiffF_eq 1000 (NewDiffer.AddIgnoreOrder (fun _ => true)) _ _ (by decide)]
    decide
  · rw [Diff, ← DiffF_eq 1000 NewDiffer _ _ (by decide)]
    decide

/-- C7. The spec's zero-suppression example does return the empty patch
list (every key of A is matched by an ignore-if-zero rule, holds its kind's
zero value and is absent from B), but the suppression does not hold at
every emission site: the positional array walk emits its overhang patches
with raw (unwrapped) operands, whose `isZero` panics on a slice, map or
nil value instead of dropping the patch, so an ignore-if-zero rule that
matches an array-overhang selector whose element is an empty array crashes
the diff. -/
theorem ignore_if_zero_example_and_raw_panic :
    (NewDiffer.AddIgnoreIfZero .RuleAB (fun _ => true)).Diff
      [("n", .int 0), ("s", .str ""), ("arr", .arr []), ("obj", .obj []), ("b", .bool false)]
      [] = .ok [] ∧
    (NewDiffer.AddIgnoreIfZero .RuleAB (fun _ => true)).Diff
      [("a", .arr [.arr []])] [("a", .arr [])] =
      .error "panic: isZero does not support this raw type" := by
  constructor
  · rw [← DiffF_eq 1000 (NewDiffer.AddIgnoreIfZero .RuleAB (fun _ => true)) _ _ (by decide)]
    decide
  · rw [← DiffF_eq 1000 (NewDiffer.AddIgnoreIfZero .RuleAB (fun _ => true)) _ _ (by decide)]
    decide

/-- C6. In the coerced comparison a Null on the coercing side — either
side — compares as the zero counterpart of the other side's kind: 0
against an int, 0.0 against a float, "" against a string, false against a
bool, the empty array against an array, the empty object against an
object, while a mismatch still reports the original `null` text.  The
first six conjuncts cover a Null on side A under an A-side coerce rule,
the next six the mirror image (a Null on side B under a B-side coerce
rule), and the last is the spec's example ({"key":null} against
{"key":0} with coerce-null on side A), which diffs empty. -/
theorem coerce_null_zero_counterpart :
    (∀ (d : Differ) (sel : String) (n : Int) (cB : Bool),
      diffValuesCoerced d sel .null (.int n) true cB =
        if (0 : Int) == n then .ok d
        else d.lineAB "" sel ⟨.null, true, none⟩ ⟨.int n, true, none⟩) ∧
    (∀ (d : Differ) (sel : String) (q : Rat) (cB : Bool),
      diffValuesCoerced d sel .null (.float q) true cB =
        if d.floatEqualFunc sel 0 q then .ok d
        else d.lineAB "" sel ⟨.null, true, some (d.floatEqualFunc sel)⟩
          ⟨.float q, true, some (d.floatEqualFunc sel)⟩) ∧
    (∀ (d : Differ) (sel : String) (s : String) (cB : Bool),
      diffValuesCoerced d sel .null (.str s) true cB =
        if "" == s then .ok d
        else d.lineAB "" sel ⟨.null, true, none⟩ ⟨.str s, true, none⟩) ∧
    (∀ (d : Differ) (sel : String) (b : Bool) (cB : Bool),
      diffValuesCoerced d sel .null (.bool b) true cB =
        if false == b then .ok d
        else d.lineAB "" sel ⟨.null, true, none⟩ ⟨.bool b, true, none⟩) ∧
    (∀ (d : Differ) (sel : String) (xs : List JValue) (cB : Bool),
      diffValuesCoerced d sel .null (.arr xs) true cB =
        diffInterSlice d sel (.arr []) (.arr xs)) ∧
    (∀ (d : Differ) (sel : String) (m : JMap) (cB : Bool),
      diffValuesCoerced d sel .null (.obj m) true cB =
        diffMap d sel [] m) ∧
    (∀ (d : Differ) (sel : String) (n : Int) (cA : Bool),
      diffValuesCoerced d sel (.int n) .null cA true =
        if n == (0 : Int) then .ok d
        else d.lineAB "" sel ⟨.int n, true, none⟩ ⟨.null, true, none⟩) ∧
    (∀ (d : Differ) (sel : String) (q : Rat) (cA : Bool),
      diffValuesCoerced d sel (.float q) .null cA true =
        if d.floatEqualFunc sel q 0 then .ok d
        else d.lineAB "" sel ⟨.float q, true, some (d.floatEqualFunc sel)⟩
          ⟨.null, true, some (d.floatEqualFunc sel)⟩) ∧
    (∀ (d : Differ) (sel : String) (s : String) (cA : Bool),
      diffValuesCoerced d sel (.str s) .null cA true =
        if s == "" then .ok d
        else d.lineAB "" sel ⟨.str s, true, none⟩ ⟨.null, true, none⟩) ∧
    (∀ (d : Differ) (sel : String) (b : Bool) (cA : Bool),
      diffValuesCoerced d sel (.bool b) .null cA true =
        if b == false then .ok d
        else d.lineAB "" sel ⟨.bool b, true, none⟩ ⟨.null, true, none⟩) ∧
    (∀ (d : Differ) (sel : String) (xs : List JValue) (cA : Bool),
      diffValuesCoerced d sel (.arr xs) .null cA true =
        diffInterSlice d sel (.arr xs) (.arr [])) ∧
    (∀ (d : Differ) (sel : String) (m : JMap) (cA : Bool),
      diffValuesCoerced d sel (.obj m) .null cA true =
        diffMap d sel m []) ∧
    (NewDiffer.AddCoerceNull .RuleA (fun _ => true)).Diff
      [("key", .null)] [("key", .int 0)] = .ok [] := by
  refine ⟨?_, ?_, ?_, ?_, ?_, ?_, ?_, ?_, ?_, ?_, ?_, ?_, ?_⟩
  · intro d sel n cB
    rw [diffValuesCoerced]
    cases cB <;>
      simp [JValue.isFloat, JValue.isInt, JValue.isNull, JValue.isStr, JValue.isBool,
        JValue.isArr, JValue.isObj, JValue.intOrDefault, JValue.intD]
  · intro d sel q cB
    rw [diffValuesCoerced]
    cases cB <;>
      simp [JValue.isFloat, JValue.isInt, JValue.isNull, float64OrZero, mustFloat64]
  · intro d sel s cB
    rw [diffValuesCoerced]
    cases cB <;>
      simp [JValue.isFloat, JValue.isInt, JValue.isNull, JValue.isStr, JValue.isBool,
        JValue.strOrDefault, JValue.strD]
  · intro d sel b cB
    rw [diffValuesCoerced]
    cases cB <;>
      simp [JValue.isFloat, JValue.isInt, JValue.isNull, JValue.isStr, JValue.isBool,
        JValue.boolOrDefault, JValue.boolD]
  · intro d sel xs cB
    rw [diffValuesCoerced]
    cases cB <;>
      simp [JValue.isFloat, JValue.isInt, JValue.isNull, JValue.isStr, JValue.isBool,
        JValue.isArr, nilToEmptySlice]
  · intro d sel m cB
    rw [diffValuesCoerced]
    cases cB <;>
      simp [JValue.isFloat, JValue.isInt, JValue.isNull, JValue.isStr, JValue.isBool,
        JValue.isArr, JValue.isObj, JValue.objOrDefault, JValue.objD]
  · intro d sel n cA
    rw [diffValuesCoerced]
    cases cA <;>
      simp [JValue.isFloat, JValue.isInt, JValue.isNull, JValue.isStr, JValue.isBool,
        JValue.isArr, JValue.isObj, JValue.intOrDefault, JValue.intD]
  · intro d sel q cA
    rw [diffValuesCoerced]
    cases cA <;>
      simp [JValue.isFloat, JValue.isInt, JValue.isNull, float64OrZero, mustFloat64]
  · intro d sel s cA
    rw [diffValuesCoerced]
    cases cA <;>
      simp [JValue.isFloat, JValue.isInt, JValue.isNull, JValue.isStr, JValue.isBool,
        JValue.strOrDefault, JValue.strD]
  · intro d sel b cA
    rw [diffValuesCoerced]
    cases cA <;>
      simp [JValue.isFloat, JValue.isInt, JValue.isNull, JValue.isStr, JValue.isBool,
        JValue.boolOrDefault, JValue.boolD]
  · intro d sel xs cA
    rw [diffValuesCoerced]
    cases cA <;>
      simp [JValue.isFloat, JValue.isInt, JValue.isNull, JValue.isStr, JValue.isBool,
        JValue.isArr, nilToEmptySlice]
  · intro d sel m cA
    rw [diffValuesCoerced]
    cases cA <;>
      simp [JValue.isFloat, JValue.isInt, JValue.isNull, JValue.isStr, JValue.isBool,
        JValue.isArr, JValue.isObj, JValue.objOrDefault, JValue.objD]
  · rw [← DiffF_eq 1000 (NewDiffer.AddCoerceNull .RuleA (fun _ => true)) _ _ (by decide)]
    decide

theorem objxMapSliceGo_all {xs : List JValue} {ms : List JMap}
    (h : objxMapSliceGo xs = some ms) : xs.all JValue.isObj = true := by
  induction xs generalizing ms with
  | nil => simp
  | cons x rest ih =>
    cases x <;> simp [objxMapSliceGo] at h
    rcases h with ⟨ms2, hms2, _⟩
    simp [JValue.isObj, ih hms2]

/-- C10. A slice whose elements all convert to objx maps always dispatches
to the positional object-slice comparator, for every differ — the
ignore-order pre-check sits only on the generic-slice path — and on the
spec's two-object arrays in swapped order an everything-matching
ignore-order rule leaves the emitted patches exactly the positional ones,
identical to the run without the rule. -/
theorem objx_map_slice_positional_despite_ignore_order :
    (∀ (d : Differ) (sel : String) (vA vB : JValue) (sa sb : List JMap),
      objxMapSliceOf vA = some sa → objxMapSliceOf vB = some sb →
      diffValuesPost d sel vA vB = diffObjxMapSlice d sel sa sb) ∧
    (NewDiffer.AddIgnoreOrder (fun _ => true)).Diff exA10 exB10 =
      .ok [⟨"a[0].x", "1", "2"⟩, ⟨"a[1].x", "2", "1"⟩] ∧
    Diff exA10 exB10 = .ok [⟨"a[0].x", "1", "2"⟩, ⟨"a[1].x", "2", "1"⟩] := by
  refine ⟨?_, ?_, ?_⟩
  · intro d sel vA vB sa sb hsa hsb
    match vA, hsa with
    | .arr xsa, hsa =>
      match vB, hsb with
      | .arr xsb, hsb =>
        simp only [objxMapSliceOf] at hsa hsb
        rw [diffValuesPost]
        simp only [JValue.isInt, JValue.isFloat, JValue.isBool, JValue.isStr, kindTag,
          Bool.false_or, Bool.false_and, Bool.and_false, Bool.not_false, Bool.true_and,
          beq_self_eq_true, Bool.not_true, Bool.and_true, if_false]
        rw [if_neg (by simp), if_neg (by simp), if_neg (by simp), if_neg (by simp),
          if_neg (by simp)]
        rw [if_pos (by simpa [isObjxMapSlice] using objxMapSliceGo_all hsa)]
        split
        · rename_i sliceA sliceB h1 h2
          simp only [objxMapSliceOf] at h1 h2
          rw [hsa] at h1
          rw [hsb] at h2
          injection h1 with h1
          injection h2 with h2
          rw [h1, h2]
        · rename_i hno
          cases hno sa sb (by simp only [objxMapSliceOf]; exact hsa)
            (by simp only [objxMapSliceOf]; exact hsb)
  · rw [← DiffF_eq 1000 (NewDiffer.AddIgnoreOrder (fun _ => true)) _ _ (by decide)]
    decide
  · rw [Diff, ← DiffF_eq 1000 NewDiffer _ _ (by decide)]
    decide

/-- Witness for C10: the dispatch equation at the swapped two-object
arrays with the everything-matching ignore-order rule installed. -/
theorem objx_map_slice_positional_witness :
    diffValuesPost (NewDiffer.AddIgnoreOrder (fun _ => true)) "a"
        (.arr [.obj [("x", .int 1)], .obj [("x", .int 2)]])
        (.arr [.obj [("x", .int 2)], .obj [("x", .int 1)]]) =
      diffObjxMapSlice (NewDiffer.AddIgnoreOrder (fun _ => true)) "a"
        [[("x", .int 1)], [("x", .int 2)]] [[("x", .int 2)], [("x", .int 1)]] :=
  objx_map_slice_positional_despite_ignore_order.1
    (NewDiffer.AddIgnoreOrder (fun _ => true)) "a" _ _ _ _ rfl rfl

theorem detectInner_rules_only {d d' : Differ} (hA : d'.rulesA = d.rulesA)
    (hB : d'.rulesB = d.rulesB) (sel : String) (idxA : Nat) (a : JValue)
    (bs : List JValue) (idxB : Nat) (idxEqualB : intSet) :
    detectInner d' sel idxA a bs idxB idxEqualB =
      detectInner d sel idxA a bs idxB idxEqualB := by
  induction bs generalizing idxB with
  | nil => rw [detectInner, detectInner]
  | cons b rest ih =>
    rw [detectInner, detectInner]
    have hclone : d'.clone = d.clone := by
      unfold Differ.clone
      rw [hA, hB]
    rw [hclone]
    by_cases h : idxEqualB.Has idxB = true
    · rw [if_pos h, if_pos h, ih]
    · rw [if_neg h, if_neg h]
      split
      · rfl
      · split
        · rfl
        · exact ih (idxB + 1)

theorem detectOuter_rules_only {d d' : Differ} (hA : d'.rulesA = d.rulesA)
    (hB : d'.rulesB = d.rulesB) (sel : String) (la lbFull : List JValue)
    (idxA : Nat) (idxEqualA idxEqualB : intSet) :
    detectOuter d' sel la lbFull idxA idxEqualA idxEqualB =
      detectOuter d sel la lbFull idxA idxEqualA idxEqualB := by
  induction la generalizing idxA idxEqualA idxEqualB with
  | nil => rw [detectOuter, detectOuter]
  | cons a rest ih =>
    rw [detectOuter, detectOuter, detectInner_rules_only hA hB]
    split
    · rfl
    · exact ih _ _ _
    · exact ih _ _ _

/-- C3. The ignore-order pre-check reads the differ only through its rules
(its speculative sub-diffs run on fresh clones with empty accumulators), so
its verdict on a clone equals its verdict on the real differ; when the
verdict is not-equal the engine hands the untouched accumulator to the
plain positional diff, and when the verdict is equal it returns the
accumulator unchanged. -/
theorem ignore_order_precheck_frame_and_fallback :
    (∀ (d : Differ) (sel : String) (vA vB : JValue),
      diffInterSliceDetectEquals d.clone sel vA vB =
        diffInterSliceDetectEquals d sel vA vB) ∧
    (∀ (d : Differ) (sel : String) (vA vB : JValue),
      vA.isArr = true → vB.isArr = true → d.shouldIgnoreOrder sel = true →
      diffInterSliceDetectEquals d sel vA vB = .ok false →
      diffInterSlice d sel vA vB = diffInterSlicePositional d sel vA.arrD vB.arrD) ∧
    (∀ (d : Differ) (sel : String) (vA vB : JValue),
      d.shouldIgnoreOrder sel = true →
      diffInterSliceDetectEquals d sel vA vB = .ok true →
      diffInterSlice d sel vA vB = .ok d) := by
  refine ⟨?_, ?_, ?_⟩
  · intro d sel vA vB
    rw [diffInterSliceDetectEquals, diffInterSliceDetectEquals]
    rw [show detectOuter d.clone sel vA.arrD vB.arrD 0 [] [] =
      detectOuter d sel vA.arrD vB.arrD 0 [] [] from
      @detectOuter_rules_only d d.clone rfl rfl sel _ _ 0 [] []]
  · intro d sel vA vB hA hB hio hdet
    rw [diffInterSlice, if_neg (by rw [hA, hB]; simp), if_pos hio, hdet]
  · intro d sel vA vB hio hdet
    by_cases hA : vA.isArr = true
    · by_cases hB : vB.isArr = true
      · rw [diffInterSlice, if_neg (by rw [hA, hB]; simp), if_pos hio, hdet]
      · rw [diffInterSliceDetectEquals,
          if_pos (by rw [Bool.not_eq_true] at hB; rw [hB]; simp)] at hdet
        cases hdet
    · rw [diffInterSliceDetectEquals,
        if_pos (by rw [Bool.not_eq_true] at hA; rw [hA]; simp)] at hdet
      cases hdet

/-- Counterexample to C3's all-or-nothing fallback sentence: the only
element of A = [1] fails to pair (B = [] offers no partner), yet under an
ignore-order rule the engine does not fall back to the positional diff — it
deems the arrays equal and emits nothing, where the positional diff emits
the left-only patch. -/
theorem ignore_order_fallback_counterexample :
    (NewDiffer.AddIgnoreOrder (fun _ => true)).Diff
      [("l", .arr [.int 1])] [("l", .arr [])] = .ok [] ∧
    Diff [("l", .arr [.int 1])] [("l", .arr [])] = .ok [⟨"l[0]", "1", ""⟩] := by
  constructor
  · rw [← DiffF_eq 1000 (NewDiffer.AddIgnoreOrder (fun _ => true)) _ _ (by decide)]
    decide
  · rw [Diff, ← DiffF_eq 1000 NewDiffer _ _ (by decide)]
    decide

/-- Witness for C3: on A = [1], B = [2] the pre-check reports not-equal and
the fallback equation hands the run to the positional diff. -/
theorem ignore_order_precheck_witness :
    diffInterSlice (NewDiffer.AddIgnoreOrder (fun _ => true)) "l"
        (.arr [.int 1]) (.arr [.int 2]) =
      diffInterSlicePositional (NewDiffer.AddIgnoreOrder (fun _ => true)) "l"
        [.int 1] [.int 2] :=
  ignore_order_precheck_frame_and_fallback.2.1
    (NewDiffer.AddIgnoreOrder (fun _ => true)) "l" (.arr [.int 1]) (.arr [.int 2])
    rfl rfl (by decide)
    (by
      rw [← diffInterSliceDetectEqualsF_eq 1000 (NewDiffer.AddIgnoreOrder (fun _ => true))
        "l" (.arr [.int 1]) (.arr [.int 2]) (by decide)]
      decide)

/-- C9: the engine is a pure, deterministic function of
`(treeA, treeB, ruleSet)`.  In this embedding `Differ.Diff` is a function,
so two runs on literally identical inputs are definitionally equal; the
substantive remainder of the claim is independence from the original field
order of the input objects, proved here: any two well-formed inputs whose
canonical (recursively key-sorted) presentations agree produce the same
patch list, element for element. -/
theorem diff_field_order_independent (d : Differ) (mA mA' mB mB' : JMap)
    (hwA : wfKeys (JValue.obj mA) = true) (hwA' : wfKeys (JValue.obj mA') = true)
    (hwB : wfKeys (JValue.obj mB) = true) (hwB' : wfKeys (JValue.obj mB') = true)
    (hA : sortJ (JValue.obj mA) = sortJ (JValue.obj mA'))
    (hB : sortJ (JValue.obj mB) = sortJ (JValue.obj mB')) :
    d.Diff mA mB = d.Diff mA' mB' := by
  have hndA : nodupB (mA.map Prod.fst) = true := by
    have h := hwA; rw [wfKeys, Bool.and_eq_true] at h; exact h.1
  have hndA2 : nodupB (mA'.map Prod.fst) = true := by
    have h := hwA'; rw [wfKeys, Bool.and_eq_true] at h; exact h.1
  have hndB : nodupB (mB.map Prod.fst) = true := by
    have h := hwB; rw [wfKeys, Bool.and_eq_true] at h; exact h.1
  have hndB2 : nodupB (mB'.map Prod.fst) = true := by
    have h := hwB'; rw [wfKeys, Bool.and_eq_true] at h; exact h.1
  have hwMA : wfKeysM mA = true := by
    have h := hwA; rw [wfKeys, Bool.and_eq_true] at h; exact h.2
  have hwMA2 : wfKeysM mA' = true := by
    have h := hwA'; rw [wfKeys, Bool.and_eq_true] at h; exact h.2
  have hwMB : wfKeysM mB = true := by
    have h := hwB; rw [wfKeys, Bool.and_eq_true] at h; exact h.2
  have hwMB2 : wfKeysM mB' = true := by
    have h := hwB'; rw [wfKeys, Bool.and_eq_true] at h; exact h.2
  have hA2 : sortM mA = sortM mA' := by
    have h := hA
    simp only [sortJ, JValue.obj.injEq] at h
    exact h
  have hB2 : sortM mB = sortM mB' := by
    have h := hB
    simp only [sortJ, JValue.obj.injEq] at h
    exact h
  have hkey := (congr_engine (jsizeM mA + jsizeM mB + 1)).2.2.2.2.2 mA mA' mB mB'
    { diff := [], rulesA := d.rulesA, rulesB := d.rulesB } "" (by omega)
    hndA hndA2 hndB hndB2 hwMA hwMA2 hwMB hwMB2 hA2 hB2
  simp only [Differ.Diff]
  rw [hkey]

/-- Witness for C9: the same pair of objects presented with their fields in
two different orders yields the identical patch list. -/
theorem diff_field_order_independent_witness :
    NewDiffer.Diff [("a", JValue.int 1), ("b", JValue.int 2)]
        [("b", JValue.int 3), ("a", JValue.int 1)] =
      NewDiffer.Diff [("b", JValue.int 2), ("a", JValue.int 1)]
        [("a", JValue.int 1), ("b", JValue.int 3)] :=
  diff_field_order_independent NewDiffer
    [("a", JValue.int 1), ("b", JValue.int 2)]
    [("b", JValue.int 2), ("a", JValue.int 1)]
    [("b", JValue.int 3), ("a", JValue.int 1)]
    [("a", JValue.int 1), ("b", JValue.int 3)]
    (by decide) (by decide) (by decide) (by decide) rfl rfl

end Jf
